import Mathlib

/-!
# PrepTracker: contest candidate selection and mastery scoring

A shallow embedding of `services/api/internal/contests/selection.go` and of the
request validation in `contests/handlers.go`, followed by the calendar export
(`calendar/ics.go`, `calendar/handlers.go`), the handlers that resolve the timezone of
the user (`reviews`, `contests`, `problems`, `lists`, `stats`), the topic statistics
(`stats/handlers.go`) and the refresh tokens (`auth`).

Conventions of the embedding:

* Go `int` is a 64-bit two's complement integer: an `Int` that the arithmetic
  of the source brings back into range with `wrap64` (the counters `want[..]--`,
  `usedTopics[t]++` and `newTopics++` move by one at most once per pool entry or
  topic and are left unwrapped).
* `time.Time` is an instant, counted in nanoseconds; `time.Duration` is a number
  of nanoseconds that `Time.Sub` saturates at the ends of the int64 range.
* `float64` scores live in a linearly ordered field `F` (rounding, infinities and
  NaN are not modelled there, and the constant `1.3` is `13/10`; `ℚ` makes every
  definition executable).  Only `Duration.Hours`, whose result is truncated to an
  `int`, is modelled with the exact IEEE-754 rounding, on rationals.
* What the Go runtime and standard library leave open is collected in a
  `Runtime` record: the Unicode lower-case table, `math.Log2`, and the order in
  which `range` visits the keys of a map.
* A Go panic is a value of `Fault`; functions that can panic return `Except Fault`.
* A handler is a function of what it gets from the request and from its collaborators
  (database, clock, `time.LoadLocation`); the package `scheduler` is not among the
  sources, and the handlers keep a record of their calls of it or take its function
  as an argument.
-/

set_option linter.unusedSectionVars false

namespace PrepTracker

/-! ## Machine integers and instants -/

/-- Bring an integer back into the range of a Go `int` (64-bit two's complement). -/
def wrap64 (x : Int) : Int := (x + 2 ^ 63) % 2 ^ 64 - 2 ^ 63

/-- An instant (`time.Time` compared with `Before`, `Sub`): nanoseconds since a fixed epoch. -/
abbrev Time := Int

/-- A `time.Duration`: nanoseconds, an int64. -/
abbrev Duration := Int

def maxDuration : Duration := 2 ^ 63 - 1
def minDuration : Duration := -(2 ^ 63)

/-- The constant `time.Hour`. -/
def Hour : Duration := 3600000000000

/-- Go `Time.Before`. -/
def Time.Before (t u : Time) : Bool := decide (t < u)

/-- Go `Time.Sub`: the difference `t - u`, saturated to the range of a `Duration`. -/
def Time.Sub (t u : Time) : Duration :=
  if minDuration ≤ t - u ∧ t - u ≤ maxDuration then t - u
  else if t < u then minDuration
  else maxDuration

/-! ## float64 arithmetic with IEEE-754 rounding (finite, normal range) -/

/-- Nearest integer to `q`, ties to the even one. -/
def roundHalfEven (q : ℚ) : Int :=
  let f := Int.floor q
  let r := q - f
  if r < 1 / 2 then f
  else if 1 / 2 < r then f + 1
  else if f % 2 = 0 then f else f + 1

/-- Position of the highest set bit of `n` (`0` for `n < 2`); `fuel` bounds the number of halvings. -/
def bitLog : Nat → Nat → Nat
  | 0, _ => 0
  | fuel + 1, n => if n < 2 then 0 else bitLog fuel (n / 2) + 1

/-- Binary exponent of a nonzero rational: the `e` with `2^e ≤ |q| < 2^(e+1)`. -/
def binExp (q : ℚ) : Int :=
  let e0 : Int := (bitLog q.num.natAbs q.num.natAbs : Int) - (bitLog q.den q.den : Int)
  if (2 : ℚ) ^ e0 ≤ |q| then e0 else e0 - 1

/-- Round a rational to the nearest float64 (53-bit significand, ties to even;
exponent range not modelled). -/
def roundF64 (q : ℚ) : ℚ :=
  if q = 0 then 0
  else
    let s : ℚ := (2 : ℚ) ^ (binExp q - 52)
    (roundHalfEven (q / s) : ℚ) * s

/-- Go `Duration.Hours`:
`hour := d / Hour; nsec := d % Hour; return float64(hour) + float64(nsec)/(60*60*1e9)`
(`/` and `%` on integers truncate toward zero). -/
def Duration.Hours (d : Duration) : ℚ :=
  let hour := Int.tdiv d Hour
  let nsec := Int.tmod d Hour
  roundF64 (roundF64 (hour : ℚ) + roundF64 (roundF64 (nsec : ℚ) / 3600000000000))

/-- Go conversion `int(x)` of a float64: truncation toward zero. -/
def truncToInt (x : ℚ) : Int := if 0 ≤ x then Int.floor x else Int.ceil x

/-! ## Mastery scoring (`selection.go`) -/

section Scoring

variable {F : Type} [LinearOrderedField F]

/-- Source: `clamp`. -/
def clamp (v lo hi : F) : F :=
  if v < lo then lo
  else if v > hi then hi
  else v

/-- Source: `masteryScore`.  The argument `log2` stands for `math.Log2`. -/
def masteryScore (log2 : F → F) (reps : Int) (ease : F) (overdueDays : Int) : F :=
  let overduePenalty : F := ((wrap64 (overdueDays * 2) : Int) : F)
  let overduePenalty : F := if overduePenalty > 30 then 30 else overduePenalty
  let m := 20 * log2 ((reps : F) + 1) + 25 * (ease - 13 / 10) - overduePenalty
  clamp m 0 100

end Scoring

/-- Source: `overdueDays`. -/
def overdueDays (now dueAt : Time) : Int :=
  if Time.Before now dueAt then 0
  else
    let d := Time.Sub now dueAt
    wrap64 (truncToInt (roundF64 (Duration.Hours d / 24)))

/-! ## Strings (`strings.ToLower`, `strings.TrimSpace`) -/

/-- Go `unicode.IsSpace`. -/
def isSpace (c : Char) : Bool :=
  let n := c.toNat
  n = 0x09 || n = 0x0A || n = 0x0B || n = 0x0C || n = 0x0D || n = 0x20 || n = 0x85 || n = 0xA0 ||
  n = 0x1680 || (0x2000 ≤ n && n ≤ 0x200A) || n = 0x2028 || n = 0x2029 || n = 0x202F ||
  n = 0x205F || n = 0x3000

/-- Go `strings.TrimSpace`: drop the leading and the trailing white space. -/
def trimSpace (s : String) : String :=
  ⟨((s.data.dropWhile isSpace).reverse.dropWhile isSpace).reverse⟩

/-- Go `strings.ToLower`: an ASCII-only string is lowered byte by byte, any other
string rune by rune with `unicode.ToLower` (the argument `lowerRune`). -/
def toLower (lowerRune : Char → Char) (s : String) : String :=
  if s.data.all (fun c => decide (c.toNat < 128)) then ⟨s.data.map Char.toLower⟩
  else ⟨s.data.map lowerRune⟩

/-! ## Data model (`problems/repository.go`, `contests/selection.go`) -/

/-- What the embedding takes from the Go runtime and standard library. -/
structure Runtime (F : Type) where
  /-- The table behind `unicode.ToLower`. -/
  lowerRune : Char → Char
  /-- The function `math.Log2`. -/
  log2 : F → F
  /-- The order in which a `range` statement visits the keys of a map, given the keys
  in insertion order.  Go fixes no order and may change it from one execution of a
  `range` statement to the next, so the order also depends on which execution it is:
  `rangeOrder n j` is used when `n` problems have been chosen so far, with `j = i + 1`
  for the scan of the candidate at index `i` and `j = 0` for the loop that marks the
  topics of the picked candidate. -/
  rangeOrder : Nat → Nat → List String → List String

/-- Source: `problems.Problem`. -/
structure Problem where
  ID : String
  Platform : String
  URL : String
  Title : String
  Difficulty : String
  Topics : List String
deriving DecidableEq, Repr

/-- Source: `problems.UserState`. -/
structure UserState (F : Type) where
  Reps : Int
  IntervalDays : Int
  Ease : F
  DueAt : Time
  LastReviewAt : Option Time
  LastGrade : Option Int
  IsActive : Bool

/-- Source: `problems.ProblemWithState`. -/
structure ProblemWithState (F : Type) extends Problem where
  State : UserState F

/-- Source: `candidate`. -/
structure candidate (F : Type) where
  problem : Problem
  state : UserState F
  score : F

/-- Source: `DifficultyMix`. -/
structure DifficultyMix where
  Easy : Int
  Medium : Int
  Hard : Int
deriving DecidableEq, Repr

/-- Source: `GenerateParams`. -/
structure GenerateParams where
  Strategy : String
  DurationMinutes : Int
  DifficultyMix : DifficultyMix
deriving DecidableEq, Repr

/-- Source: `GenerateParams.totalCount` (two additions of Go `int`s). -/
def GenerateParams.totalCount (p : GenerateParams) : Int :=
  wrap64 (wrap64 (p.DifficultyMix.Easy + p.DifficultyMix.Medium) + p.DifficultyMix.Hard)

/-- A Go run-time panic, or the exhaustion of the fuel given to a loop of the embedding. -/
inductive Fault where
  | makesliceCapOutOfRange
  | indexOutOfRange
  | integerDivideByZero
  | outOfFuel
deriving DecidableEq, Repr

instance {ε α : Type} [DecidableEq ε] [DecidableEq α] : DecidableEq (Except ε α)
  | .ok a, .ok b => if h : a = b then isTrue (by rw [h]) else isFalse (by intro h'; cases h'; exact h rfl)
  | .error a, .error b =>
    if h : a = b then isTrue (by rw [h]) else isFalse (by intro h'; cases h'; exact h rfl)
  | .ok _, .error _ => isFalse (by intro h; cases h)
  | .error _, .ok _ => isFalse (by intro h; cases h)

/-- Source: `hasRecentFail`. -/
def hasRecentFail {F : Type} (s : UserState F) (now : Time) : Bool :=
  match s.LastGrade, s.LastReviewAt with
  | some g, some r => if g > 1 then false else decide (Time.Sub now r ≤ 14 * 24 * Hour)
  | _, _ => false

/-- Source: `normalizeDifficulty`. -/
def normalizeDifficulty (lowerRune : Char → Char) (d : String) : String :=
  let d := trimSpace (toLower lowerRune d)
  if d = "easy" ∨ d = "medium" ∨ d = "hard" then d else "unknown"

/-- Insert a key into the key list of a map (no effect when it is already there). -/
def insertKey (keys : List String) (t : String) : List String :=
  if t ∈ keys then keys else keys ++ [t]

/-- Source: `topicSet`.  The map `map[string]struct{}` is represented by the list of
its keys, without repetition, in insertion order. -/
def topicSet (lowerRune : Char → Char) (topics : List String) : List String :=
  topics.foldl
    (fun out t =>
      let t := trimSpace (toLower lowerRune t)
      if t = "" then out else insertKey out t)
    []

/-! ## Allocation of a slice (`make`) -/

/-- The constant `maxAlloc` of the Go runtime on a 64-bit target whose heap addresses
have 48 bits (linux/amd64, linux/arm64): the largest number of bytes of one
allocation. -/
def maxAlloc : Int := 2 ^ 48

/-- The size in bytes of a `problems.Problem` on a 64-bit target: five string headers
of 16 bytes (`ID`, `Platform`, `URL`, `Title`, `Difficulty`) and one slice header of 24
bytes (`Topics`). -/
def sizeofProblem : Int := 5 * 16 + 24

/-- Go runtime `makeslice`, for `make([]T, 0, cap)` with elements of `size` bytes:
`mem, overflow := math.MulUintptr(size, uintptr(cap))`, and the panic
`makeslice: cap out of range` when `overflow || mem > maxAlloc || len > cap`, where
`len` is 0.  An allocation that passes this test is taken to succeed: a process that
runs out of memory is stopped by a fatal error of the runtime, which is no panic and
is not modelled. -/
def makeslicePanics (size cap : Int) : Bool :=
  let ucap := cap % 2 ^ 64
  let overflow := decide (2 ^ 64 ≤ size * ucap)
  let mem := (size * ucap) % 2 ^ 64
  overflow || decide (maxAlloc < mem) || decide (cap < 0)

/-! ## The selector (`pickContestProblems`) -/

/-- Assignment `m[k] = v` on a Go map, seen as a function of the key. -/
def setKey {α : Type} (m : String → α) (k : String) (v : α) : String → α :=
  fun k' => if k' = k then v else m k'

section Selector

variable {F : Type} [LinearOrderedField F]

/-- Source: `pickContestProblems`, the score of one pool entry (the body of the
first loop, up to the `switch strategy`). -/
def candidateScore (rt : Runtime F) (strategy : String) (now : Time)
    (p : ProblemWithState F) : F :=
  let od := overdueDays now p.State.DueAt
  let mastery := masteryScore rt.log2 p.State.Reps p.State.Ease od
  let recentFail : F := if hasRecentFail p.State now then 15 else 0
  let score : F := ((wrap64 (3 * od) : Int) : F) + 2 * (100 - mastery) + recentFail
  if strategy = "due-heavy" then score + ((wrap64 (2 * od) : Int) : F)
  else if strategy = "weakness" then score + (100 - mastery)
  else score

/-- Source: `pickContestProblems`, the `candidate{...}` literal built for a pool entry. -/
def mkCandidate (rt : Runtime F) (strategy : String) (now : Time)
    (p : ProblemWithState F) : candidate F :=
  { problem := p.toProblem, state := p.State, score := candidateScore rt strategy now p }

/-- Source: `pickContestProblems`, the first loop: every pool entry whose
difficulty can be bucketed is appended to its bucket. -/
def fillBuckets (rt : Runtime F) (strategy : String) (now : Time)
    (all : List (ProblemWithState F)) : String → List (candidate F) :=
  all.foldl
    (fun buckets p =>
      let d := normalizeDifficulty rt.lowerRune p.Difficulty
      if d = "unknown" then buckets
      else setKey buckets d (buckets d ++ [mkCandidate rt strategy now p]))
    (fun _ => [])

/-- Source: the comparison handed to `sort.SliceStable`. -/
def less (a b : candidate F) : Bool :=
  if a.score = b.score then Time.Before a.state.DueAt b.state.DueAt
  else decide (a.score > b.score)

/-- Go `sort.SliceStable` with `less`: a stable sort, here by insertion
(an element is placed before the first one that is not strictly before it). -/
def sortStable (l : List (candidate F)) : List (candidate F) :=
  l.insertionSort (fun a b => less b a = false)

/-- Source: `pickContestProblems`, the second loop: each of the three buckets is sorted. -/
def sortBuckets (buckets : String → List (candidate F)) : String → List (candidate F) :=
  ["easy", "medium", "hard"].foldl (fun b k => setKey b k (sortStable (b k))) buckets

/-- The variables that the closure `pickFrom` reads and writes. -/
structure PickState (F : Type) where
  buckets : String → List (candidate F)
  want : String → Int
  usedTopics : String → Int
  chosen : List Problem

/-- Source: the loop `for t := range ts { if usedTopics[t] == 0 { newTopics++ } }`. -/
def countNewTopics (rt : Runtime F) (n j : Nat) (usedTopics : String → Int)
    (ts : List String) : Int :=
  (rt.rangeOrder n j ts).foldl
    (fun newTopics t => if usedTopics t = 0 then newTopics + 1 else newTopics) 0

/-- Source: the loop `for t := range topicSet(c.problem.Topics) { usedTopics[t]++ }`. -/
def markUsed (rt : Runtime F) (n : Nat) (usedTopics : String → Int) (ts : List String) :
    String → Int :=
  (rt.rangeOrder n 0 ts).foldl (fun used t => setKey used t (used t + 1)) usedTopics

/-- Source: the scan `for i := 0; i < len(buckets[bucket]); i++` of the balanced
strategy, from index `i` on: the index of the first candidate that brings a new
topic, if there is one. -/
def findNewTopicIdx (rt : Runtime F) (n : Nat) (usedTopics : String → Int) :
    List (candidate F) → Nat → Option Nat
  | [], _ => none
  | c :: cs, i =>
    if countNewTopics rt n (i + 1) usedTopics (topicSet rt.lowerRune c.problem.Topics) > 0 then
      some i
    else findNewTopicIdx rt n usedTopics cs (i + 1)

/-- Source: the value of `bestIdx` when the candidate is read (`n` problems having
been chosen so far). -/
def bestIdx (rt : Runtime F) (strategy : String) (n : Nat) (usedTopics : String → Int)
    (bucket : List (candidate F)) : Nat :=
  if strategy = "balanced" then (findNewTopicIdx rt n usedTopics bucket 0).getD 0 else 0

/-- Source: one iteration of the loop of `pickFrom`.  Reading `buckets[bucket][bestIdx]`
panics when the index is out of range. -/
def pickStep (rt : Runtime F) (strategy bucket : String) (st : PickState F) :
    Except Fault (PickState F) :=
  let b := st.buckets bucket
  let i := bestIdx rt strategy st.chosen.length st.usedTopics b
  match b[i]? with
  | none => .error .indexOutOfRange
  | some c =>
    .ok { buckets := setKey st.buckets bucket (b.take i ++ b.drop (i + 1))
          want := setKey st.want bucket (st.want bucket - 1)
          usedTopics := markUsed rt st.chosen.length st.usedTopics
            (topicSet rt.lowerRune c.problem.Topics)
          chosen := st.chosen ++ [c.problem] }

/-- Source: the loop `for want[bucket] > 0 && len(buckets[bucket]) > 0` of `pickFrom`,
run for at most `fuel` iterations. -/
def pickLoop (rt : Runtime F) (strategy bucket : String) :
    Nat → PickState F → Except Fault (PickState F)
  | 0, st =>
    if st.want bucket > 0 ∧ (st.buckets bucket).length > 0 then .error .outOfFuel else .ok st
  | fuel + 1, st =>
    if st.want bucket > 0 ∧ (st.buckets bucket).length > 0 then
      match pickStep rt strategy bucket st with
      | .error e => .error e
      | .ok st' => pickLoop rt strategy bucket fuel st'
    else .ok st

/-- Source: the closure `pickFrom`.  Every iteration removes one candidate from the
bucket, so the length of the bucket is enough fuel. -/
def pickFrom (rt : Runtime F) (strategy bucket : String) (st : PickState F) :
    Except Fault (PickState F) :=
  pickLoop rt strategy bucket (st.buckets bucket).length st

/-- Source: the strategy after `strings.TrimSpace(strings.ToLower(params.Strategy))`
and the default for the empty string. -/
def normalizeStrategy (lowerRune : Char → Char) (s : String) : String :=
  let strategy := trimSpace (toLower lowerRune s)
  if strategy = "" then "balanced" else strategy

/-- Source: the map `want`. -/
def wantOf (params : GenerateParams) : String → Int :=
  fun k =>
    if k = "easy" then params.DifficultyMix.Easy
    else if k = "medium" then params.DifficultyMix.Medium
    else if k = "hard" then params.DifficultyMix.Hard
    else 0

/-- Source: `pickContestProblems`.  `make([]problems.Problem, 0, n)` panics when
`makeslice` finds the capacity `n` out of range: when `n` is negative, and when the
`n * 104` bytes of the backing array overflow a `uintptr` or exceed `maxAlloc`. -/
def pickContestProblems (rt : Runtime F) (now : Time) (params : GenerateParams)
    (all : List (ProblemWithState F)) : Except Fault (List Problem) :=
  let strategy := normalizeStrategy rt.lowerRune params.Strategy
  let buckets := sortBuckets (fillBuckets rt strategy now all)
  if makeslicePanics sizeofProblem params.totalCount then .error .makesliceCapOutOfRange
  else
    match pickFrom rt strategy "easy"
        { buckets := buckets, want := wantOf params, usedTopics := fun _ => 0, chosen := [] } with
    | .error e => .error e
    | .ok st₁ =>
      match pickFrom rt strategy "medium" st₁ with
      | .error e => .error e
      | .ok st₂ =>
        match pickFrom rt strategy "hard" st₂ with
        | .error e => .error e
        | .ok st₃ => .ok st₃.chosen

/-- The sorted bucket of key `k` that the picking phase starts from. -/
def sortedBucket (rt : Runtime F) (strategy : String) (now : Time)
    (all : List (ProblemWithState F)) (k : String) : List (candidate F) :=
  sortBuckets (fillBuckets rt strategy now all) k

end Selector

/-! ## Request validation (`Handler.Generate`) -/

/-- Source: `Handler.Generate`, from the decoded request to the parameters handed
to `pickContestProblems`; `none` is the answer 400. -/
def generateParams (req : GenerateParams) : Option GenerateParams :=
  let req : GenerateParams :=
    if req.DurationMinutes ≤ 0 then { req with DurationMinutes := 60 } else req
  if req.DifficultyMix.Easy < 0 ∨ req.DifficultyMix.Medium < 0 ∨ req.DifficultyMix.Hard < 0 then
    none
  else if req.totalCount = 0 then
    some { req with DifficultyMix := { Easy := 2, Medium := 2, Hard := 1 } }
  else some req

/-- Source: `Handler.Generate`, the selection it makes for a decoded request and a
loaded pool: `none` for the answer 400 of the validation, else what
`pickContestProblems` does on the validated parameters. -/
def generateChosen {F : Type} [LinearOrderedField F] (rt : Runtime F) (now : Time)
    (req : GenerateParams) (all : List (ProblemWithState F)) :
    Option (Except Fault (List Problem)) :=
  (generateParams req).map (fun p => pickContestProblems rt now p all)

/-! ## Sample data, on which the definitions are evaluated -/

/-- A runtime for ASCII inputs; its `log2` agrees with `math.Log2` at 1 and at 2, and
its `range` visits the keys in insertion order. -/
def sampleRuntime : Runtime ℚ :=
  { lowerRune := Char.toLower, log2 := fun x => x - 1, rangeOrder := fun _ _ ks => ks }

/-- A runtime whose `range` visits the keys in reverse insertion order at every other
execution. -/
def reverseRuntime : Runtime ℚ :=
  { lowerRune := Char.toLower, log2 := fun x => x - 1,
    rangeOrder := fun n j ks => if (n + j) % 2 = 0 then ks.reverse else ks }

/-- The same runtime, with `range` always visiting the keys in insertion order. -/
def Runtime.inOrder {F : Type} (rt : Runtime F) : Runtime F :=
  { rt with rangeOrder := fun _ _ ks => ks }

/-- The state of a problem that has just entered the pool, due at instant 0. -/
def sampleState : UserState ℚ :=
  { Reps := 0, IntervalDays := 1, Ease := 5 / 2, DueAt := 0, LastReviewAt := none,
    LastGrade := none, IsActive := true }

def sampleProblem (id difficulty : String) (topics : List String) : Problem :=
  { ID := id, Platform := "leetcode", URL := "", Title := id, Difficulty := difficulty,
    Topics := topics }

def sampleEntry (id difficulty : String) (topics : List String) : ProblemWithState ℚ :=
  { toProblem := sampleProblem id difficulty topics, State := sampleState }

/-- A pool of 3 easy, 3 medium and 2 hard problems, and one of unknown difficulty. -/
def samplePool : List (ProblemWithState ℚ) :=
  [sampleEntry "e1" "easy" ["array"], sampleEntry "e2" "Easy" ["array"],
   sampleEntry "e3" " easy " ["graph"], sampleEntry "m1" "medium" ["dp", "Array"],
   sampleEntry "m2" "MEDIUM" ["dp"], sampleEntry "m3" "medium" ["tree"],
   sampleEntry "h1" "hard" ["graph"], sampleEntry "h2" "hard" ["heap"],
   sampleEntry "u1" "insane" ["math"]]

/-- What the selector returns on `samplePool` for the mix {2,2,1} under `balanced`. -/
def sampleChosen : List Problem :=
  [sampleProblem "e1" "easy" ["array"], sampleProblem "e3" " easy " ["graph"],
   sampleProblem "m1" "medium" ["dp", "Array"], sampleProblem "m3" "medium" ["tree"],
   sampleProblem "h2" "hard" ["heap"]]

/-- What the selector returns on `samplePool` for the mix {2,2,1} under a strategy
that is not `balanced` and adds nothing to the score. -/
def sampleChosenFirst : List Problem :=
  [sampleProblem "e1" "easy" ["array"], sampleProblem "e2" "Easy" ["array"],
   sampleProblem "m1" "medium" ["dp", "Array"], sampleProblem "m2" "MEDIUM" ["dp"],
   sampleProblem "h1" "hard" ["graph"]]

def sampleParams (strategy : String) : GenerateParams :=
  { Strategy := strategy, DurationMinutes := 60,
    DifficultyMix := { Easy := 2, Medium := 2, Hard := 1 } }

/-! ## Specification-side definitions -/

/-- The mastery formula in the words of the specification:
`clamp(20*log2(reps+1) + 25*(ease - 1.3) - min(2*overdueDays, 30), 0, 100)`. -/
def masteryScoreSpec {F : Type} [LinearOrderedField F] (log2 : F → F) (reps : Int) (ease : F)
    (overdueDays : Int) : F :=
  clamp (20 * log2 ((reps : F) + 1) + 25 * (ease - 13 / 10) - ((min (2 * overdueDays) 30 : Int) : F))
    0 100

/-- The overdue-day count in the words of the specification: `0` when not yet due,
else `floor((now - dueAt) / 24 hours)`. -/
def overdueDaysSpec (now dueAt : Time) : Int :=
  if now < dueAt then 0 else (now - dueAt) / (24 * Hour)

/-- The first `want` candidates of each sorted bucket, easy then medium then hard. -/
def firstPicks {F : Type} [LinearOrderedField F] (rt : Runtime F) (strategy : String)
    (now : Time) (params : GenerateParams) (all : List (ProblemWithState F)) : List Problem :=
  ((sortedBucket rt strategy now all "easy").take params.DifficultyMix.Easy.toNat ++
    (sortedBucket rt strategy now all "medium").take params.DifficultyMix.Medium.toNat ++
    (sortedBucket rt strategy now all "hard").take params.DifficultyMix.Hard.toNat).map
    (fun c => c.problem)

/-- Number of problems of a list whose normalized difficulty is `d`. -/
def countDifficulty (lowerRune : Char → Char) (d : String) (ps : List Problem) : Nat :=
  ps.countP (fun p => decide (normalizeDifficulty lowerRune p.Difficulty = d))

/-- Rank of a difficulty bucket in the output order: easy, then medium, then hard. -/
def bucketRank (d : String) : Nat :=
  if d = "easy" then 0 else if d = "medium" then 1 else 2

/-! ## The contest plan of `Handler.Generate` -/

/-- Go integer division `a / b`: a panic when the divisor is zero, else the quotient
truncated toward zero (`MinInt64 / -1`, the only quotient out of range, wraps to
`MinInt64`). -/
def goDiv (a b : Int) : Except Fault Int :=
  if b = 0 then .error .integerDivideByZero
  else if a = -(2 ^ 63) ∧ b = -1 then .ok (-(2 ^ 63))
  else .ok (Int.tdiv a b)

/-- Source: `Handler.Generate`,
`targetMinutes := 0; if len(chosen) > 0 { targetMinutes = req.DurationMinutes / len(chosen) }`. -/
def targetMinutes (durationMinutes : Int) (chosen : List Problem) : Except Fault Int :=
  if (chosen.length : Int) > 0 then goDiv durationMinutes chosen.length else .ok 0

/-- What `Handler.Generate` has computed when it starts to write the contest. -/
inductive GenerateOutcome where
  /-- The answer 400, with its message. -/
  | badRequest (message : String)
  /-- A run-time panic. -/
  | fault (f : Fault)
  /-- The validated parameters, the chosen problems and the budget of each item. -/
  | plan (params : GenerateParams) (chosen : List Problem) (targetMinutes : Int)

/-- Source: `Handler.Generate`, from the decoded request and the loaded pool to the
contest that is written: validation, selection, the answer 400 for an empty
selection, and the per-item budget. -/
def generatePlan {F : Type} [LinearOrderedField F] (rt : Runtime F) (now : Time)
    (req : GenerateParams) (all : List (ProblemWithState F)) : GenerateOutcome :=
  match generateParams req with
  | none => .badRequest "difficulty_mix counts must be >= 0"
  | some p =>
    match pickContestProblems rt now p all with
    | .error f => .fault f
    | .ok chosen =>
      if chosen.length = 0 then .badRequest "no eligible problems found (add problems first)"
      else
        match targetMinutes p.DurationMinutes chosen with
        | .error f => .fault f
        | .ok t => .plan p chosen t

/-! ## Local time (`time.Location`, `time.Time` with its location) -/

/-- The constant `24 * time.Hour`. -/
def Day : Duration := 24 * Hour

/-- A `*time.Location`: its name and the offset from UTC (in nanoseconds, positive to
the east) that is in force at each instant. -/
structure Location where
  name : String
  offset : Time → Int

/-- The location `time.UTC`. -/
def Location.UTC : Location := { name := "UTC", offset := fun _ => 0 }

/-- Go `time.Date` for a location, from the wall-clock reading `w` (nanoseconds since
1970-01-01 00:00 on the local clock) to the instant: the offset is looked up at `w`
taken as an instant, and looked up again at the instant this gives. -/
def Location.fromWall (l : Location) (w : Int) : Time :=
  w - l.offset (w - l.offset w)

/-- A `time.Time` together with its location (instants are counted from
1970-01-01T00:00:00Z). -/
structure ZonedTime where
  instant : Time
  loc : Location

/-- The wall-clock reading of a time in its location. -/
def ZonedTime.wall (t : ZonedTime) : Int := t.instant + t.loc.offset t.instant

/-- Go `Time.UTC`. -/
def ZonedTime.UTC (t : ZonedTime) : ZonedTime := { t with loc := Location.UTC }

/-- Go `Time.AddDate(0, 0, n)`: the same wall-clock time `n` calendar days later, in
the same location. -/
def ZonedTime.AddDays (t : ZonedTime) (n : Int) : ZonedTime :=
  { instant := t.loc.fromWall (t.wall + n * Day), loc := t.loc }

/-- Year, month and day of the proleptic Gregorian calendar, from the number of days
since 1970-01-01. -/
def civilFromDays (days : Int) : Int × Int × Int :=
  let z := days + 719468
  let era := z / 146097
  let doe := z - era * 146097
  let yoe := (doe - doe / 1460 + doe / 36524 - doe / 146096) / 365
  let doy := doe - (365 * yoe + yoe / 4 - yoe / 100)
  let mp := (5 * doy + 2) / 153
  let d := doy - (153 * mp + 2) / 5 + 1
  let m := if mp < 10 then mp + 3 else mp - 9
  (if m ≤ 2 then yoe + era * 400 + 1 else yoe + era * 400, m, d)

/-- The character of a decimal digit. -/
def digitChar (n : Nat) : Char := Char.ofNat (48 + n % 10)

/-- The decimal digits of `n`, most significant first (`fuel` bounds their number). -/
def decimalDigits : Nat → Nat → List Char
  | 0, _ => []
  | fuel + 1, n =>
    if n < 10 then [digitChar n] else decimalDigits fuel (n / 10) ++ [digitChar n]

/-- Go `appendInt` of package `time`: a minus sign for a negative number, then its
decimal digits, padded with zeros on the left to `width` digits. -/
def appendInt (x : Int) (width : Nat) : List Char :=
  let ds := decimalDigits (x.natAbs + 1) x.natAbs
  (if x < 0 then ['-'] else []) ++ List.replicate (width - ds.length) '0' ++ ds

/-- Go `Time.Format("20060102")`: year, month and day in the location of the time. -/
def ZonedTime.formatDate (t : ZonedTime) : String :=
  let ymd := civilFromDays (t.wall / Day)
  ⟨appendInt ymd.1 4 ++ appendInt ymd.2.1 2 ++ appendInt ymd.2.2 2⟩

/-- Go `Time.Format("20060102T150405Z")`: date, `T`, hour, minute and second in the
location of the time, and a literal `Z`. -/
def ZonedTime.formatStamp (t : ZonedTime) : String :=
  let ymd := civilFromDays (t.wall / Day)
  let tod := t.wall % Day
  ⟨appendInt ymd.1 4 ++ appendInt ymd.2.1 2 ++ appendInt ymd.2.2 2 ++ ['T'] ++
    appendInt (tod / Hour) 2 ++ appendInt (tod % Hour / 60000000000) 2 ++
    appendInt (tod % 60000000000 / 1000000000) 2 ++ ['Z']⟩

/-! ## Calendar export (`calendar/ics.go`) -/

/-- Source: `calendar.Event`. -/
structure Event where
  UID : String
  Summary : String
  Description : String
  URL : String
  Start : ZonedTime
  End : ZonedTime
  AllDay : Bool

/-- Go `strings.ReplaceAll` for a non-empty `old`, on the characters that are left;
`skip` counts the characters still to drop because they belong to the occurrence of
`old` that was just replaced. -/
def replaceAllAux (old new : List Char) : List Char → Nat → List Char
  | [], _ => []
  | _ :: cs, skip + 1 => replaceAllAux old new cs skip
  | c :: cs, 0 =>
    if old.isPrefixOf (c :: cs) then new ++ replaceAllAux old new cs (old.length - 1)
    else c :: replaceAllAux old new cs 0

/-- Go `strings.ReplaceAll(s, old, new)`: the non-overlapping occurrences of `old` are
replaced from left to right; an empty `old` matches before every character and at the
end. -/
def replaceAll (s old new : String) : String :=
  if old.data = [] then ⟨new.data ++ (s.data.map (fun c => c :: new.data)).flatten⟩
  else ⟨replaceAllAux old.data new.data s.data 0⟩

/-- Source: `escapeText`. -/
def escapeText (s : String) : String :=
  let s := replaceAll s "\\" "\\\\"
  let s := replaceAll s "\r\n" "\\n"
  let s := replaceAll s "\n" "\\n"
  let s := replaceAll s "\r" "\\n"
  let s := replaceAll s ";" "\\;"
  let s := replaceAll s "," "\\,"
  s

/-- Source: `BuildICS`, the lines written for one event (`now` is the instant read by
`time.Now()`). -/
def eventLines (now : Time) (e : Event) : List String :=
  ["BEGIN:VEVENT", "UID:" ++ escapeText e.UID,
    "DTSTAMP:" ++ (ZonedTime.mk now Location.UTC).formatStamp] ++
  (if e.AllDay then
    ["DTSTART;VALUE=DATE:" ++ e.Start.formatDate,
      "DTEND;VALUE=DATE:" ++ (e.Start.AddDays 1).formatDate]
  else
    ["DTSTART:" ++ e.Start.UTC.formatStamp, "DTEND:" ++ e.End.UTC.formatStamp]) ++
  ["SUMMARY:" ++ escapeText e.Summary] ++
  (if e.Description ≠ "" then ["DESCRIPTION:" ++ escapeText e.Description] else []) ++
  (if e.URL ≠ "" then ["URL:" ++ escapeText e.URL] else []) ++
  ["END:VEVENT"]

/-- Source: `BuildICS`, the lines handed to the closure `w`, in order. -/
def icsLines (now : Time) (calName : String) (events : List Event) : List String :=
  ["BEGIN:VCALENDAR", "VERSION:2.0", "PRODID:-//PrepTracker//PrepTracker//EN"] ++
  (if calName ≠ "" then ["X-WR-CALNAME:" ++ escapeText calName] else []) ++
  ["CALSCALE:GREGORIAN"] ++
  (events.map (eventLines now)).flatten ++
  ["END:VCALENDAR"]

/-- Source: `BuildICS`; the closure `w` appends the line and `"\r\n"` to the builder. -/
def BuildICS (now : Time) (calName : String) (events : List Event) : String :=
  (icsLines now calName events).foldl (fun b line => b ++ line ++ "\r\n") ""

/-- The event of the test `TestBuildICSAllDayEvent`. -/
def sampleEvent : Event :=
  { UID := "u1", Summary := "Review: A, B; C", Description := "",
    URL := "https://example.com/a?b=c",
    Start := { instant := 1770508800000000000, loc := { name := "X", offset := fun _ => 0 } },
    End := { instant := 1770510600000000000, loc := { name := "X", offset := fun _ => 0 } },
    AllDay := true }

/-! ## Specification-side definitions for the calendar export -/

/-- The replacement of one character in the single pass over a text value. -/
def escapeChar (c : Char) : List Char :=
  if c = '\\' then ['\\', '\\']
  else if c = '\n' ∨ c = '\r' then ['\\', 'n']
  else if c = ';' then ['\\', ';']
  else if c = ',' then ['\\', ',']
  else [c]

/-- The single left-to-right pass in the words of the claim: a backslash is doubled, a
line break (a CR LF pair, a lone LF or a lone CR) becomes backslash `n`, a semicolon and
a comma get a backslash in front, every other character is copied. -/
def escapePass : List Char → List Char
  | [] => []
  | [c] => escapeChar c
  | c :: d :: cs =>
    if c = '\r' ∧ d = '\n' then '\\' :: 'n' :: escapePass cs
    else escapeChar c ++ escapePass (d :: cs)

/-- Every line break of a text is a CR LF pair: the text is made of characters other
than CR and LF and of CR LF pairs. -/
inductive CRLFText : List Char → Prop where
  | nil : CRLFText []
  | char (c : Char) (cs : List Char) : c ≠ '\r' → c ≠ '\n' → CRLFText cs → CRLFText (c :: cs)
  | crlf (cs : List Char) : CRLFText cs → CRLFText ('\r' :: '\n' :: cs)

/-- Replace every character `c` of a text by the characters `f c`. -/
def mapChars (f : Char → List Char) : List Char → List Char
  | [] => []
  | c :: cs => f c ++ mapChars f cs

/-- The six replacements of `escapeText`, one after the other, on the characters of
the string. -/
def escapeChain (l : List Char) : List Char :=
  mapChars (fun c => if c = ',' then ['\\', ','] else [c])
    (mapChars (fun c => if c = ';' then ['\\', ';'] else [c])
      (mapChars (fun c => if c = '\r' then ['\\', 'n'] else [c])
        (mapChars (fun c => if c = '\n' then ['\\', 'n'] else [c])
          (replaceAllAux ['\r', '\n'] ['\\', 'n']
            (mapChars (fun c => if c = '\\' then ['\\', '\\'] else [c]) l) 0))))

/-- A text without a CR or LF character. -/
def noLineBreak (l : List Char) : Prop := ∀ c ∈ l, c ≠ '\r' ∧ c ≠ '\n'

instance (l : List Char) : Decidable (noLineBreak l) := by
  unfold noLineBreak
  infer_instance

/-! ## The scheduler (package `scheduler`, modelled from the specification) -/

/-- The constant `time.Minute`. -/
def Minute : Duration := 60000000000

/-- The hour that an instant shows on the clock of a location. -/
def localHour (loc : Location) (t : Time) : Int := (t + loc.offset t) % Day / Hour

/-- The minute that an instant shows on the clock of a location. -/
def localMinute (loc : Location) (t : Time) : Int := (t + loc.offset t) % Hour / Minute

/-- Modelled from the spec: `scheduler.AnchorLocalDay`; the package `scheduler` is not
among the sources, only its call sites are.  Specification 4.1: it "interprets
`instantUTC` in `timezone`, truncates to that local calendar day, sets the wall-clock
time to `hour:minute:00`, converts back to UTC".  The timezone is a `Location`, and the
conversion back is the one of `time.Date`. -/
def scheduler.AnchorLocalDay (t : Time) (loc : Location) (hour minute : Int) : Time :=
  loc.fromWall ((t + loc.offset t) / Day * Day + hour * Hour + minute * Minute)

/-- Modelled from the spec: `scheduler.DueAtToday`.  Specification 4.1: "equivalent to
`anchorLocalDay(nowUTC, …)`". -/
def scheduler.DueAtToday (now : Time) (loc : Location) (hour minute : Int) : Time :=
  scheduler.AnchorLocalDay now loc hour minute

/-- Source: the literal `scheduler.State{Reps, IntervalDays, Ease}` at the call sites. -/
structure scheduler.State (F : Type) where
  Reps : Int
  IntervalDays : Int
  Ease : F

/-- Source: the fields `State` and `DueAt` that the call sites read from the result of
`scheduler.Update`. -/
structure scheduler.Result (F : Type) where
  State : scheduler.State F
  DueAt : Time

/-- Modelled from the spec: the two constants of the scheduler that the specification
leaves open, the floor of the ease ("e.g. 1.3") and the "fixed penalty" of a lapse. -/
structure scheduler.Constants (F : Type) where
  easeFloor : F
  lapsePenalty : F

section Scheduler

variable {F : Type} [LinearOrderedField F] [FloorRing F]

/-- Modelled from the spec: `scheduler.Update`; the package `scheduler` is not among the
sources.  Specification 4.3: a grade `≤ 1` is a lapse, "reset `reps` to 0, reduce
`interval_days` to `min_interval_days`, and decrease `ease` by a fixed penalty (clamped
to the ease floor)"; a grade `≥ 2` is a success, "increment `reps` by 1",
`ease' = ease + (0.1 - (4-grade)*(0.08 + (4-grade)*0.02))` "clamped at the floor", the new
interval is `round(max(interval_days, min_interval_days) * ease')` with
`interval_days' ≥ min_interval_days` enforced; and "the new `due_at` is always
`anchorLocalDay(reviewInstant + interval_days' days, timezone, due_hour_local,
due_minute_local)`". -/
def scheduler.Update (k : scheduler.Constants F) (st : scheduler.State F) (grade : Int)
    (now : Time) (loc : Location) (minIntervalDays dueHourLocal dueMinuteLocal : Int) :
    scheduler.Result F :=
  let st' : scheduler.State F :=
    if grade ≤ 1 then
      { Reps := 0, IntervalDays := minIntervalDays,
        Ease := max (st.Ease - k.lapsePenalty) k.easeFloor }
    else
      let ease' : F :=
        max (st.Ease + (1 / 10 - ((4 - grade : Int) : F) *
          (8 / 100 + ((4 - grade : Int) : F) * (2 / 100)))) k.easeFloor
      { Reps := st.Reps + 1,
        IntervalDays :=
          max (round (((max st.IntervalDays minIntervalDays : Int) : F) * ease')) minIntervalDays,
        Ease := ease' }
  { State := st',
    DueAt := scheduler.AnchorLocalDay (now + st'.IntervalDays * Day) loc dueHourLocal
      dueMinuteLocal }

end Scheduler

/-- The constants used to evaluate the scheduler: ease floor 1.3, lapse penalty 0.2. -/
def sampleConstants : scheduler.Constants ℚ := { easeFloor := 13 / 10, lapsePenalty := 1 / 5 }

/-- A zone that goes from UTC-4 to UTC-5 at the instant 06:00 (its clock is set back
from 02:00 to 01:00, as in America/New_York in autumn): the local day that begins at
the instant 04:00 lasts 25 hours. -/
def fallBackZone : Location :=
  { name := "fall-back", offset := fun t => if t < 6 * Hour then -(4 * Hour) else -(5 * Hour) }

/-- A zone that goes from UTC-5 to UTC-4 at the instant 07:00 (its clock is set forward
from 02:00 to 03:00, as in America/New_York in spring): on that local day no instant
shows a time between 02:00 and 03:00. -/
def springForwardZone : Location :=
  { name := "spring-forward",
    offset := fun t => if t < 7 * Hour then -(5 * Hour) else -(4 * Hour) }

/-! ## Handlers that resolve the timezone and call the scheduler -/

/-- Source: `users.Settings`. -/
structure Settings where
  UserID : String
  Timezone : String
  MinIntervalDays : Int
  DueHourLocal : Int
  DueMinuteLocal : Int

/-- Source: the lines
`loc, err := time.LoadLocation(settings.Timezone); if err != nil { loc = time.UTC }`,
which are the same in reviews `Post`, contests `SubmitResults`, problems `Create`, lists
`AddItem` and `Import`, stats `Overview`, `Streaks` and `Contests`, and calendar `ICS`.
The argument `loadLocation` stands for `time.LoadLocation`, with `none` for an error. -/
def resolveLocation (loadLocation : String → Option Location) (timezone : String) : Location :=
  match loadLocation timezone with
  | some loc => loc
  | none => Location.UTC

/-- One call `scheduler.Update(state, grade, now, loc, minIntervalDays, dueHourLocal,
dueMinuteLocal)` made by a handler. -/
structure UpdateCall (F : Type) where
  state : scheduler.State F
  grade : Int
  now : Time
  loc : Location
  minIntervalDays : Int
  dueHourLocal : Int
  dueMinuteLocal : Int

/-- One call `scheduler.DueAtToday(now, loc, dueHourLocal, dueMinuteLocal)` made by a
handler. -/
structure DueAtTodayCall where
  now : Time
  loc : Location
  dueHourLocal : Int
  dueMinuteLocal : Int

/-- What a handler has done when it returns: the HTTP status of its answer, the calls
of `scheduler.Update` it made, in order, and the calls of `scheduler.DueAtToday` it
made (none in reviews `Handler.Post` and contests `Handler.SubmitResults`). -/
structure Response (F : Type) where
  status : Nat
  updates : List (UpdateCall F)
  dueAtToday : List DueAtTodayCall := []

/-- An error of a database operation: a `*pgconn.PgError` with its code, or another error. -/
inductive DbError where
  | pg (code : String)
  | other

/-- Source: `parseReviewedAt` (reviews); `timeParse layout value` stands for `time.Parse`. -/
def parseReviewedAt (timeParse : String → String → Option Time) (raw : String) : Option Time :=
  let raw := trimSpace raw
  if raw = "" then none
  else
    match timeParse "2006-01-02T15:04:05Z07:00" raw with
    | some t => some t
    | none =>
      match timeParse "2006-01-02T15:04" raw with
      | some t => some t
      | none => none

/-- Source: `postReviewRequest`. -/
structure postReviewRequest where
  ProblemID : String
  Grade : Int
  TimeSpentSec : Option Int
  Source : String
  ReviewedAt : String

/-- What reviews `Handler.Post` gets from the request and from its collaborators. -/
structure PostEnv (F : Type) where
  /-- `r.Method == http.MethodPost`. -/
  methodIsPost : Bool
  /-- `reqctx.UserIDFromContext`. -/
  userID : Option String
  /-- The decoded JSON body, `none` when decoding fails. -/
  body : Option postReviewRequest
  /-- `h.users.GetSettings`, `none` for an error. -/
  settings : Option Settings
  loadLocation : String → Option Location
  /-- The first `time.Now()`. -/
  now : Time
  timeParse : String → String → Option Time
  /-- The `time.Now()` of the guard against future timestamps. -/
  nowAtCheck : Time
  beginOk : Bool
  insertLogOk : Bool
  /-- `GetStateForUpdate`, `none` for an error. -/
  state : Option (UserState F)
  updateStateOk : Bool
  commitOk : Bool

/-- Source: reviews `Handler.Post`. -/
def reviews.Post {F : Type} (env : PostEnv F) : Response F :=
  if env.methodIsPost = false then { status := 405, updates := [] }
  else
    match env.userID with
    | none => { status := 401, updates := [] }
    | some _ =>
      match env.body with
      | none => { status := 400, updates := [] }
      | some req =>
        if trimSpace req.ProblemID = "" then { status := 400, updates := [] }
        else if req.Grade < 0 ∨ req.Grade > 4 then { status := 400, updates := [] }
        else if (match req.TimeSpentSec with | some t => decide (t < 0) | none => false) = true then
          { status := 400, updates := [] }
        else
          match env.settings with
          | none => { status := 500, updates := [] }
          | some settings =>
            let loc := resolveLocation env.loadLocation settings.Timezone
            let reviewedAt : Except Nat Time :=
              if trimSpace req.ReviewedAt ≠ "" then
                match parseReviewedAt env.timeParse req.ReviewedAt with
                | none => .error 400
                | some parsed =>
                  if parsed > env.nowAtCheck + 5 * Minute then .error 400 else .ok parsed
              else .ok env.now
            match reviewedAt with
            | .error status => { status := status, updates := [] }
            | .ok reviewedAt =>
              if env.beginOk = false then { status := 500, updates := [] }
              else if env.insertLogOk = false then { status := 500, updates := [] }
              else
                match env.state with
                | none => { status := 404, updates := [] }
                | some state =>
                  let call : UpdateCall F :=
                    { state := { Reps := state.Reps, IntervalDays := state.IntervalDays,
                                 Ease := state.Ease },
                      grade := req.Grade, now := reviewedAt, loc := loc,
                      minIntervalDays := settings.MinIntervalDays,
                      dueHourLocal := settings.DueHourLocal,
                      dueMinuteLocal := settings.DueMinuteLocal }
                  if env.updateStateOk = false then { status := 500, updates := [call] }
                  else if env.commitOk = false then { status := 500, updates := [call] }
                  else { status := 200, updates := [call] }

/-- Source: `submitResult`. -/
structure submitResult where
  ProblemID : String
  Grade : Int
  TimeSpentSec : Option Int
  SolvedFlag : Option Bool

/-- What contests `Handler.SubmitResults` gets from the request and from its
collaborators; the operations made for the result at index `i` have their outcome at `i`. -/
structure SubmitEnv (F : Type) where
  methodIsPost : Bool
  userID : Option String
  /-- `chi.URLParam(r, "id")`. -/
  contestID : String
  /-- The decoded `results` of the body, `none` when decoding fails. -/
  body : Option (List submitResult)
  settings : Option Settings
  loadLocation : String → Option Location
  now : Time
  beginOk : Bool
  /-- The ownership check `SELECT 1 FROM contests …`. -/
  ownsContest : Bool
  upsertOk : Nat → Bool
  insertLogOk : Nat → Bool
  /-- The first `GetStateForUpdate`. -/
  state : Nat → Option (UserState F)
  /-- `GetStateForUpdate` after `EnsureUserStateTx`. -/
  stateRetry : Nat → Option (UserState F)
  updateStateOk : Nat → Bool
  commitOk : Bool

/-- Source: contests `Handler.SubmitResults`, the validation loop over the results:
the message of the first check that fails. -/
def validateResults : List submitResult → Option String
  | [] => none
  | res :: rest =>
    if trimSpace res.ProblemID = "" then some "problem_id required"
    else if res.Grade < 0 ∨ res.Grade > 4 then some "grade must be 0..4"
    else if (match res.TimeSpentSec with | some t => decide (t < 0) | none => false) = true then
      some "time_spent_sec must be >= 0"
    else validateResults rest

/-- Source: contests `Handler.SubmitResults`, the loop that records the results, from
the result at index `i`, with the calls made so far. -/
def submitLoop {F : Type} (env : SubmitEnv F) (settings : Settings) (loc : Location) :
    List submitResult → Nat → List (UpdateCall F) → Response F
  | [], _, calls =>
    if env.commitOk = false then { status := 500, updates := calls }
    else { status := 200, updates := calls }
  | res :: rest, i, calls =>
    if env.upsertOk i = false then { status := 500, updates := calls }
    else if env.insertLogOk i = false then { status := 500, updates := calls }
    else
      match (match env.state i with | some s => some s | none => env.stateRetry i) with
      | none => { status := 404, updates := calls }
      | some state =>
        let call : UpdateCall F :=
          { state := { Reps := state.Reps, IntervalDays := state.IntervalDays,
                       Ease := state.Ease },
            grade := res.Grade, now := env.now, loc := loc,
            minIntervalDays := settings.MinIntervalDays,
            dueHourLocal := settings.DueHourLocal,
            dueMinuteLocal := settings.DueMinuteLocal }
        if env.updateStateOk i = false then { status := 500, updates := calls ++ [call] }
        else submitLoop env settings loc rest (i + 1) (calls ++ [call])

/-- Source: contests `Handler.SubmitResults`. -/
def contests.SubmitResults {F : Type} (env : SubmitEnv F) : Response F :=
  if env.methodIsPost = false then { status := 405, updates := [] }
  else
    match env.userID with
    | none => { status := 401, updates := [] }
    | some _ =>
      if trimSpace env.contestID = "" then { status := 400, updates := [] }
      else
        match env.body with
        | none => { status := 400, updates := [] }
        | some results =>
          match validateResults results with
          | some _ => { status := 400, updates := [] }
          | none =>
            match env.settings with
            | none => { status := 500, updates := [] }
            | some settings =>
              let loc := resolveLocation env.loadLocation settings.Timezone
              if env.beginOk = false then { status := 500, updates := [] }
              else if env.ownsContest = false then { status := 404, updates := [] }
              else submitLoop env settings loc results 0 []

/-- Source: the anonymous struct of `createRequest.Initial`. -/
structure initialReview where
  Grade : Int
  TimeSpentSec : Option Int
  ReviewedAt : String
  Source : String

/-- Source: `createRequest`. -/
structure createRequest where
  Platform : String
  URL : String
  Title : String
  Difficulty : String
  Topics : List String
  Initial : Option initialReview

/-- What problems `Handler.Create` gets from the request and from its collaborators. -/
structure CreateEnv (F : Type) where
  methodIsPost : Bool
  userID : Option String
  body : Option createRequest
  /-- The function `NormalizeURL`. -/
  normalizeURL : String → String
  settings : Option Settings
  loadLocation : String → Option Location
  /-- The `time.Now()` handed to `scheduler.DueAtToday`. -/
  now : Time
  beginOk : Bool
  /-- `CreateOrGetTx`, `none` for success. -/
  createOrGetError : Option DbError
  /-- `EnsureUserStateTx`, `none` for success. -/
  ensureStateError : Option DbError
  /-- The `time.Now()` that dates the initial review. -/
  nowAtReview : Time
  timeParse : String → String → Option Time
  nowAtCheck : Time
  insertLogOk : Bool
  state : Option (UserState F)
  updateStateOk : Bool
  commitOk : Bool

/-- Source: problems `Handler.Create`.  The call of `scheduler.DueAtToday` is made
right after the timezone is resolved, so that every later answer has it on record. -/
def problems.Create {F : Type} (env : CreateEnv F) : Response F :=
  if env.methodIsPost = false then { status := 405, updates := [] }
  else
    match env.userID with
    | none => { status := 401, updates := [] }
    | some _ =>
      match env.body with
      | none => { status := 400, updates := [] }
      | some req =>
        if env.normalizeURL req.URL = "" then { status := 400, updates := [] }
        else
          match env.settings with
          | none => { status := 500, updates := [] }
          | some settings =>
            let loc := resolveLocation env.loadLocation settings.Timezone
            let due : DueAtTodayCall :=
              { now := env.now, loc := loc, dueHourLocal := settings.DueHourLocal,
                dueMinuteLocal := settings.DueMinuteLocal }
            if env.beginOk = false then { status := 500, updates := [], dueAtToday := [due] }
            else
              match env.createOrGetError with
              | some (.pg code) =>
                if code = "23505" then { status := 409, updates := [], dueAtToday := [due] }
                else { status := 500, updates := [], dueAtToday := [due] }
              | some .other => { status := 500, updates := [], dueAtToday := [due] }
              | none =>
                match env.ensureStateError with
                | some (.pg code) =>
                  if code = "23503" then { status := 401, updates := [], dueAtToday := [due] }
                  else { status := 500, updates := [], dueAtToday := [due] }
                | some .other => { status := 500, updates := [], dueAtToday := [due] }
                | none =>
                  match req.Initial with
                  | none =>
                    if env.commitOk = false then
                      { status := 500, updates := [], dueAtToday := [due] }
                    else { status := 201, updates := [], dueAtToday := [due] }
                  | some initial =>
                    if initial.Grade < 0 ∨ initial.Grade > 4 then
                      { status := 400, updates := [], dueAtToday := [due] }
                    else if (match initial.TimeSpentSec with
                        | some t => decide (t < 0) | none => false) = true then
                      { status := 400, updates := [], dueAtToday := [due] }
                    else
                      let reviewedAt : Except Nat Time :=
                        if trimSpace initial.ReviewedAt ≠ "" then
                          match env.timeParse "2006-01-02T15:04:05Z07:00"
                              (trimSpace initial.ReviewedAt) with
                          | none => .error 400
                          | some t =>
                            if t > env.nowAtCheck + 5 * Minute then .error 400 else .ok t
                        else .ok env.nowAtReview
                      match reviewedAt with
                      | .error status => { status := status, updates := [], dueAtToday := [due] }
                      | .ok reviewedAt =>
                        if env.insertLogOk = false then
                          { status := 500, updates := [], dueAtToday := [due] }
                        else
                          match env.state with
                          | none => { status := 500, updates := [], dueAtToday := [due] }
                          | some state =>
                            let call : UpdateCall F :=
                              { state := { Reps := state.Reps,
                                           IntervalDays := state.IntervalDays,
                                           Ease := state.Ease },
                                grade := initial.Grade, now := reviewedAt, loc := loc,
                                minIntervalDays := settings.MinIntervalDays,
                                dueHourLocal := settings.DueHourLocal,
                                dueMinuteLocal := settings.DueMinuteLocal }
                            if env.updateStateOk = false then
                              { status := 500, updates := [call], dueAtToday := [due] }
                            else if env.commitOk = false then
                              { status := 500, updates := [call], dueAtToday := [due] }
                            else { status := 201, updates := [call], dueAtToday := [due] }

/-! ## Sample requests for the handlers -/

/-- Settings whose timezone name no zone database knows. -/
def sampleSettings : Settings :=
  { UserID := "u1", Timezone := "Mars/Olympus_Mons", MinIntervalDays := 1, DueHourLocal := 9,
    DueMinuteLocal := 0 }

/-- A review of problem `p1` with the given grade, every collaborator succeeding and
`time.LoadLocation` failing. -/
def samplePostEnv (grade : Int) : PostEnv ℚ :=
  { methodIsPost := true, userID := some "u1",
    body := some { ProblemID := "p1", Grade := grade, TimeSpentSec := none, Source := "",
                   ReviewedAt := "" },
    settings := some sampleSettings, loadLocation := fun _ => none, now := 100 * Day,
    timeParse := fun _ _ => none, nowAtCheck := 100 * Day, beginOk := true,
    insertLogOk := true, state := some sampleState, updateStateOk := true, commitOk := true }

/-- Results for two problems with the given grades, every collaborator succeeding and
`time.LoadLocation` failing. -/
def sampleSubmitEnv (grade1 grade2 : Int) : SubmitEnv ℚ :=
  { methodIsPost := true, userID := some "u1", contestID := "c1",
    body := some [{ ProblemID := "p1", Grade := grade1, TimeSpentSec := none,
                    SolvedFlag := none },
                  { ProblemID := "p2", Grade := grade2, TimeSpentSec := none,
                    SolvedFlag := none }],
    settings := some sampleSettings, loadLocation := fun _ => none, now := 100 * Day,
    beginOk := true, ownsContest := true, upsertOk := fun _ => true,
    insertLogOk := fun _ => true, state := fun _ => some sampleState,
    stateRetry := fun _ => none, updateStateOk := fun _ => true, commitOk := true }

/-- A new problem with an initial review of the given grade, every collaborator
succeeding apart from `GetSettings` when `settings` is `none`, and `time.LoadLocation`
failing. -/
def sampleCreateEnv (grade : Int) (settings : Option Settings) : CreateEnv ℚ :=
  { methodIsPost := true, userID := some "u1",
    body := some { Platform := "leetcode", URL := "https://leetcode.com/problems/two-sum",
                   Title := "Two Sum", Difficulty := "easy", Topics := [],
                   Initial := some { Grade := grade, TimeSpentSec := none, ReviewedAt := "",
                                     Source := "" } },
    normalizeURL := fun u => u, settings := settings, loadLocation := fun _ => none,
    now := 100 * Day, beginOk := true, createOrGetError := none, ensureStateError := none,
    nowAtReview := 100 * Day, timeParse := fun _ _ => none, nowAtCheck := 100 * Day,
    insertLogOk := true, state := some sampleState, updateStateOk := true, commitOk := true }

/-! ## A sample pool with different due dates -/

/-- A pool entry like `sampleEntry`, due at the given instant. -/
def dueEntry (id difficulty : String) (topics : List String) (dueAt : Time) :
    ProblemWithState ℚ :=
  { toProblem := sampleProblem id difficulty topics, State := { sampleState with DueAt := dueAt } }

/-- Three easy and two medium problems; at the instant `10 * Day` they are overdue by
0, 10 and 5 days (easy) and by 5 and 8 days (medium). -/
def duePool : List (ProblemWithState ℚ) :=
  [dueEntry "e1" "easy" ["array"] (10 * Day), dueEntry "e2" "easy" ["array"] 0,
   dueEntry "e3" "easy" ["graph"] (5 * Day), dueEntry "m1" "medium" ["dp"] (5 * Day),
   dueEntry "m2" "medium" ["dp"] (2 * Day)]
/-! ## Specification-side definitions for the selection as a whole -/

/-- The function `f` sends every position of `l₁` to a position of `l₂` that holds the
same element, and no two positions of `l₁` to the same position. -/
def IndexInjection {α : Type} (l₁ l₂ : List α) (f : Nat → Nat) : Prop :=
  (∀ i, i < l₁.length → f i < l₂.length ∧ l₁[i]? = l₂[f i]?) ∧
    ∀ i j, i < l₁.length → j < l₁.length → f i = f j → i = j

/-! ## The score of a candidate -/

section ScoreDefs

variable {F : Type} [LinearOrderedField F]

/-- Source: `pickContestProblems`, the score of a pool entry from its overdue-day count
`od`, its `reps` and `ease`, and the result of `hasRecentFail` (the lines from
`mastery := masteryScore(...)` to the end of `switch strategy`). -/
def scoreOfOverdue (log2 : F → F) (strategy : String) (reps : Int) (ease : F)
    (recentFail : Bool) (od : Int) : F :=
  let mastery := masteryScore log2 reps ease od
  let recentFail : F := if recentFail then 15 else 0
  let score : F := ((wrap64 (3 * od) : Int) : F) + 2 * (100 - mastery) + recentFail
  if strategy = "due-heavy" then score + ((wrap64 (2 * od) : Int) : F)
  else if strategy = "weakness" then score + (100 - mastery)
  else score

/-- The recent-fail bonus in the words of the specification: 15 when `last_grade` and
`last_review_at` are both present, `last_grade ≤ 1` and `now - last_review_at` is at
most 14 days, else 0. -/
def recentFailBonusSpec (s : UserState F) (now : Time) : F :=
  match s.LastGrade, s.LastReviewAt with
  | some g, some r => if g ≤ 1 ∧ now - r ≤ 14 * Day then 15 else 0
  | _, _ => 0

/-- The score of a pool entry in the words of the specification:
`3*overdue + 2*(100 - mastery) + bonus + extra`, where `extra` is `2*overdue` for
`due-heavy`, `100 - mastery` for `weakness` and nothing otherwise. -/
def candidateScoreSpec (log2 : F → F) (strategy : String) (now : Time)
    (p : ProblemWithState F) : F :=
  let overdue := overdueDays now p.State.DueAt
  let mastery := masteryScore log2 p.State.Reps p.State.Ease overdue
  let extra : F :=
    if strategy = "due-heavy" then 2 * (overdue : F)
    else if strategy = "weakness" then 100 - mastery
    else 0
  3 * (overdue : F) + 2 * (100 - mastery) + recentFailBonusSpec p.State now + extra

end ScoreDefs

/-- A pool entry with the given repetitions, last grade and last review, due at the
given instant. -/
def reviewedEntry (id : String) (reps : Int) (dueAt : Time) (lastGrade : Option Int)
    (lastReviewAt : Option Time) : ProblemWithState ℚ :=
  { toProblem := sampleProblem id "easy" ["array"],
    State := { sampleState with Reps := reps, DueAt := dueAt, LastGrade := lastGrade,
                                LastReviewAt := lastReviewAt } }

/-! ## The picking loop, step by step -/

/-- The problem `p` has a normalized topic that no problem of `chosen` has. -/
def bringsNewTopic (lowerRune : Char → Char) (chosen : List Problem) (p : Problem) : Prop :=
  ∃ t ∈ topicSet lowerRune p.Topics, ∀ q ∈ chosen, t ∉ topicSet lowerRune q.Topics

/-- The map `usedTopics` counts, for every topic, the chosen problems that have it. -/
def usedTopicsAgree {F : Type} (lowerRune : Char → Char) (st : PickState F) : Prop :=
  ∀ t, st.usedTopics t =
    ((st.chosen.countP (fun p => decide (t ∈ topicSet lowerRune p.Topics)) : Nat) : Int)

/-- The states that the picking phase of a call of `pickContestProblems` can go
through: the state before the first pick, and the state after one iteration of the
loop of `pickFrom`, on any bucket for which the condition of the loop holds, from a
state it can go through. -/
inductive Reachable {F : Type} [LinearOrderedField F] (rt : Runtime F) (now : Time)
    (params : GenerateParams) (all : List (ProblemWithState F)) : PickState F → Prop where
  | start : Reachable rt now params all
      { buckets := sortBuckets
          (fillBuckets rt (normalizeStrategy rt.lowerRune params.Strategy) now all),
        want := wantOf params, usedTopics := fun _ => 0, chosen := [] }
  | step (bucket : String) (st st' : PickState F) :
      Reachable rt now params all st →
      st.want bucket > 0 ∧ (st.buckets bucket).length > 0 →
      pickStep rt (normalizeStrategy rt.lowerRune params.Strategy) bucket st = .ok st' →
      Reachable rt now params all st'

/-- The state in which `pickContestProblems` starts to pick from `samplePool`, for the
mix {2,2,1} under `balanced`. -/
def sampleStart : PickState ℚ :=
  { buckets := sortBuckets
      (fillBuckets sampleRuntime
        (normalizeStrategy sampleRuntime.lowerRune (sampleParams "balanced").Strategy) 0
        samplePool),
    want := wantOf (sampleParams "balanced"), usedTopics := fun _ => 0, chosen := [] }

/-- The state after the first iteration of the loop of `pickFrom` on the easy bucket,
from `sampleStart`: problem `e1`, with the topic `array`, has been chosen. -/
def sampleAfterOne : PickState ℚ :=
  match pickStep sampleRuntime
      (normalizeStrategy sampleRuntime.lowerRune (sampleParams "balanced").Strategy) "easy"
      sampleStart with
  | .ok st => st
  | .error _ => sampleStart

/-! ## Topic statistics (`stats/handlers.go`) -/

/-- Go `Time.After`. -/
def Time.After (t u : Time) : Bool := decide (t > u)

/-- Source: `masteryScore` of package `stats`.  The argument `log2` stands for
`math.Log2`. -/
def stats.masteryScore {F : Type} [LinearOrderedField F] (log2 : F → F) (reps : Int)
    (ease : F) (overdueDays : Int) : F :=
  let overduePenalty : F := ((wrap64 (overdueDays * 2) : Int) : F)
  let overduePenalty : F := if overduePenalty > 30 then 30 else overduePenalty
  let m := 20 * log2 ((reps : F) + 1) + 25 * (ease - 13 / 10) - overduePenalty
  if m < 0 then 0
  else if m > 100 then 100
  else m

/-- Source: stats `Handler.Topics`,
`od := 0; if now.After(dueAt) { od = int(now.Sub(dueAt).Hours() / 24) }`. -/
def stats.topicsOverdueDays (now dueAt : Time) : Int :=
  if Time.After now dueAt then
    wrap64 (truncToInt (roundF64 (Duration.Hours (Time.Sub now dueAt) / 24)))
  else 0

/-- Source: stats `Handler.Topics`, the mastery of one row `(reps, ease, due_at)`. -/
def stats.topicsMastery {F : Type} [LinearOrderedField F] (log2 : F → F) (now : Time)
    (reps : Int) (ease : F) (dueAt : Time) : F :=
  stats.masteryScore log2 reps ease (stats.topicsOverdueDays now dueAt)
/-! ## The calendar feed (`calendar/handlers.go`) -/

/-- Every semicolon of the text stands right after a backslash, `prev` being the
character before the text. -/
def semiEscapedFrom (prev : Char) : List Char → Bool
  | [] => true
  | c :: cs => (c != ';' || prev == '\\') && semiEscapedFrom c cs

/-- A text in which a semicolon only stands right after a backslash. -/
def semiEscaped (l : List Char) : Prop := semiEscapedFrom ' ' l = true

instance (l : List Char) : Decidable (semiEscaped l) :=
  inferInstanceAs (Decidable (semiEscapedFrom ' ' l = true))

/-- Source: `calendar.DueProblem`. -/
structure DueProblem where
  ProblemID : String
  Title : String
  URL : String
  DueAt : Time

/-- Source: `EventSummary`. -/
def EventSummary (title : String) : String :=
  let title := trimSpace title
  if title = "" then "PrepTracker review" else "Review: " ++ title

/-- Source: calendar `Handler.ICS`, the event built for one due problem: it starts on
the local day of `due_at` at the due time of the user and lasts 30 minutes. -/
def calendar.dueEvent (userID : String) (settings : Settings) (loc : Location)
    (d : DueProblem) : Event :=
  let dueLocal : ZonedTime := { instant := d.DueAt, loc := loc }
  let start : ZonedTime :=
    { instant := loc.fromWall (dueLocal.wall / Day * Day + settings.DueHourLocal * Hour +
        settings.DueMinuteLocal * Minute),
      loc := loc }
  let finish : ZonedTime := { instant := start.instant + 30 * Minute, loc := loc }
  { UID := "preptracker-" ++ userID ++ "-" ++ d.ProblemID, Summary := EventSummary d.Title,
    Description := d.URL, URL := d.URL, Start := start, End := finish, AllDay := false }

/-- What calendar `Handler.ICS` gets from the request and from its collaborators. -/
structure ICSEnv where
  /-- `r.Method == http.MethodGet`. -/
  methodIsGet : Bool
  /-- The query parameter `token`. -/
  token : String
  /-- `h.tokens.UserIDByRawToken`, `none` for an error. -/
  userIDByRawToken : String → Option String
  /-- The query parameter `window_days`. -/
  windowDays : String
  /-- The function `strconv.Atoi`, `none` for an error. -/
  atoi : String → Option Int
  /-- `h.users.GetSettings`, `none` for an error. -/
  settings : Option Settings
  loadLocation : String → Option Location
  /-- The `time.Now()` from which the window is counted. -/
  now : Time
  /-- `h.tokens.LoadDueWindow` for the user and the end of the window, `none` for an
  error. -/
  loadDueWindow : String → Time → Option (List DueProblem)
  /-- The `time.Now()` read by `BuildICS`. -/
  nowAtBuild : Time

/-- The answer of calendar `Handler.ICS`: status and body. -/
structure ICSResponse where
  status : Nat
  body : String

/-- Source: calendar `Handler.ICS` (`http.Error` writes the message and a line feed). -/
def calendar.ICS (env : ICSEnv) : ICSResponse :=
  if env.methodIsGet = false then { status := 405, body := "method not allowed\n" }
  else
    let raw := trimSpace env.token
    if raw = "" then { status := 404, body := "not found\n" }
    else
      match env.userIDByRawToken raw with
      | none => { status := 404, body := "not found\n" }
      | some userID =>
        let windowDays : Int :=
          let v := trimSpace env.windowDays
          if v ≠ "" then
            match env.atoi v with
            | some n => if n > 0 then n else 30
            | none => 30
          else 30
        match env.settings with
        | none => { status := 404, body := "not found\n" }
        | some settings =>
          let loc := resolveLocation env.loadLocation settings.Timezone
          let windowEnd := ((ZonedTime.mk env.now Location.UTC).AddDays windowDays).instant
          match env.loadDueWindow userID windowEnd with
          | none => { status := 500, body := "failed to load calendar\n" }
          | some due =>
            let events := due.map (calendar.dueEvent userID settings loc)
            { status := 200, body := BuildICS env.nowAtBuild "PrepTracker" events }

/-- A due problem whose title and URL hold the text of an all-day start line. -/
def sampleDue : DueProblem :=
  { ProblemID := "p1", Title := "A; DTSTART;VALUE=DATE:20260101",
    URL := "https://example.com/?q=DTSTART;VALUE=DATE:", DueAt := 100 * Day }

/-- A request for the calendar feed of a user with one due problem. -/
def sampleICSEnv : ICSEnv :=
  { methodIsGet := true, token := "t0", userIDByRawToken := fun _ => some "u1",
    windowDays := "", atoi := fun _ => none, settings := some sampleSettings,
    loadLocation := fun _ => none, now := 99 * Day,
    loadDueWindow := fun _ _ => some [sampleDue], nowAtBuild := 99 * Day }

/-! ## Refresh tokens (`auth/refresh_tokens.go`, `auth/handlers.go`) -/

/-- A row of the table `refresh_tokens`, with the columns that the code reads or writes. -/
structure RefreshRow where
  ID : String
  UserID : String
  TokenHash : String
  ExpiresAt : Time
  RevokedAt : Option Time
deriving DecidableEq, Repr

/-- The table `refresh_tokens`: its rows in the order of `created_at`, the most
recently created first. -/
abbrev RefreshStore := List RefreshRow

/-- Source: `RefreshRepo.Create`; `id` is the key that the database gives the row and
`tokenHash` is `HashToken(raw)`. -/
def RefreshRepo.Create (store : RefreshStore) (id userID tokenHash : String)
    (expiresAt : Time) : RefreshStore :=
  { ID := id, UserID := userID, TokenHash := tokenHash, ExpiresAt := expiresAt,
    RevokedAt := none } :: store

/-- Source: `RefreshRepo.GetByHash`, the query
`WHERE token_hash = $1 ORDER BY created_at DESC LIMIT 1`; `none` is `db.ErrNotFound`. -/
def RefreshRepo.GetByHash (store : RefreshStore) (tokenHash : String) : Option RefreshRow :=
  store.find? (fun r => decide (r.TokenHash = tokenHash))

/-- Source: `RefreshRepo.Revoke`, the statement
`UPDATE refresh_tokens SET revoked_at = now() WHERE id = $1 AND revoked_at IS NULL`. -/
def RefreshRepo.Revoke (store : RefreshStore) (id : String) (dbNow : Time) : RefreshStore :=
  store.map (fun r =>
    if r.ID = id ∧ r.RevokedAt = none then { r with RevokedAt := some dbNow } else r)

/-- Source: `tokenResponse`. -/
structure tokenResponse where
  AccessToken : String
  RefreshToken : String
  TokenType : String
deriving DecidableEq, Repr

/-- Source: `registerRequest`. -/
structure registerRequest where
  Email : String
  Password : String
  Timezone : String
  MinIntervalDays : Int
  DueHourLocal : Option Int
  DueMinuteLocal : Option Int

/-- Source: `loginRequest`. -/
structure loginRequest where
  Email : String
  Password : String

/-- Source: `refreshRequest`. -/
structure refreshRequest where
  RefreshToken : String

/-- Source: `logoutRequest`. -/
structure logoutRequest where
  RefreshToken : String

/-- What the handler is built with: the lifetime of a refresh token, and the function
`HashToken` (SHA-256, in hexadecimal). -/
structure AuthConfig where
  refreshTTL : Duration
  hashToken : String → String

/-- What an auth handler gets from its collaborators while it serves one request. -/
structure AuthEnv where
  /-- `r.Method == http.MethodPost`. -/
  methodIsPost : Bool
  /-- `HashPassword`, `none` for an error. -/
  hashPassword : Option String
  /-- `h.users.Create`: the new user id, or the error. -/
  createUser : Except DbError String
  /-- `h.users.GetSettings`, `none` for an error. -/
  settings : Option Settings
  /-- `h.users.GetByEmail`: the id of the user, `none` for an error. -/
  userByEmail : Option String
  /-- `VerifyPassword` returns no error. -/
  passwordOk : Bool
  /-- The query of `GetByHash` fails with an error other than `pgx.ErrNoRows`. -/
  getByHashFails : Bool
  /-- The statement of `Revoke` fails. -/
  revokeFails : Bool
  /-- `h.jwt.Sign`: the access token, `none` for an error. -/
  sign : Option String
  /-- `NewRawToken`: 32 random bytes in hexadecimal, `none` for an error. -/
  newRawToken : Option String
  /-- `h.refresh.Create`: the id of the new row, `none` for an error. -/
  createRow : Option String
  /-- The instant `time.Now()`. -/
  now : Time
  /-- The instant `now()` of the database. -/
  dbNow : Time

/-- The answer of an auth handler: the status, and the tokens it hands out. -/
structure AuthResponse where
  status : Nat
  tokens : Option tokenResponse
deriving DecidableEq, Repr

/-- Source: `Handler.issueTokens`. -/
def auth.issueTokens (cfg : AuthConfig) (env : AuthEnv) (store : RefreshStore)
    (userID : String) : RefreshStore × Option tokenResponse :=
  match env.sign with
  | none => (store, none)
  | some access =>
    match env.newRawToken with
    | none => (store, none)
    | some raw =>
      match env.createRow with
      | none => (store, none)
      | some id =>
        (RefreshRepo.Create store id userID (cfg.hashToken raw) (env.now + cfg.refreshTTL),
          some { AccessToken := access, RefreshToken := raw, TokenType := "Bearer" })

/-- Source: `Handler.Register`. -/
def auth.Register (cfg : AuthConfig) (env : AuthEnv) (store : RefreshStore)
    (body : Option registerRequest) : RefreshStore × AuthResponse :=
  if env.methodIsPost = false then (store, { status := 405, tokens := none })
  else
    match body with
    | none => (store, { status := 400, tokens := none })
    | some req =>
      if trimSpace req.Email = "" ∨ trimSpace req.Password = "" then
        (store, { status := 400, tokens := none })
      else
        match env.hashPassword with
        | none => (store, { status := 500, tokens := none })
        | some _ =>
          match env.createUser with
          | .error (.pg code) =>
            if code = "23505" then (store, { status := 409, tokens := none })
            else (store, { status := 500, tokens := none })
          | .error .other => (store, { status := 500, tokens := none })
          | .ok userID =>
            let dueTimeOk : Bool :=
              if req.DueHourLocal.isSome ∨ req.DueMinuteLocal.isSome then
                let hour := req.DueHourLocal.getD
                  (match env.settings with | some s => s.DueHourLocal | none => 0)
                let min := req.DueMinuteLocal.getD
                  (match env.settings with | some s => s.DueMinuteLocal | none => 0)
                !(decide (hour < 0 ∨ hour > 23 ∨ min < 0 ∨ min > 59))
              else true
            if dueTimeOk = false then (store, { status := 400, tokens := none })
            else
              match auth.issueTokens cfg env store userID with
              | (store', none) => (store', { status := 500, tokens := none })
              | (store', some resp) => (store', { status := 201, tokens := some resp })

/-- Source: `Handler.Login`. -/
def auth.Login (cfg : AuthConfig) (env : AuthEnv) (store : RefreshStore)
    (body : Option loginRequest) : RefreshStore × AuthResponse :=
  if env.methodIsPost = false then (store, { status := 405, tokens := none })
  else
    match body with
    | none => (store, { status := 400, tokens := none })
    | some req =>
      if trimSpace req.Email = "" ∨ trimSpace req.Password = "" then
        (store, { status := 400, tokens := none })
      else
        match env.userByEmail with
        | none => (store, { status := 401, tokens := none })
        | some userID =>
          if env.passwordOk = false then (store, { status := 401, tokens := none })
          else
            match auth.issueTokens cfg env store userID with
            | (store', none) => (store', { status := 500, tokens := none })
            | (store', some resp) => (store', { status := 200, tokens := some resp })

/-- Source: `Handler.Refresh`. -/
def auth.Refresh (cfg : AuthConfig) (env : AuthEnv) (store : RefreshStore)
    (body : Option refreshRequest) : RefreshStore × AuthResponse :=
  if env.methodIsPost = false then (store, { status := 405, tokens := none })
  else
    match body with
    | none => (store, { status := 400, tokens := none })
    | some req =>
      let token := trimSpace req.RefreshToken
      if token = "" then (store, { status := 400, tokens := none })
      else
        let record : Option RefreshRow :=
          if env.getByHashFails then none
          else RefreshRepo.GetByHash store (cfg.hashToken token)
        match record with
        | none => (store, { status := 401, tokens := none })
        | some record =>
          if record.RevokedAt ≠ none ∨ Time.Before record.ExpiresAt env.now = true then
            (store, { status := 401, tokens := none })
          else
            let store₁ :=
              if env.revokeFails then store else RefreshRepo.Revoke store record.ID env.dbNow
            match auth.issueTokens cfg env store₁ record.UserID with
            | (store', none) => (store', { status := 500, tokens := none })
            | (store', some resp) => (store', { status := 200, tokens := some resp })

/-- Source: `Handler.Logout`. -/
def auth.Logout (cfg : AuthConfig) (env : AuthEnv) (store : RefreshStore)
    (body : Option logoutRequest) : RefreshStore × AuthResponse :=
  if env.methodIsPost = false then (store, { status := 405, tokens := none })
  else
    match body with
    | none => (store, { status := 400, tokens := none })
    | some req =>
      let token := trimSpace req.RefreshToken
      if token = "" then (store, { status := 400, tokens := none })
      else
        let record : Option RefreshRow :=
          if env.getByHashFails then none
          else RefreshRepo.GetByHash store (cfg.hashToken token)
        match record with
        | some record =>
          if record.RevokedAt = none then
            (if env.revokeFails then store else RefreshRepo.Revoke store record.ID env.dbNow,
              { status := 204, tokens := none })
          else (store, { status := 204, tokens := none })
        | none => (store, { status := 204, tokens := none })

/-- A request to one of the four auth handlers that touch the refresh tokens, with its
decoded body (`none` when the body is not valid JSON). -/
inductive AuthCall where
  | register (body : Option registerRequest)
  | login (body : Option loginRequest)
  | refresh (body : Option refreshRequest)
  | logout (body : Option logoutRequest)

/-- One request: the call, and what the collaborators return while it is served. -/
structure AuthInput where
  call : AuthCall
  env : AuthEnv

/-- The handler of the request, on the current table of refresh tokens. -/
def auth.step (cfg : AuthConfig) (store : RefreshStore) (i : AuthInput) :
    RefreshStore × AuthResponse :=
  match i.call with
  | .register body => auth.Register cfg i.env store body
  | .login body => auth.Login cfg i.env store body
  | .refresh body => auth.Refresh cfg i.env store body
  | .logout body => auth.Logout cfg i.env store body

/-- The table of refresh tokens after a sequence of requests, served one after the
other. -/
def auth.run (cfg : AuthConfig) (store : RefreshStore) (inputs : List AuthInput) :
    RefreshStore :=
  inputs.foldl (fun s i => (auth.step cfg s i).1) store

/-- The request hands the refresh token `t` to `Logout`, whose lookup and update
succeed, or it is a `Refresh` with `t` that is answered with 200 and whose update
succeeds. -/
def auth.retires (cfg : AuthConfig) (store : RefreshStore) (i : AuthInput) (t : String) :
    Prop :=
  (∃ req, i.call = .logout (some req) ∧ trimSpace req.RefreshToken = t ∧
      i.env.methodIsPost = true ∧ i.env.getByHashFails = false ∧
      i.env.revokeFails = false) ∨
    (∃ req, i.call = .refresh (some req) ∧ trimSpace req.RefreshToken = t ∧
      (auth.step cfg store i).2.status = 200 ∧ i.env.revokeFails = false)

/-- The most recently created row with the hash of the token `t`, if there is one, is
revoked. -/
def auth.retired (cfg : AuthConfig) (t : String) (store : RefreshStore) : Prop :=
  ∀ row, RefreshRepo.GetByHash store (cfg.hashToken t) = some row → row.RevokedAt ≠ none

/-- The request issues no refresh token whose hash is the hash of `t`. -/
def auth.fresh (cfg : AuthConfig) (t : String) (i : AuthInput) : Prop :=
  ∀ raw, i.env.newRawToken = some raw → cfg.hashToken raw ≠ cfg.hashToken t

/-- A configuration whose hash function marks the token, for the sample requests. -/
def sampleAuthConfig : AuthConfig :=
  { refreshTTL := 24 * Hour, hashToken := fun raw => "sha256:" ++ raw }

/-- Collaborators that all succeed; `NewRawToken` returns `raw` and the database gives
the new row the key `rowID`. -/
def sampleAuthEnv (raw rowID : String) : AuthEnv :=
  { methodIsPost := true, hashPassword := some "hash", createUser := .ok "u1",
    settings := some sampleSettings, userByEmail := some "u1", passwordOk := true,
    getByHashFails := false, revokeFails := false, sign := some "jwt",
    newRawToken := some raw, createRow := some rowID, now := 0, dbNow := 0 }

/-- The registration of the test `TestAuthFlow`; it is answered with the refresh token
`r1`. -/
def sampleRegister : AuthInput :=
  { call := .register (some { Email := "a@example.com", Password := "pass1234",
                              Timezone := "America/New_York", MinIntervalDays := 7,
                              DueHourLocal := none, DueMinuteLocal := none }),
    env := sampleAuthEnv "r1" "row1" }

/-- A refresh with the token `token`, answered (when it is accepted) with the refresh
token `raw`. -/
def sampleRefresh (token raw rowID : String) : AuthInput :=
  { call := .refresh (some { RefreshToken := token }), env := sampleAuthEnv raw rowID }

/-- A logout with the token `token`. -/
def sampleLogout (token : String) : AuthInput :=
  { call := .logout (some { RefreshToken := token }), env := sampleAuthEnv "unused" "unused" }

/-- A login, answered with the refresh token `raw`. -/
def sampleLogin (raw rowID : String) : AuthInput :=
  { call := .login (some { Email := "a@example.com", Password := "pass1234" }),
    env := sampleAuthEnv raw rowID }

/-! ## Lists (`lists/handlers.go`) -/

/-- The answer of a lists handler: its status and the calls of `scheduler.DueAtToday`
it made. -/
structure ListsResponse where
  status : Nat
  dueAtToday : List DueAtTodayCall

/-- What lists `Handler.AddItem` gets from the request and from its collaborators. -/
structure AddItemEnv where
  /-- `r.Method == http.MethodPost`. -/
  methodIsPost : Bool
  /-- `reqctx.UserIDFromContext`. -/
  userID : Option String
  /-- `chi.URLParam(r, "id")`. -/
  listID : String
  /-- The `problem_id` of the decoded body, `none` when decoding fails. -/
  body : Option String
  /-- `h.users.GetSettings`, `none` for an error. -/
  settings : Option Settings
  loadLocation : String → Option Location
  /-- The `time.Now()` handed to `scheduler.DueAtToday`. -/
  now : Time
  beginOk : Bool
  /-- The ownership check `SELECT 1 FROM lists …`. -/
  ownsList : Bool
  /-- `EnsureUserStateTx`, `none` for success. -/
  ensureStateError : Option DbError
  /-- `NextOrderIndexTx`; both of its error branches answer 500. -/
  nextOrderIndexOk : Bool
  /-- `AddItemTx`; both of its error branches answer 500. -/
  addItemOk : Bool
  commitOk : Bool

/-- Source: lists `Handler.AddItem`. -/
def lists.AddItem (env : AddItemEnv) : ListsResponse :=
  if env.methodIsPost = false then { status := 405, dueAtToday := [] }
  else
    match env.userID with
    | none => { status := 401, dueAtToday := [] }
    | some _ =>
      if trimSpace env.listID = "" then { status := 400, dueAtToday := [] }
      else
        match env.body with
        | none => { status := 400, dueAtToday := [] }
        | some problemID =>
          if trimSpace problemID = "" then { status := 400, dueAtToday := [] }
          else
            match env.settings with
            | none => { status := 500, dueAtToday := [] }
            | some settings =>
              let loc := resolveLocation env.loadLocation settings.Timezone
              let due : DueAtTodayCall :=
                { now := env.now, loc := loc, dueHourLocal := settings.DueHourLocal,
                  dueMinuteLocal := settings.DueMinuteLocal }
              if env.beginOk = false then { status := 500, dueAtToday := [due] }
              else if env.ownsList = false then { status := 404, dueAtToday := [due] }
              else
                match env.ensureStateError with
                | some (.pg code) =>
                  if code = "42P01" then { status := 500, dueAtToday := [due] }
                  else { status := 400, dueAtToday := [due] }
                | some .other => { status := 400, dueAtToday := [due] }
                | none =>
                  if env.nextOrderIndexOk = false then { status := 500, dueAtToday := [due] }
                  else if env.addItemOk = false then { status := 500, dueAtToday := [due] }
                  else if env.commitOk = false then { status := 500, dueAtToday := [due] }
                  else { status := 204, dueAtToday := [due] }

/-- Source: `importRequest`. -/
structure importRequest where
  TemplateKey : String
  Version : String

/-- What lists `Handler.Import` gets from the request and from its collaborators; the
operations made for the template item at index `i` have their outcome at `i`. -/
structure ImportEnv where
  methodIsPost : Bool
  userID : Option String
  /-- The decoded JSON body, `none` when decoding fails. -/
  body : Option importRequest
  /-- The table behind `unicode.ToLower`. -/
  lowerRune : Char → Char
  /-- `templates.Load(key, version)`, `none` for an error; each item is given as the
  `problems.Problem` literal that the loop builds from it. -/
  templatesLoad : String → String → Option (List Problem)
  settings : Option Settings
  loadLocation : String → Option Location
  /-- The `time.Now()` handed to `scheduler.DueAtToday`. -/
  now : Time
  beginOk : Bool
  /-- `CreateTemplateSnapshotTx`. -/
  createListOk : Bool
  createOrGetOk : Nat → Bool
  ensureStateOk : Nat → Bool
  addItemOk : Nat → Bool
  commitOk : Bool

/-- Source: lists `Handler.Import`, the loop `for idx, it := range items`, from the
item at index `i`, and the commit that follows it: the status of the answer. -/
def importLoop (env : ImportEnv) : List Problem → Nat → Nat
  | [], _ => if env.commitOk = false then 500 else 201
  | _ :: rest, i =>
    if env.createOrGetOk i = false then 500
    else if env.ensureStateOk i = false then 500
    else if env.addItemOk i = false then 500
    else importLoop env rest (i + 1)

/-- Source: lists `Handler.Import`. -/
def lists.Import (env : ImportEnv) : ListsResponse :=
  if env.methodIsPost = false then { status := 405, dueAtToday := [] }
  else
    match env.userID with
    | none => { status := 401, dueAtToday := [] }
    | some _ =>
      match env.body with
      | none => { status := 400, dueAtToday := [] }
      | some req =>
        let templateKey := trimSpace (toLower env.lowerRune req.TemplateKey)
        let version := trimSpace (toLower env.lowerRune req.Version)
        if templateKey = "" ∨ version = "" then { status := 400, dueAtToday := [] }
        else
          match env.templatesLoad templateKey version with
          | none => { status := 404, dueAtToday := [] }
          | some items =>
            match env.settings with
            | none => { status := 500, dueAtToday := [] }
            | some settings =>
              let loc := resolveLocation env.loadLocation settings.Timezone
              let due : DueAtTodayCall :=
                { now := env.now, loc := loc, dueHourLocal := settings.DueHourLocal,
                  dueMinuteLocal := settings.DueMinuteLocal }
              if env.beginOk = false then { status := 500, dueAtToday := [due] }
              else if env.createListOk = false then { status := 500, dueAtToday := [due] }
              else { status := importLoop env items 0, dueAtToday := [due] }

/-! ## Streaks, overview and contest statistics (`stats/handlers.go`, `stats/contests.go`) -/

/-- Go `Time.Format("2006-01-02")`: year, month and day in the location of the time. -/
def ZonedTime.formatDay (t : ZonedTime) : String :=
  let ymd := civilFromDays (t.wall / Day)
  ⟨appendInt ymd.1 4 ++ ['-'] ++ appendInt ymd.2.1 2 ++ ['-'] ++ appendInt ymd.2.2 2⟩

/-- Go `Time.In`. -/
def Time.In (t : Time) (loc : Location) : ZonedTime := { instant := t, loc := loc }

/-- Go `time.Date(t.Year(), t.Month(), t.Day(), 0, 0, 0, 0, time.UTC)`: midnight UTC of
the calendar day that `t` shows in its location. -/
def ZonedTime.dateUTC (t : ZonedTime) : ZonedTime :=
  { instant := t.wall / Day * Day, loc := Location.UTC }

/-- The answer of a stats handler: its status and, with the status 200, its body. -/
structure Answer (β : Type) where
  status : Nat
  body : Option β

/-- Source: `currentStreakDays`, the loop `for i := 0; i < 365; i++`, with `n`
iterations left. -/
def stats.streakLoop (set : List String) : Nat → ZonedTime → Int → Int
  | 0, _, streak => streak
  | n + 1, cur, streak =>
    if cur.formatDay ∈ set then stats.streakLoop set n (cur.AddDays (-1)) (streak + 1)
    else streak

/-- Source: `currentStreakDays`.  `query name start` stands for the query of the local
dates with a review, made with `loc.String()` and `start`: `none` for an error, and in
the list of its rows `none` for a row whose `Scan` fails.  The map `set` is the list of
its keys. -/
def stats.currentStreakDays (query : String → Time → Option (List (Option ZonedTime)))
    (loc : Location) (nowUTC : Time) : Int :=
  let start := nowUTC - 90 * 24 * Hour
  match query loc.name start with
  | none => 0
  | some rows =>
    let set := rows.filterMap (fun r => r.map ZonedTime.formatDay)
    let todayLocal := Time.In nowUTC loc
    let cur := todayLocal.dateUTC
    let cur := if cur.formatDay ∈ set then cur else cur.AddDays (-1)
    stats.streakLoop set 365 cur 0

/-- Source: `StreaksResponse`. -/
structure StreaksResponse where
  CurrentStreakDays : Int
deriving DecidableEq, Repr

/-- What stats `Handler.Streaks` gets from the request and from its collaborators. -/
structure StreaksEnv where
  /-- `r.Method == http.MethodGet`. -/
  methodIsGet : Bool
  userID : Option String
  settings : Option Settings
  loadLocation : String → Option Location
  now : Time
  /-- The query of `currentStreakDays` for the user, `loc.String()` and the start. -/
  reviewDays : String → String → Time → Option (List (Option ZonedTime))

/-- Source: stats `Handler.Streaks`. -/
def stats.Streaks (env : StreaksEnv) : Answer StreaksResponse :=
  if env.methodIsGet = false then { status := 405, body := none }
  else
    match env.userID with
    | none => { status := 401, body := none }
    | some userID =>
      match env.settings with
      | none => { status := 500, body := none }
      | some settings =>
        let loc := resolveLocation env.loadLocation settings.Timezone
        { status := 200,
          body := some
            { CurrentStreakDays := stats.currentStreakDays (env.reviewDays userID) loc env.now } }

/-- Source: `Overview`. -/
structure Overview where
  ActiveProblems : Int
  OverdueCount : Int
  DueTodayCount : Int
  DueSoonCount : Int
  ReviewsLast7Days : Int
  CurrentStreakDays : Int
deriving DecidableEq, Repr

/-- What stats `Handler.Overview` gets from the request and from its collaborators. -/
structure OverviewEnv where
  methodIsGet : Bool
  userID : Option String
  settings : Option Settings
  loadLocation : String → Option Location
  now : Time
  /-- The function `scheduler.AnchorLocalDay`, whose package is not among the sources. -/
  anchorLocalDay : Time → Location → Int → Int → ZonedTime
  /-- The query of the four counts for the user and the instants `startTodayUTC`,
  `startTomorrowUTC` and `dueSoonUTC`, `none` for an error. -/
  counts : String → Time → Time → Time → Option (Int × Int × Int × Int)
  /-- The query of the number of reviews of the user since an instant, `none` for an
  error (which leaves `reviews7` at 0). -/
  reviewsSince : String → Time → Option Int
  reviewDays : String → String → Time → Option (List (Option ZonedTime))

/-- Source: stats `Handler.Overview`. -/
def stats.Overview (env : OverviewEnv) : Answer Overview :=
  if env.methodIsGet = false then { status := 405, body := none }
  else
    match env.userID with
    | none => { status := 401, body := none }
    | some userID =>
      match env.settings with
      | none => { status := 500, body := none }
      | some settings =>
        let loc := resolveLocation env.loadLocation settings.Timezone
        let startTodayLocal := env.anchorLocalDay env.now loc 0 0
        let startTomorrowLocal := startTodayLocal.AddDays 1
        let startTodayUTC := startTodayLocal.UTC
        let startTomorrowUTC := startTomorrowLocal.UTC
        let dueSoonUTC := (startTomorrowLocal.AddDays 3).UTC
        match env.counts userID startTodayUTC.instant startTomorrowUTC.instant
            dueSoonUTC.instant with
        | none => { status := 500, body := none }
        | some (active, overdue, dueToday, dueSoon) =>
          let reviews7 := (env.reviewsSince userID (env.now - 7 * 24 * Hour)).getD 0
          let streak := stats.currentStreakDays (env.reviewDays userID) loc env.now
          { status := 200,
            body := some
              { ActiveProblems := active, OverdueCount := overdue, DueTodayCount := dueToday,
                DueSoonCount := dueSoon, ReviewsLast7Days := reviews7,
                CurrentStreakDays := streak } }

/-- Source: `ContestStatsTotals`. -/
structure ContestStatsTotals (F : Type) where
  ContestsFinished : Int
  ProblemsRecorded : Int
  SolvedCount : Int
  AvgGrade : Option F
  TotalTimeSec : Int

/-- Source: `ContestStatsDay`. -/
structure ContestStatsDay (F : Type) where
  Date : String
  ContestsFinished : Int
  ProblemsRecorded : Int
  SolvedCount : Int
  AvgGrade : Option F
  TotalTimeSec : Int

/-- Source: `ContestStatsRecent`. -/
structure ContestStatsRecent (F : Type) where
  ContestID : String
  Strategy : String
  DurationMinutes : Int
  CreatedAt : Time
  StartedAt : Option Time
  CompletedAt : Option Time
  TotalItems : Int
  RecordedCount : Int
  SolvedCount : Int
  AvgGrade : Option F
  TotalTimeSec : Int

/-- Source: `ContestStatsResponse`. -/
structure ContestStatsResponse (F : Type) where
  WindowDays : Int
  Totals : ContestStatsTotals F
  Days : List (ContestStatsDay F)
  Recent : List (ContestStatsRecent F)

/-- Source: the local type `resultsRow` of stats `Handler.Contests`. -/
structure resultsRow (F : Type) where
  key : String
  recorded : Int
  solved : Int
  avg : Option F
  totalTime : Int

/-- Source: `parseWindowDays`; `q` is the query parameter `window_days` and `atoi`
stands for `strconv.Atoi`, with `none` for an error. -/
def parseWindowDays (atoi : String → Option Int) (q : String) : Int :=
  if q = "" then 30
  else
    match atoi q with
    | none => 30
    | some n => if n < 1 then 1 else if n > 180 then 180 else n

/-- The rows of a query, read by a loop that stops at the first `Scan` that fails:
`none` when a `Scan` fails. -/
def scanRows {α : Type} : List (Option α) → Option (List α)
  | [] => some []
  | none :: _ => none
  | some a :: rest => (scanRows rest).map (fun l => a :: l)

/-- The value `m[key]` of a Go map filled by the assignments `m[k] = v` for the pairs
of the list, in order: the value of the last pair with that key. -/
def lookupLast {β : Type} (m : List (String × β)) (key : String) : Option β :=
  (m.reverse.find? (fun kv => decide (kv.1 = key))).map (fun kv => kv.2)

/-- What stats `Handler.Contests` gets from the request and from its collaborators. -/
structure ContestsEnv (F : Type) where
  methodIsGet : Bool
  userID : Option String
  settings : Option Settings
  loadLocation : String → Option Location
  /-- The query parameter `window_days`. -/
  windowDays : String
  /-- The function `strconv.Atoi`, `none` for an error. -/
  atoi : String → Option Int
  now : Time
  /-- The function `scheduler.AnchorLocalDay`, whose package is not among the sources. -/
  anchorLocalDay : Time → Location → Int → Int → ZonedTime
  /-- The query of the totals for the user and `startWindowUTC`: `problems_recorded`,
  `solved_count`, `avg_grade` and `total_time_sec`, `none` for an error. -/
  totals : String → Time → Option (Int × Int × Option F × Int)
  /-- The query of the number of finished contests, `none` for an error (which leaves
  the count at 0). -/
  finished : String → Time → Option Int
  /-- The query of the daily results for the user, `loc.String()` and
  `startWindowUTC`: `none` for an error, and in the list of its rows `none` for a row
  whose `Scan` fails. -/
  resultsByDay : String → String → Time →
    Option (List (Option (ZonedTime × Int × Int × Option F × Int)))
  /-- The query of the contests finished per day, in the same way. -/
  finishedByDay : String → String → Time → Option (List (Option (ZonedTime × Int)))
  /-- The recent contests that are read for the user (none when that query fails). -/
  recent : String → List (ContestStatsRecent F)

/-- Source: stats `Handler.Contests`. -/
def stats.Contests {F : Type} (env : ContestsEnv F) : Answer (ContestStatsResponse F) :=
  if env.methodIsGet = false then { status := 405, body := none }
  else
    match env.userID with
    | none => { status := 401, body := none }
    | some userID =>
      match env.settings with
      | none => { status := 500, body := none }
      | some settings =>
        let loc := resolveLocation env.loadLocation settings.Timezone
        let windowDays := parseWindowDays env.atoi env.windowDays
        let startTodayLocal := env.anchorLocalDay env.now loc 0 0
        let startWindowLocal := startTodayLocal.AddDays (-(windowDays - 1))
        let startWindowUTC := startWindowLocal.UTC
        match env.totals userID startWindowUTC.instant with
        | none => { status := 500, body := none }
        | some (recorded, solved, avgGrade, totalTime) =>
          let contestsFinished := (env.finished userID startWindowUTC.instant).getD 0
          match env.resultsByDay userID loc.name startWindowUTC.instant with
          | none => { status := 500, body := none }
          | some rows =>
            match scanRows rows with
            | none => { status := 500, body := none }
            | some rows =>
              let resultsByDay : List (String × resultsRow F) :=
                rows.map (fun r =>
                  (r.1.formatDay,
                    { key := r.1.formatDay, recorded := r.2.1, solved := r.2.2.1,
                      avg := r.2.2.2.1, totalTime := r.2.2.2.2 }))
              match env.finishedByDay userID loc.name startWindowUTC.instant with
              | none => { status := 500, body := none }
              | some rows =>
                match scanRows rows with
                | none => { status := 500, body := none }
                | some rows =>
                  let finishedByDay : List (String × Int) :=
                    rows.map (fun r => (r.1.formatDay, r.2))
                  let days : List (ContestStatsDay F) :=
                    (List.range windowDays.toNat).map (fun i =>
                      let dayLocal := startWindowLocal.AddDays i
                      let key := dayLocal.formatDay
                      let rr := lookupLast resultsByDay key
                      { Date := key,
                        ContestsFinished := (lookupLast finishedByDay key).getD 0,
                        ProblemsRecorded := (rr.map (fun r => r.recorded)).getD 0,
                        SolvedCount := (rr.map (fun r => r.solved)).getD 0,
                        AvgGrade := rr.bind (fun r => r.avg),
                        TotalTimeSec := (rr.map (fun r => r.totalTime)).getD 0 })
                  { status := 200,
                    body := some
                      { WindowDays := windowDays,
                        Totals :=
                          { ContestsFinished := contestsFinished, ProblemsRecorded := recorded,
                            SolvedCount := solved, AvgGrade := avgGrade,
                            TotalTimeSec := totalTime },
                        Days := days, Recent := env.recent userID } }

/-! ## The fallback to UTC, as a property of a handler -/

/-- The location `used` is the one that the lookup `load` of the timezone name `tz`
resolves to: UTC when the lookup fails, the location found when it succeeds. -/
def ResolvedAs (load : String → Option Location) (tz : String) (used : Location) : Prop :=
  (load tz = none → used = Location.UTC) ∧ (∀ loc, load tz = some loc → used = loc)

/-- A handler, seen as a function `run` of what `time.LoadLocation` does, falls back to
UTC for the timezone name `tz`: when the lookup of `tz` fails the handler does what it
does when the lookup gives `time.UTC`, and when the lookup gives a location the handler
does what it does when every lookup gives that location. -/
def FallsBackToUTC {R : Type} (run : (String → Option Location) → R) (tz : String) : Prop :=
  ∀ load : String → Option Location,
    (load tz = none → run load = run (fun _ => some Location.UTC)) ∧
      (∀ loc, load tz = some loc → run load = run (fun _ => some loc))

/-! ## Sample requests for the lists and stats handlers -/

/-- A zone three hours east of UTC. -/
def eastZone : Location := { name := "UTC+3", offset := fun _ => 3 * Hour }

/-- A function put in the place of `scheduler.AnchorLocalDay` for the sample requests:
the local day of `t` in `loc` at the wall-clock time `hour:minute`, as a time in `loc`. -/
def sampleAnchor (t : Time) (loc : Location) (hour minute : Int) : ZonedTime :=
  { instant := loc.fromWall ((t + loc.offset t) / Day * Day + hour * Hour + minute * Minute),
    loc := loc }

/-- An item added to list `l1`, every collaborator succeeding and `time.LoadLocation`
failing. -/
def sampleAddItemEnv : AddItemEnv :=
  { methodIsPost := true, userID := some "u1", listID := "l1", body := some "p1",
    settings := some sampleSettings, loadLocation := fun _ => none, now := 100 * Day,
    beginOk := true, ownsList := true, ensureStateError := none, nextOrderIndexOk := true,
    addItemOk := true, commitOk := true }

/-- The import of a template of two items, every collaborator succeeding and
`time.LoadLocation` failing. -/
def sampleImportEnv : ImportEnv :=
  { methodIsPost := true, userID := some "u1",
    body := some { TemplateKey := "Blind75", Version := "v1" }, lowerRune := Char.toLower,
    templatesLoad := fun _ _ =>
      some [sampleProblem "" "easy" ["array"], sampleProblem "" "medium" ["dp"]],
    settings := some sampleSettings, loadLocation := fun _ => none, now := 100 * Day,
    beginOk := true, createListOk := true, createOrGetOk := fun _ => true,
    ensureStateOk := fun _ => true, addItemOk := fun _ => true, commitOk := true }

/-- Review days as the database reports them for a timezone name: the reviews were made
at 22:30 UTC on day 99 and at 10:00 UTC on day 100, which are the local days 99 and 100
in UTC, and both times the local day 100 in a zone three hours east of it. -/
def sampleReviewDays (_userID name : String) (_start : Time) :
    Option (List (Option ZonedTime)) :=
  if name = "UTC" then
    some [some { instant := 100 * Day, loc := Location.UTC },
      some { instant := 99 * Day, loc := Location.UTC }]
  else some [some { instant := 100 * Day, loc := Location.UTC }]

/-- A request for the streak at 23:00 UTC of day 100, `time.LoadLocation` failing. -/
def sampleStreaksEnv : StreaksEnv :=
  { methodIsGet := true, userID := some "u1", settings := some sampleSettings,
    loadLocation := fun _ => none, now := 100 * Day + 23 * Hour,
    reviewDays := sampleReviewDays }

/-- A request for the overview at 23:00 UTC of day 100, `time.LoadLocation` failing;
one problem is overdue at the instant at which day 100 begins in UTC, and two are at
any later instant. -/
def sampleOverviewEnv : OverviewEnv :=
  { methodIsGet := true, userID := some "u1", settings := some sampleSettings,
    loadLocation := fun _ => none, now := 100 * Day + 23 * Hour,
    anchorLocalDay := sampleAnchor,
    counts := fun _ today _ _ => some (5, if today ≤ 100 * Day then 1 else 2, 2, 1),
    reviewsSince := fun _ _ => some 4, reviewDays := sampleReviewDays }

/-- A request for the contest statistics of the last two days at 23:00 UTC of day 100,
`time.LoadLocation` failing. -/
def sampleContestsEnv : ContestsEnv ℚ :=
  { methodIsGet := true, userID := some "u1", settings := some sampleSettings,
    loadLocation := fun _ => none, windowDays := "2",
    atoi := fun q => if q = "2" then some 2 else none, now := 100 * Day + 23 * Hour,
    anchorLocalDay := sampleAnchor,
    totals := fun _ _ => some (3, 2, some 3, 900), finished := fun _ _ => some 1,
    resultsByDay := fun _ _ _ =>
      some [some ({ instant := 100 * Day, loc := Location.UTC }, 3, 2, some 3, 900)],
    finishedByDay := fun _ _ _ => some [some ({ instant := 100 * Day, loc := Location.UTC }, 1)],
    recent := fun _ => [] }

/-! ## Mastery scoring: bounds and formula -/

section ScoringFacts

variable {F : Type} [LinearOrderedField F]

theorem clamp_bounds (v lo hi : F) (h : lo ≤ hi) : lo ≤ clamp v lo hi ∧ clamp v lo hi ≤ hi := by
  unfold clamp
  split_ifs with h1 h2
  · exact ⟨le_refl _, h⟩
  · exact ⟨h, le_refl _⟩
  · exact ⟨not_lt.mp h1, not_lt.mp h2⟩

theorem wrap64_of_range (x : Int) (h1 : -(2 ^ 63) ≤ x) (h2 : x < 2 ^ 63) : wrap64 x = x := by
  unfold wrap64
  have : (x + 2 ^ 63) % 2 ^ 64 = x + 2 ^ 63 := Int.emod_eq_of_lt (by omega) (by omega)
  omega

/-- Claim C8. For `reps ≥ 0`, `ease ≥ 0` and `overdueDays ≥ 0` the mastery score lies
between 0 and 100. -/
theorem masteryScore_bounds (log2 : F → F) (reps : Int) (ease : F) (overdueDays : Int)
    (_hreps : 0 ≤ reps) (_hease : 0 ≤ ease) (_hod : 0 ≤ overdueDays) :
    0 ≤ masteryScore log2 reps ease overdueDays ∧ masteryScore log2 reps ease overdueDays ≤ 100 := by
  unfold masteryScore
  exact clamp_bounds _ 0 100 (by norm_num)

theorem masteryScore_bounds_witness :
    (0 : ℚ) ≤ masteryScore (fun _ => 1) 1 (5 / 2) 4 ∧
      masteryScore (fun _ => (1 : ℚ)) 1 (5 / 2) 4 ≤ 100 :=
  masteryScore_bounds (fun _ => (1 : ℚ)) 1 (5 / 2) 4 (by decide) (by norm_num) (by decide)

/-- Claim C9, counterexample. With `reps = 0`, `ease = 1.3` and `log2 1 = 0`, the code
gives 100 at `overdueDays = 2^62` (the product `overdueDays * 2` wraps to `-2^63`),
where the formula of the specification gives 0. -/
theorem masteryScore_formula_counterexample :
    masteryScore (fun _ => (0 : ℚ)) 0 (13 / 10) (2 ^ 62) = 100 ∧
      masteryScoreSpec (fun _ => (0 : ℚ)) 0 (13 / 10) (2 ^ 62) = 0 := by
  decide!

/-- Claim C9, amended. For `reps ≥ 0`, every `ease` and `0 ≤ overdueDays < 2^62` (so that
`overdueDays * 2` does not overflow) the mastery score is
`clamp(20*log2(reps+1) + 25*(ease - 1.3) - min(2*overdueDays, 30), 0, 100)`, and it is
the same for all overdue-day counts between 15 and `2^62`. -/
theorem masteryScore_formula (log2 : F → F) (reps : Int) (ease : F) (overdueDays : Int)
    (_hreps : 0 ≤ reps) (hod : 0 ≤ overdueDays) (hlt : overdueDays < 2 ^ 62) :
    masteryScore log2 reps ease overdueDays = masteryScoreSpec log2 reps ease overdueDays ∧
      (15 ≤ overdueDays →
        masteryScore log2 reps ease overdueDays = masteryScore log2 reps ease 15) := by
  have hw : wrap64 (overdueDays * 2) = 2 * overdueDays := by
    rw [wrap64_of_range _ (by omega) (by omega)]; ring
  have h15 : wrap64 (15 * 2) = 30 := by decide
  have key : ∀ x : Int, (if ((x : Int) : F) > 30 then (30 : F) else ((x : Int) : F))
      = ((min x 30 : Int) : F) := by
    intro x
    by_cases hx : x ≤ 30
    · have : ¬ ((x : F) > 30) := by
        have : (x : F) ≤ ((30 : Int) : F) := by exact_mod_cast hx
        simpa using this
      rw [if_neg this, min_eq_left hx]
    · have hx' : 30 < x := by omega
      have : ((x : Int) : F) > 30 := by
        have : ((30 : Int) : F) < (x : F) := by exact_mod_cast hx'
        simpa using this
      rw [if_pos this, min_eq_right (by omega)]
      norm_num
  constructor
  · unfold masteryScore masteryScoreSpec
    simp only [hw, key]
  · intro h
    unfold masteryScore
    simp only [hw, h15, key]
    rw [min_eq_right (by omega)]
    norm_num

theorem masteryScore_formula_witness :
    masteryScore (fun _ => (1 : ℚ)) 1 (5 / 2) 20 = masteryScoreSpec (fun _ => (1 : ℚ)) 1 (5 / 2) 20 ∧
      ((15 : Int) ≤ 20 →
        masteryScore (fun _ => (1 : ℚ)) 1 (5 / 2) 20 = masteryScore (fun _ => (1 : ℚ)) 1 (5 / 2) 15) :=
  masteryScore_formula (fun _ => (1 : ℚ)) 1 (5 / 2) 20 (by decide) (by decide) (by decide)

end ScoringFacts

/-! ## Overdue days -/

/-- A problem that is not yet due, or due at this very instant, is 0 days overdue. -/
theorem overdueDays_of_le (now dueAt : Time) (h : now ≤ dueAt) : overdueDays now dueAt = 0 := by
  rcases lt_or_eq_of_le h with hlt | heq
  · unfold overdueDays Time.Before
    simp only [hlt, decide_True, if_true]
  · subst heq
    have hsub : Time.Sub now now = 0 := by
      unfold Time.Sub
      rw [sub_self, if_pos (by decide)]
    have hz : wrap64 (truncToInt (roundF64 (Duration.Hours 0 / 24))) = 0 := by decide!
    unfold overdueDays Time.Before
    simp only [lt_irrefl, decide_False, Bool.false_eq_true, if_false, hsub, hz]

/-- Claim C10, the code at the failing input. When `now` is one nanosecond short of 171
days after `dueAt`, `Duration.Hours` rounds `4103.99999999999972…` to `4104.0`, and
`overdueDays` answers 171, whereas `floor((now - dueAt) / 24 hours)` is 170. -/
theorem overdueDays_rounds_up :
    overdueDays (171 * 24 * Hour - 1) 0 = 171 ∧ overdueDaysSpec (171 * 24 * Hour - 1) 0 = 170 := by
  decide!

/-! ## The selector: buckets -/

section SelectorFacts

variable {F : Type} [LinearOrderedField F]

theorem setKey_same {α : Type} (m : String → α) (k : String) (v : α) : setKey m k v k = v := by
  simp [setKey]

theorem setKey_other {α : Type} (m : String → α) {k k' : String} (v : α) (h : k' ≠ k) :
    setKey m k v k' = m k' := by
  simp [setKey, h]

theorem normalizeDifficulty_cases (lr : Char → Char) (d : String) :
    normalizeDifficulty lr d = "easy" ∨ normalizeDifficulty lr d = "medium" ∨
      normalizeDifficulty lr d = "hard" ∨ normalizeDifficulty lr d = "unknown" := by
  unfold normalizeDifficulty
  by_cases h : trimSpace (toLower lr d) = "easy" ∨ trimSpace (toLower lr d) = "medium" ∨
      trimSpace (toLower lr d) = "hard"
  · rw [if_pos h]
    rcases h with h | h | h
    · exact Or.inl h
    · exact Or.inr (Or.inl h)
    · exact Or.inr (Or.inr (Or.inl h))
  · rw [if_neg h]
    exact Or.inr (Or.inr (Or.inr rfl))

/-- A normalized difficulty is a bucket exactly when the trimmed, lowered string is. -/
theorem normalizeDifficulty_eq_iff (lr : Char → Char) (d k : String)
    (hk : k = "easy" ∨ k = "medium" ∨ k = "hard") :
    normalizeDifficulty lr d = k ↔ trimSpace (toLower lr d) = k := by
  unfold normalizeDifficulty
  by_cases h : trimSpace (toLower lr d) = "easy" ∨ trimSpace (toLower lr d) = "medium" ∨
      trimSpace (toLower lr d) = "hard"
  · rw [if_pos h]
  · rw [if_neg h]
    constructor
    · intro h'
      rcases hk with hk | hk | hk <;> rw [hk] at h' <;> exact absurd h' (by decide)
    · intro h'
      exact absurd (h' ▸ hk) h

/-- The bucket of key `k` after the first loop: the pool entries of normalized
difficulty `k`, in pool order. -/
theorem fillBuckets_apply (rt : Runtime F) (strategy : String) (now : Time)
    (all : List (ProblemWithState F)) (k : String) (hk : k ≠ "unknown") :
    fillBuckets rt strategy now all k =
      (all.filter (fun p => decide (normalizeDifficulty rt.lowerRune p.Difficulty = k))).map
        (mkCandidate rt strategy now) := by
  unfold fillBuckets
  suffices h : ∀ (init : String → List (candidate F)),
      (all.foldl
        (fun buckets p =>
          let d := normalizeDifficulty rt.lowerRune p.Difficulty
          if d = "unknown" then buckets
          else setKey buckets d (buckets d ++ [mkCandidate rt strategy now p]))
        init) k =
      init k ++ (all.filter (fun p => decide (normalizeDifficulty rt.lowerRune p.Difficulty = k))).map
        (mkCandidate rt strategy now) by
    simpa using h (fun _ => [])
  induction all with
  | nil => intro init; simp
  | cons p ps ih =>
    intro init
    rw [List.foldl_cons, ih, List.filter_cons]
    generalize normalizeDifficulty rt.lowerRune p.Difficulty = d
    by_cases hd : d = "unknown"
    · subst hd
      have hne : ¬ ("unknown" = k) := fun h => hk h.symm
      simp [hne]
    · by_cases hkd : d = k
      · subst hkd
        simp [hd, setKey]
      · have hkd' : ¬ k = d := fun h => hkd h.symm
        simp [hd, hkd, setKey, hkd']

theorem sortBuckets_apply (b : String → List (candidate F)) (k : String) :
    sortBuckets b k =
      if k = "easy" ∨ k = "medium" ∨ k = "hard" then sortStable (b k) else b k := by
  unfold sortBuckets
  simp only [List.foldl_cons, List.foldl_nil, setKey]
  by_cases h1 : k = "easy"
  · subst h1; simp
  · by_cases h2 : k = "medium"
    · subst h2; simp
    · by_cases h3 : k = "hard"
      · subst h3; simp
      · simp [h1, h2, h3]

theorem sortStable_perm (l : List (candidate F)) : (sortStable l).Perm l :=
  List.perm_insertionSort _ l

theorem sortedBucket_perm (rt : Runtime F) (strategy : String) (now : Time)
    (all : List (ProblemWithState F)) (k : String)
    (hk : k = "easy" ∨ k = "medium" ∨ k = "hard") :
    (sortedBucket rt strategy now all k).Perm
      ((all.filter (fun p => decide (normalizeDifficulty rt.lowerRune p.Difficulty = k))).map
        (mkCandidate rt strategy now)) := by
  unfold sortedBucket
  rw [sortBuckets_apply, if_pos hk, fillBuckets_apply]
  · exact sortStable_perm _
  · rcases hk with h | h | h <;> rw [h] <;> decide

theorem sortedBucket_length (rt : Runtime F) (strategy : String) (now : Time)
    (all : List (ProblemWithState F)) (k : String)
    (hk : k = "easy" ∨ k = "medium" ∨ k = "hard") :
    (sortedBucket rt strategy now all k).length =
      all.countP (fun p => decide (normalizeDifficulty rt.lowerRune p.Difficulty = k)) := by
  rw [(sortedBucket_perm rt strategy now all k hk).length_eq, List.length_map, List.countP_eq_length_filter]

theorem sortedBucket_difficulty (rt : Runtime F) (strategy : String) (now : Time)
    (all : List (ProblemWithState F)) (k : String)
    (hk : k = "easy" ∨ k = "medium" ∨ k = "hard") (c : candidate F)
    (hc : c ∈ sortedBucket rt strategy now all k) :
    normalizeDifficulty rt.lowerRune c.problem.Difficulty = k := by
  have := (sortedBucket_perm rt strategy now all k hk).mem_iff.mp hc
  rw [List.mem_map] at this
  obtain ⟨p, hp, rfl⟩ := this
  rw [List.mem_filter] at hp
  simpa [mkCandidate] using hp.2

end SelectorFacts

/-! ## The selector: the picking loop -/

section PickFacts

variable {F : Type} [LinearOrderedField F]

theorem findNewTopicIdx_bound (rt : Runtime F) (n : Nat) (used : String → Int)
    (l : List (candidate F)) (i j : Nat) (h : findNewTopicIdx rt n used l i = some j) :
    i ≤ j ∧ j < i + l.length := by
  induction l generalizing i with
  | nil => simp [findNewTopicIdx] at h
  | cons c cs ih =>
    unfold findNewTopicIdx at h
    split_ifs at h with hc
    · cases h
      simp
    · have := ih (i + 1) h
      simp only [List.length_cons]
      omega

/-- The index `bestIdx` is within the bounds of a non-empty bucket. -/
theorem bestIdx_lt (rt : Runtime F) (strategy : String) (n : Nat) (used : String → Int)
    (l : List (candidate F)) (hl : 0 < l.length) : bestIdx rt strategy n used l < l.length := by
  unfold bestIdx
  split_ifs with hs
  · cases hf : findNewTopicIdx rt n used l 0 with
    | none => simpa using hl
    | some j =>
      have := findNewTopicIdx_bound rt n used l 0 j hf
      simp only [Option.getD_some]
      omega
  · exact hl

theorem perm_take_drop_succ {α : Type} (l : List α) (i : Nat) (h : i < l.length) :
    (l[i] :: (l.take i ++ l.drop (i + 1))).Perm l := by
  have h1 : l = l.take i ++ l[i] :: l.drop (i + 1) := by
    rw [← List.drop_eq_getElem_cons h, List.take_append_drop]
  exact (List.perm_middle.symm).trans (h1 ▸ List.Perm.refl _)

/-- One iteration of `pickFrom` on a non-empty bucket does not panic: it moves the
candidate at `bestIdx` from the bucket to the end of `chosen`. -/
theorem pickStep_ok (rt : Runtime F) (strategy bucket : String) (st : PickState F)
    (hl : 0 < (st.buckets bucket).length) :
    ∃ (c : candidate F) (st' : PickState F),
      pickStep rt strategy bucket st = .ok st' ∧
      st'.chosen = st.chosen ++ [c.problem] ∧
      (c :: st'.buckets bucket).Perm (st.buckets bucket) ∧
      st'.want bucket = st.want bucket - 1 ∧
      (∀ k, k ≠ bucket → st'.buckets k = st.buckets k) ∧
      (∀ k, k ≠ bucket → st'.want k = st.want k) := by
  have hi := bestIdx_lt rt strategy st.chosen.length st.usedTopics (st.buckets bucket) hl
  refine ⟨(st.buckets bucket)[bestIdx rt strategy st.chosen.length st.usedTopics (st.buckets bucket)],
    { buckets := setKey st.buckets bucket
        ((st.buckets bucket).take (bestIdx rt strategy st.chosen.length st.usedTopics (st.buckets bucket)) ++
          (st.buckets bucket).drop (bestIdx rt strategy st.chosen.length st.usedTopics (st.buckets bucket) + 1))
      want := setKey st.want bucket (st.want bucket - 1)
      usedTopics := markUsed rt st.chosen.length st.usedTopics
        (topicSet rt.lowerRune
          (st.buckets bucket)[bestIdx rt strategy st.chosen.length st.usedTopics (st.buckets bucket)].problem.Topics)
      chosen := st.chosen ++
        [(st.buckets bucket)[bestIdx rt strategy st.chosen.length st.usedTopics (st.buckets bucket)].problem] },
    ?_, rfl, ?_, ?_, ?_, ?_⟩
  · unfold pickStep
    simp only [List.getElem?_eq_getElem hi]
  · simp only [setKey_same]
    exact perm_take_drop_succ _ _ hi
  · simp only [setKey_same]
  · intro k hk
    simp only [setKey_other _ _ hk]
  · intro k hk
    simp only [setKey_other _ _ hk]

/-- The loop of `pickFrom` with enough fuel: it ends without a fault, having moved
`min(want, len(bucket))` candidates of the bucket to the end of `chosen`, and leaves
the other buckets and quotas untouched. -/
theorem pickLoop_spec (rt : Runtime F) (strategy bucket : String) (fuel : Nat)
    (st : PickState F) (hfuel : (st.buckets bucket).length ≤ fuel) :
    ∃ (picked : List (candidate F)) (st' : PickState F),
      pickLoop rt strategy bucket fuel st = .ok st' ∧
      st'.chosen = st.chosen ++ picked.map (fun c => c.problem) ∧
      (picked ++ st'.buckets bucket).Perm (st.buckets bucket) ∧
      picked.length = min (st.want bucket).toNat (st.buckets bucket).length ∧
      (∀ k, k ≠ bucket → st'.buckets k = st.buckets k) ∧
      (∀ k, k ≠ bucket → st'.want k = st.want k) := by
  induction fuel generalizing st with
  | zero =>
    have hlen : (st.buckets bucket).length = 0 := by omega
    refine ⟨[], st, ?_, by simp, by simp, by simp [hlen], fun _ _ => rfl, fun _ _ => rfl⟩
    unfold pickLoop
    rw [if_neg]
    omega
  | succ fuel ih =>
    by_cases hc : st.want bucket > 0 ∧ (st.buckets bucket).length > 0
    · obtain ⟨c, st₁, hstep, hch, hperm, hwant, hb, hw⟩ := pickStep_ok rt strategy bucket st hc.2
      have hlen₁ : (st₁.buckets bucket).length + 1 = (st.buckets bucket).length := by
        simpa using hperm.length_eq
      obtain ⟨picked, st', hloop, hch', hperm', hlen', hb', hw'⟩ := ih st₁ (by omega)
      refine ⟨c :: picked, st', ?_, ?_, ?_, ?_, ?_, ?_⟩
      · rw [pickLoop, if_pos hc, hstep]
        exact hloop
      · rw [hch', hch]
        simp
      · exact (List.Perm.cons c hperm').trans hperm
      · rw [List.length_cons, hlen', hwant]
        omega
      · intro k hk
        rw [hb' k hk, hb k hk]
      · intro k hk
        rw [hw' k hk, hw k hk]
    · refine ⟨[], st, ?_, by simp, by simp, ?_, fun _ _ => rfl, fun _ _ => rfl⟩
      · rw [pickLoop, if_neg hc]
      · simp only [List.length_nil]
        omega

end PickFacts

/-! ## The selector: shape of the result -/

section ShapeFacts

variable {F : Type} [LinearOrderedField F]

theorem pickFrom_spec (rt : Runtime F) (strategy bucket : String) (st : PickState F) :
    ∃ (picked : List (candidate F)) (st' : PickState F),
      pickFrom rt strategy bucket st = .ok st' ∧
      st'.chosen = st.chosen ++ picked.map (fun c => c.problem) ∧
      (picked ++ st'.buckets bucket).Perm (st.buckets bucket) ∧
      picked.length = min (st.want bucket).toNat (st.buckets bucket).length ∧
      (∀ k, k ≠ bucket → st'.buckets k = st.buckets k) ∧
      (∀ k, k ≠ bucket → st'.want k = st.want k) :=
  pickLoop_spec rt strategy bucket _ st (le_refl _)

/-- A negative capacity is out of range, whatever the size of the elements. -/
theorem makeslicePanics_neg (size cap : Int) (h : cap < 0) : makeslicePanics size cap = true := by
  unfold makeslicePanics
  simp only [Bool.or_eq_true, decide_eq_true_eq]
  exact Or.inr h

theorem makeslice_arith (cap : Int) (hhi : cap ≤ 9223372036854775807) :
    (¬ (18446744073709551616 ≤ 104 * (cap % 18446744073709551616)) ∧
      ¬ (281474976710656 < (104 * (cap % 18446744073709551616)) % 18446744073709551616) ∧
      ¬ (cap < 0)) ↔ 0 ≤ cap ∧ cap ≤ 2706490160679 := by
  constructor
  · rintro ⟨h1, h2, h3⟩
    have h0 : 0 ≤ cap := by omega
    have e1 : cap % 18446744073709551616 = cap := Int.emod_eq_of_lt h0 (by omega)
    rw [e1] at h1 h2
    have e2 : (104 * cap) % 18446744073709551616 = 104 * cap :=
      Int.emod_eq_of_lt (by omega) (by omega)
    rw [e2] at h2
    omega
  · rintro ⟨h0, h1⟩
    have e1 : cap % 18446744073709551616 = cap := Int.emod_eq_of_lt h0 (by omega)
    have e2 : (104 * cap) % 18446744073709551616 = 104 * cap :=
      Int.emod_eq_of_lt (by omega) (by omega)
    rw [e1, e2]
    omega

/-- The capacities that `makeslice` accepts for a slice of `problems.Problem`, among the
values of a Go `int`: those from 0 to 2706490160679, the greatest `n` with
`104 * n ≤ 2^48`. -/
theorem makeslicePanics_sizeofProblem (cap : Int) (hhi : cap ≤ 9223372036854775807) :
    makeslicePanics sizeofProblem cap = false ↔ 0 ≤ cap ∧ cap ≤ 2706490160679 := by
  rw [← makeslice_arith cap hhi]
  unfold makeslicePanics sizeofProblem maxAlloc
  simp only [Bool.or_eq_false_iff, decide_eq_false_iff_not]
  norm_num
  exact and_assoc

theorem subperm_of_perm_append {α : Type} {picked rest l : List α}
    (h : (picked ++ rest).Perm l) : List.Subperm picked l :=
  (List.sublist_append_left picked rest).subperm.trans h.subperm

/-- A capacity that `makeslice` finds out of range makes `make` panic. -/
theorem pickContestProblems_cap_panic (rt : Runtime F) (now : Time) (params : GenerateParams)
    (all : List (ProblemWithState F))
    (hcap : makeslicePanics sizeofProblem params.totalCount = true) :
    pickContestProblems rt now params all = .error .makesliceCapOutOfRange := by
  unfold pickContestProblems
  simp only [hcap, if_true]

/-- A negative capacity makes `make` panic. -/
theorem pickContestProblems_neg_cap (rt : Runtime F) (now : Time) (params : GenerateParams)
    (all : List (ProblemWithState F)) (hcap : params.totalCount < 0) :
    pickContestProblems rt now params all = .error .makesliceCapOutOfRange :=
  pickContestProblems_cap_panic rt now params all (makeslicePanics_neg _ _ hcap)

/-- With a capacity that `makeslice` accepts the selector returns a list: the
candidates picked from the sorted easy bucket, then those from the medium bucket, then
those from the hard bucket, `min(want, len(bucket))` of each. -/
theorem pickContestProblems_shape (rt : Runtime F) (now : Time) (params : GenerateParams)
    (all : List (ProblemWithState F))
    (hcap : makeslicePanics sizeofProblem params.totalCount = false) :
    ∃ pe pm ph : List (candidate F),
      pickContestProblems rt now params all = .ok ((pe ++ pm ++ ph).map (fun c => c.problem)) ∧
      List.Subperm pe
        (sortedBucket rt (normalizeStrategy rt.lowerRune params.Strategy) now all "easy") ∧
      List.Subperm pm
        (sortedBucket rt (normalizeStrategy rt.lowerRune params.Strategy) now all "medium") ∧
      List.Subperm ph
        (sortedBucket rt (normalizeStrategy rt.lowerRune params.Strategy) now all "hard") ∧
      pe.length = min params.DifficultyMix.Easy.toNat
        (sortedBucket rt (normalizeStrategy rt.lowerRune params.Strategy) now all "easy").length ∧
      pm.length = min params.DifficultyMix.Medium.toNat
        (sortedBucket rt (normalizeStrategy rt.lowerRune params.Strategy) now all "medium").length ∧
      ph.length = min params.DifficultyMix.Hard.toNat
        (sortedBucket rt (normalizeStrategy rt.lowerRune params.Strategy) now all "hard").length := by
  obtain ⟨pe, st₁, h₁, hc₁, hp₁, hl₁, hb₁, hw₁⟩ :=
    pickFrom_spec rt (normalizeStrategy rt.lowerRune params.Strategy) "easy"
      { buckets := sortBuckets
          (fillBuckets rt (normalizeStrategy rt.lowerRune params.Strategy) now all)
        want := wantOf params, usedTopics := fun _ => 0, chosen := [] }
  obtain ⟨pm, st₂, h₂, hc₂, hp₂, hl₂, hb₂, hw₂⟩ :=
    pickFrom_spec rt (normalizeStrategy rt.lowerRune params.Strategy) "medium" st₁
  obtain ⟨ph, st₃, h₃, hc₃, hp₃, hl₃, hb₃, hw₃⟩ :=
    pickFrom_spec rt (normalizeStrategy rt.lowerRune params.Strategy) "hard" st₂
  have hme : ("medium" : String) ≠ "easy" := by decide
  have hhe : ("hard" : String) ≠ "easy" := by decide
  have hhm : ("hard" : String) ≠ "medium" := by decide
  refine ⟨pe, pm, ph, ?_, ?_, ?_, ?_, ?_, ?_, ?_⟩
  · unfold pickContestProblems
    simp only [hcap, Bool.false_eq_true, if_false, h₁, h₂, h₃]
    rw [hc₃, hc₂, hc₁]
    simp
  · exact subperm_of_perm_append hp₁
  · have := subperm_of_perm_append hp₂
    rw [hb₁ _ hme] at this
    exact this
  · have := subperm_of_perm_append hp₃
    rw [hb₂ _ hhm, hb₁ _ hhe] at this
    exact this
  · simpa [wantOf, sortedBucket] using hl₁
  · rw [hl₂, hw₁ _ hme, hb₁ _ hme]
    simp [wantOf, sortedBucket]
  · rw [hl₃, hw₂ _ hhm, hw₁ _ hhe, hb₂ _ hhm, hb₁ _ hhe]
    simp [wantOf, sortedBucket]

theorem pickContestProblems_cap_of_ok (rt : Runtime F) (now : Time) (params : GenerateParams)
    (all : List (ProblemWithState F)) (chosen : List Problem)
    (h : pickContestProblems rt now params all = .ok chosen) :
    makeslicePanics sizeofProblem params.totalCount = false := by
  cases hp : makeslicePanics sizeofProblem params.totalCount with
  | false => rfl
  | true =>
    rw [pickContestProblems_cap_panic rt now params all hp] at h
    cases h

theorem map_eq_replicate_of_forall {α β : Type} (f : α → β) (l : List α) (b : β)
    (h : ∀ a ∈ l, f a = b) : l.map f = List.replicate l.length b := by
  rw [List.eq_replicate_iff]
  refine ⟨by simp, ?_⟩
  intro x hx
  rw [List.mem_map] at hx
  obtain ⟨a, ha, rfl⟩ := hx
  exact h a ha

/-- The normalized difficulties of the returned list: a block of `easy`, then a block
of `medium`, then a block of `hard`, each as long as `min(want, pool count)`. -/
theorem pickContestProblems_difficulties (rt : Runtime F) (now : Time) (params : GenerateParams)
    (all : List (ProblemWithState F)) (chosen : List Problem)
    (h : pickContestProblems rt now params all = .ok chosen) :
    chosen.map (fun p => normalizeDifficulty rt.lowerRune p.Difficulty) =
      List.replicate (min params.DifficultyMix.Easy.toNat
          (countDifficulty rt.lowerRune "easy" (all.map (fun p => p.toProblem)))) "easy" ++
      List.replicate (min params.DifficultyMix.Medium.toNat
          (countDifficulty rt.lowerRune "medium" (all.map (fun p => p.toProblem)))) "medium" ++
      List.replicate (min params.DifficultyMix.Hard.toNat
          (countDifficulty rt.lowerRune "hard" (all.map (fun p => p.toProblem)))) "hard" := by
  obtain ⟨pe, pm, ph, hok, hse, hsm, hsh, hle, hlm, hlh⟩ :=
    pickContestProblems_shape rt now params all (pickContestProblems_cap_of_ok rt now params all chosen h)
  rw [hok] at h
  cases h
  have hcount : ∀ k, countDifficulty rt.lowerRune k (all.map (fun p => p.toProblem)) =
      all.countP (fun p => decide (normalizeDifficulty rt.lowerRune p.Difficulty = k)) := by
    intro k
    unfold countDifficulty
    rw [List.countP_map]
    rfl
  rw [sortedBucket_length _ _ _ _ _ (Or.inl rfl), ← hcount] at hle
  rw [sortedBucket_length _ _ _ _ _ (Or.inr (Or.inl rfl)), ← hcount] at hlm
  rw [sortedBucket_length _ _ _ _ _ (Or.inr (Or.inr rfl)), ← hcount] at hlh
  rw [← hle, ← hlm, ← hlh, List.map_map, List.map_append, List.map_append]
  congr 1
  · congr 1
    · exact map_eq_replicate_of_forall _ _ _ (fun c hc =>
        sortedBucket_difficulty rt _ now all "easy" (Or.inl rfl) c (hse.subset hc))
    · exact map_eq_replicate_of_forall _ _ _ (fun c hc =>
        sortedBucket_difficulty rt _ now all "medium" (Or.inr (Or.inl rfl)) c (hsm.subset hc))
  · exact map_eq_replicate_of_forall _ _ _ (fun c hc =>
      sortedBucket_difficulty rt _ now all "hard" (Or.inr (Or.inr rfl)) c (hsh.subset hc))

end ShapeFacts

/-! ## The selector: quota, order and difficulties of the result -/

section ResultFacts

variable {F : Type} [LinearOrderedField F]

theorem countDifficulty_eq_count (lr : Char → Char) (d : String) (ps : List Problem) :
    countDifficulty lr d ps = (ps.map (fun p => normalizeDifficulty lr p.Difficulty)).count d := by
  unfold countDifficulty List.count
  rw [List.countP_map]
  apply List.countP_congr
  intro p _
  simp

/-- Claim C1. When the selector returns a list for a mix of non-negative counts, the
number of returned problems of normalized difficulty `d` is
`min(requested count for d, number of pool problems of difficulty d)` for each of
easy, medium and hard; hence the list has `easy + medium + hard` elements when
every bucket holds at least its requested count, and an underfull bucket is not
compensated. -/
theorem pickContestProblems_quota (rt : Runtime F) (now : Time) (params : GenerateParams)
    (all : List (ProblemWithState F)) (chosen : List Problem)
    (hE : 0 ≤ params.DifficultyMix.Easy) (hM : 0 ≤ params.DifficultyMix.Medium)
    (hH : 0 ≤ params.DifficultyMix.Hard)
    (h : pickContestProblems rt now params all = .ok chosen) :
    ((countDifficulty rt.lowerRune "easy" chosen : Int) =
        min params.DifficultyMix.Easy
          (countDifficulty rt.lowerRune "easy" (all.map (fun p => p.toProblem)) : Int)) ∧
    ((countDifficulty rt.lowerRune "medium" chosen : Int) =
        min params.DifficultyMix.Medium
          (countDifficulty rt.lowerRune "medium" (all.map (fun p => p.toProblem)) : Int)) ∧
    ((countDifficulty rt.lowerRune "hard" chosen : Int) =
        min params.DifficultyMix.Hard
          (countDifficulty rt.lowerRune "hard" (all.map (fun p => p.toProblem)) : Int)) ∧
    (params.DifficultyMix.Easy ≤
          (countDifficulty rt.lowerRune "easy" (all.map (fun p => p.toProblem)) : Int) →
      params.DifficultyMix.Medium ≤
          (countDifficulty rt.lowerRune "medium" (all.map (fun p => p.toProblem)) : Int) →
      params.DifficultyMix.Hard ≤
          (countDifficulty rt.lowerRune "hard" (all.map (fun p => p.toProblem)) : Int) →
      (chosen.length : Int) =
        params.DifficultyMix.Easy + params.DifficultyMix.Medium + params.DifficultyMix.Hard) := by
  have hd := pickContestProblems_difficulties rt now params all chosen h
  have hlen : chosen.length =
      (chosen.map (fun p => normalizeDifficulty rt.lowerRune p.Difficulty)).length := by simp
  rw [countDifficulty_eq_count _ _ chosen, countDifficulty_eq_count _ _ chosen,
    countDifficulty_eq_count _ _ chosen, hlen, hd]
  generalize countDifficulty rt.lowerRune "easy" (all.map (fun p => p.toProblem)) = ce
  generalize countDifficulty rt.lowerRune "medium" (all.map (fun p => p.toProblem)) = cm
  generalize countDifficulty rt.lowerRune "hard" (all.map (fun p => p.toProblem)) = ch
  simp only [List.count_append, List.count_replicate, List.length_append, List.length_replicate]
  have e1 : (("medium" : String) == "easy") = false := by decide
  have e2 : (("hard" : String) == "easy") = false := by decide
  have e3 : (("easy" : String) == "medium") = false := by decide
  have e4 : (("hard" : String) == "medium") = false := by decide
  have e5 : (("easy" : String) == "hard") = false := by decide
  have e6 : (("medium" : String) == "hard") = false := by decide
  simp only [e1, e2, e3, e4, e5, e6, beq_self_eq_true, if_true, Bool.false_eq_true, if_false,
    Nat.add_zero, Nat.zero_add]
  refine ⟨by omega, by omega, by omega, ?_⟩
  intro h1 h2 h3
  omega

theorem pickContestProblems_quota_witness :
    ((countDifficulty sampleRuntime.lowerRune "easy" sampleChosen : Int) =
        min (sampleParams "balanced").DifficultyMix.Easy
          (countDifficulty sampleRuntime.lowerRune "easy"
            (samplePool.map (fun p => p.toProblem)) : Int)) ∧
    ((countDifficulty sampleRuntime.lowerRune "medium" sampleChosen : Int) =
        min (sampleParams "balanced").DifficultyMix.Medium
          (countDifficulty sampleRuntime.lowerRune "medium"
            (samplePool.map (fun p => p.toProblem)) : Int)) ∧
    ((countDifficulty sampleRuntime.lowerRune "hard" sampleChosen : Int) =
        min (sampleParams "balanced").DifficultyMix.Hard
          (countDifficulty sampleRuntime.lowerRune "hard"
            (samplePool.map (fun p => p.toProblem)) : Int)) ∧
    ((sampleParams "balanced").DifficultyMix.Easy ≤
          (countDifficulty sampleRuntime.lowerRune "easy"
            (samplePool.map (fun p => p.toProblem)) : Int) →
      (sampleParams "balanced").DifficultyMix.Medium ≤
          (countDifficulty sampleRuntime.lowerRune "medium"
            (samplePool.map (fun p => p.toProblem)) : Int) →
      (sampleParams "balanced").DifficultyMix.Hard ≤
          (countDifficulty sampleRuntime.lowerRune "hard"
            (samplePool.map (fun p => p.toProblem)) : Int) →
      (sampleChosen.length : Int) =
        (sampleParams "balanced").DifficultyMix.Easy + (sampleParams "balanced").DifficultyMix.Medium
          + (sampleParams "balanced").DifficultyMix.Hard) :=
  pickContestProblems_quota sampleRuntime 0 (sampleParams "balanced") samplePool sampleChosen
    (by decide) (by decide) (by decide) (by decide!)

/-- Claim C2. The returned list is ordered by difficulty bucket: no problem of a later
bucket (easy, then medium, then hard) comes before one of an earlier bucket.  For the
mix {2,2,1} and a pool with at least 2 easy, 2 medium and 1 hard problems (such as
3 easy / 3 medium / 2 hard), the list has exactly five problems, of difficulties
easy, easy, medium, medium, hard in this order. -/
theorem pickContestProblems_bucket_order (rt : Runtime F) (now : Time) (params : GenerateParams)
    (all : List (ProblemWithState F)) (chosen : List Problem)
    (h : pickContestProblems rt now params all = .ok chosen) :
    chosen.Pairwise (fun p q =>
      bucketRank (normalizeDifficulty rt.lowerRune p.Difficulty) ≤
        bucketRank (normalizeDifficulty rt.lowerRune q.Difficulty)) ∧
    (params.DifficultyMix = { Easy := 2, Medium := 2, Hard := 1 } →
      2 ≤ countDifficulty rt.lowerRune "easy" (all.map (fun p => p.toProblem)) →
      2 ≤ countDifficulty rt.lowerRune "medium" (all.map (fun p => p.toProblem)) →
      1 ≤ countDifficulty rt.lowerRune "hard" (all.map (fun p => p.toProblem)) →
      chosen.map (fun p => normalizeDifficulty rt.lowerRune p.Difficulty) =
        ["easy", "easy", "medium", "medium", "hard"]) := by
  have hd := pickContestProblems_difficulties rt now params all chosen h
  constructor
  · have hp : (chosen.map (fun p => normalizeDifficulty rt.lowerRune p.Difficulty)).Pairwise
        (fun a b => bucketRank a ≤ bucketRank b) := by
      rw [hd]
      simp only [List.pairwise_append, List.pairwise_replicate, List.mem_append,
        List.mem_replicate]
      refine ⟨⟨?_, ?_, ?_⟩, ?_, ?_⟩
      · exact Or.inr (le_refl _)
      · exact Or.inr (le_refl _)
      · rintro a ⟨_, rfl⟩ b ⟨_, rfl⟩
        decide
      · exact Or.inr (le_refl _)
      · rintro a (⟨_, rfl⟩ | ⟨_, rfl⟩) b ⟨_, rfl⟩ <;> decide
    rw [List.pairwise_map] at hp
    exact hp
  · intro hmix h1 h2 h3
    rw [hd, hmix]
    have e : min (2 : Int).toNat
        (countDifficulty rt.lowerRune "easy" (all.map (fun p => p.toProblem))) = 2 := by
      omega
    have m : min (2 : Int).toNat
        (countDifficulty rt.lowerRune "medium" (all.map (fun p => p.toProblem))) = 2 := by
      omega
    have hh : min (1 : Int).toNat
        (countDifficulty rt.lowerRune "hard" (all.map (fun p => p.toProblem))) = 1 := by
      omega
    simp only [e, m, hh]
    rfl

theorem pickContestProblems_bucket_order_witness :
    sampleChosen.Pairwise (fun p q =>
      bucketRank (normalizeDifficulty sampleRuntime.lowerRune p.Difficulty) ≤
        bucketRank (normalizeDifficulty sampleRuntime.lowerRune q.Difficulty)) ∧
    ((sampleParams "balanced").DifficultyMix = { Easy := 2, Medium := 2, Hard := 1 } →
      2 ≤ countDifficulty sampleRuntime.lowerRune "easy" (samplePool.map (fun p => p.toProblem)) →
      2 ≤ countDifficulty sampleRuntime.lowerRune "medium" (samplePool.map (fun p => p.toProblem)) →
      1 ≤ countDifficulty sampleRuntime.lowerRune "hard" (samplePool.map (fun p => p.toProblem)) →
      sampleChosen.map (fun p => normalizeDifficulty sampleRuntime.lowerRune p.Difficulty) =
        ["easy", "easy", "medium", "medium", "hard"]) :=
  pickContestProblems_bucket_order sampleRuntime 0 (sampleParams "balanced") samplePool
    sampleChosen (by decide!)

/-- Claim C3. Every returned problem has a difficulty that, trimmed and lowered, is
exactly easy, medium or hard; so for an empty pool, and for a pool in which every
problem normalizes to unknown, the returned list is empty, whatever the mix and the
strategy. -/
theorem pickContestProblems_bucketable (rt : Runtime F) (now : Time) (params : GenerateParams)
    (all : List (ProblemWithState F)) (chosen : List Problem)
    (h : pickContestProblems rt now params all = .ok chosen) :
    (∀ p ∈ chosen,
      trimSpace (toLower rt.lowerRune p.Difficulty) = "easy" ∨
      trimSpace (toLower rt.lowerRune p.Difficulty) = "medium" ∨
      trimSpace (toLower rt.lowerRune p.Difficulty) = "hard") ∧
    (all = [] → chosen = []) ∧
    ((∀ p ∈ all, normalizeDifficulty rt.lowerRune p.Difficulty = "unknown") → chosen = []) := by
  have hd := pickContestProblems_difficulties rt now params all chosen h
  have hunk : (∀ p ∈ all, normalizeDifficulty rt.lowerRune p.Difficulty = "unknown") →
      chosen = [] := by
    intro hall
    have hz : ∀ k, k ≠ "unknown" →
        countDifficulty rt.lowerRune k (all.map (fun p => p.toProblem)) = 0 := by
      intro k hk
      unfold countDifficulty
      rw [List.countP_eq_zero]
      intro p hp
      rw [List.mem_map] at hp
      obtain ⟨q, hq, rfl⟩ := hp
      have := hall q hq
      simp only [decide_eq_true_eq]
      intro hk'
      exact hk (hk'.symm.trans this)
    rw [hz "easy" (by decide), hz "medium" (by decide), hz "hard" (by decide)] at hd
    simpa using hd
  refine ⟨?_, ?_, hunk⟩
  · intro p hp
    have hmem : normalizeDifficulty rt.lowerRune p.Difficulty ∈
        chosen.map (fun p => normalizeDifficulty rt.lowerRune p.Difficulty) :=
      List.mem_map_of_mem _ hp
    rw [hd] at hmem
    simp only [List.mem_append, List.mem_replicate] at hmem
    rcases hmem with (⟨_, hk⟩ | ⟨_, hk⟩) | ⟨_, hk⟩
    · exact Or.inl ((normalizeDifficulty_eq_iff _ _ _ (Or.inl rfl)).mp hk)
    · exact Or.inr (Or.inl ((normalizeDifficulty_eq_iff _ _ _ (Or.inr (Or.inl rfl))).mp hk))
    · exact Or.inr (Or.inr ((normalizeDifficulty_eq_iff _ _ _ (Or.inr (Or.inr rfl))).mp hk))
  · intro hnil
    apply hunk
    rw [hnil]
    intro p hp
    cases hp

theorem pickContestProblems_bucketable_witness :
    (∀ p ∈ sampleChosen,
      trimSpace (toLower sampleRuntime.lowerRune p.Difficulty) = "easy" ∨
      trimSpace (toLower sampleRuntime.lowerRune p.Difficulty) = "medium" ∨
      trimSpace (toLower sampleRuntime.lowerRune p.Difficulty) = "hard") ∧
    (samplePool = [] → sampleChosen = []) ∧
    ((∀ p ∈ samplePool, normalizeDifficulty sampleRuntime.lowerRune p.Difficulty = "unknown") →
      sampleChosen = []) :=
  pickContestProblems_bucketable sampleRuntime 0 (sampleParams "balanced") samplePool
    sampleChosen (by decide!)

end ResultFacts

/-! ## The selector: independence of the iteration order of maps -/

section OrderFacts

variable {F : Type} [LinearOrderedField F]

theorem foldl_countNew (used : String → Int) (l : List String) (n : Int) :
    l.foldl (fun newTopics t => if used t = 0 then newTopics + 1 else newTopics) n =
      n + (l.countP (fun t => decide (used t = 0)) : Nat) := by
  induction l generalizing n with
  | nil => simp
  | cons t ts ih =>
    rw [List.foldl_cons, ih, List.countP_cons]
    by_cases h : used t = 0
    · simp only [h, if_true, decide_True]
      push_cast
      ring
    · simp only [h, if_false, decide_False, Bool.false_eq_true]
      simp

theorem foldl_markUsed (l : List String) (used : String → Int) (k : String) :
    (l.foldl (fun used t => setKey used t (used t + 1)) used) k = used k + (l.count k : Nat) := by
  induction l generalizing used with
  | nil => simp
  | cons t ts ih =>
    rw [List.foldl_cons, ih, List.count_cons]
    by_cases h : k = t
    · subst h
      simp only [setKey_same, beq_self_eq_true, if_true]
      push_cast
      ring
    · have h' : (t == k) = false := by
        simp only [beq_eq_false_iff_ne, ne_eq]
        exact fun e => h e.symm
      simp only [setKey_other _ _ h, h', Bool.false_eq_true, if_false, Nat.add_zero]

theorem countNewTopics_inOrder (rt : Runtime F) (h : ∀ n j ks, (rt.rangeOrder n j ks).Perm ks)
    (n j : Nat) (used : String → Int) (ts : List String) :
    countNewTopics rt n j used ts = countNewTopics rt.inOrder n j used ts := by
  unfold countNewTopics
  rw [foldl_countNew, foldl_countNew, (h n j ts).countP_eq]
  rfl

theorem markUsed_inOrder (rt : Runtime F) (h : ∀ n j ks, (rt.rangeOrder n j ks).Perm ks)
    (n : Nat) (used : String → Int) (ts : List String) :
    markUsed rt n used ts = markUsed rt.inOrder n used ts := by
  funext k
  unfold markUsed
  rw [foldl_markUsed, foldl_markUsed, (h n 0 ts).count_eq]
  rfl

theorem findNewTopicIdx_inOrder (rt : Runtime F) (h : ∀ n j ks, (rt.rangeOrder n j ks).Perm ks)
    (n : Nat) (used : String → Int) (l : List (candidate F)) (i : Nat) :
    findNewTopicIdx rt n used l i = findNewTopicIdx rt.inOrder n used l i := by
  induction l generalizing i with
  | nil => rfl
  | cons c cs ih =>
    unfold findNewTopicIdx
    rw [countNewTopics_inOrder rt h, ih]
    rfl

theorem pickStep_inOrder (rt : Runtime F) (h : ∀ n j ks, (rt.rangeOrder n j ks).Perm ks)
    (strategy bucket : String) (st : PickState F) :
    pickStep rt strategy bucket st = pickStep rt.inOrder strategy bucket st := by
  have hb : ∀ l, bestIdx rt strategy st.chosen.length st.usedTopics l =
      bestIdx rt.inOrder strategy st.chosen.length st.usedTopics l := by
    intro l
    unfold bestIdx
    rw [findNewTopicIdx_inOrder rt h]
  unfold pickStep
  simp only [hb, markUsed_inOrder rt h]
  rfl

theorem pickLoop_inOrder (rt : Runtime F) (h : ∀ n j ks, (rt.rangeOrder n j ks).Perm ks)
    (strategy bucket : String) (fuel : Nat) (st : PickState F) :
    pickLoop rt strategy bucket fuel st = pickLoop rt.inOrder strategy bucket fuel st := by
  induction fuel generalizing st with
  | zero => rfl
  | succ fuel ih =>
    unfold pickLoop
    rw [pickStep_inOrder rt h]
    split_ifs
    · cases pickStep rt.inOrder strategy bucket st with
      | error e => rfl
      | ok st' => exact ih st'
    · rfl

theorem pickContestProblems_inOrder (rt : Runtime F) (h : ∀ n j ks, (rt.rangeOrder n j ks).Perm ks)
    (now : Time) (params : GenerateParams) (all : List (ProblemWithState F)) :
    pickContestProblems rt now params all = pickContestProblems rt.inOrder now params all := by
  have hf : ∀ strategy bucket st,
      pickFrom rt strategy bucket st = pickFrom rt.inOrder strategy bucket st := by
    intro strategy bucket st
    unfold pickFrom
    exact pickLoop_inOrder rt h _ _ _ _
  unfold pickContestProblems
  simp only [hf]
  rfl

/-- Claim C7. The selector is deterministic: with the same instant, parameters and pool
it gives the same result, whatever the order in which each execution of a `range`
statement visits the keys of a topic set (any two runtimes that differ only in these
orders agree). -/
theorem pickContestProblems_deterministic (rt₁ rt₂ : Runtime F) (now : Time)
    (params : GenerateParams) (all : List (ProblemWithState F))
    (hlower : rt₁.lowerRune = rt₂.lowerRune) (hlog : rt₁.log2 = rt₂.log2)
    (h₁ : ∀ n j ks, (rt₁.rangeOrder n j ks).Perm ks)
    (h₂ : ∀ n j ks, (rt₂.rangeOrder n j ks).Perm ks) :
    pickContestProblems rt₁ now params all = pickContestProblems rt₂ now params all := by
  rw [pickContestProblems_inOrder rt₁ h₁, pickContestProblems_inOrder rt₂ h₂]
  have : rt₁.inOrder = rt₂.inOrder := by
    cases rt₁
    cases rt₂
    simp only [Runtime.inOrder] at *
    simp only [hlower, hlog]
  rw [this]

theorem pickContestProblems_deterministic_witness :
    pickContestProblems sampleRuntime 0 (sampleParams "balanced") samplePool =
      pickContestProblems reverseRuntime 0 (sampleParams "balanced") samplePool :=
  pickContestProblems_deterministic sampleRuntime reverseRuntime 0 (sampleParams "balanced")
    samplePool rfl rfl (fun _ _ ks => List.Perm.refl ks)
    (fun n j ks => by
      show (if (n + j) % 2 = 0 then ks.reverse else ks).Perm ks
      split_ifs
      · exact List.reverse_perm ks
      · exact List.Perm.refl ks)

end OrderFacts

/-! ## The selector: strategies without the topic scan -/

section FirstFacts

variable {F : Type} [LinearOrderedField F]

/-- Without the `balanced` scan the loop of `pickFrom` takes the candidates of the
bucket from the front. -/
theorem pickLoop_first (rt : Runtime F) (strategy bucket : String) (hs : strategy ≠ "balanced")
    (fuel : Nat) (st : PickState F) (hfuel : (st.buckets bucket).length ≤ fuel) :
    ∃ st' : PickState F,
      pickLoop rt strategy bucket fuel st = .ok st' ∧
      st'.chosen = st.chosen ++
        ((st.buckets bucket).take (st.want bucket).toNat).map (fun c => c.problem) ∧
      (∀ k, k ≠ bucket → st'.buckets k = st.buckets k) ∧
      (∀ k, k ≠ bucket → st'.want k = st.want k) := by
  induction fuel generalizing st with
  | zero =>
    have hlen : st.buckets bucket = [] := List.length_eq_zero.mp (by omega)
    refine ⟨st, ?_, by simp [hlen], fun _ _ => rfl, fun _ _ => rfl⟩
    unfold pickLoop
    rw [if_neg]
    simp [hlen]
  | succ fuel ih =>
    by_cases hc : st.want bucket > 0 ∧ (st.buckets bucket).length > 0
    · cases hb : st.buckets bucket with
      | nil => simp [hb] at hc
      | cons c rest =>
        have hstep : pickStep rt strategy bucket st = .ok
            { buckets := setKey st.buckets bucket rest
              want := setKey st.want bucket (st.want bucket - 1)
              usedTopics := markUsed rt st.chosen.length st.usedTopics
                (topicSet rt.lowerRune c.problem.Topics)
              chosen := st.chosen ++ [c.problem] } := by
          unfold pickStep bestIdx
          simp [hs, hb]
        rw [hb] at hfuel
        obtain ⟨st', hloop, hch, hbk, hwk⟩ := ih
          { buckets := setKey st.buckets bucket rest
            want := setKey st.want bucket (st.want bucket - 1)
            usedTopics := markUsed rt st.chosen.length st.usedTopics
              (topicSet rt.lowerRune c.problem.Topics)
            chosen := st.chosen ++ [c.problem] }
          (by simp only [setKey_same]; simp only [List.length_cons] at hfuel; omega)
        refine ⟨st', ?_, ?_, ?_, ?_⟩
        · rw [pickLoop, if_pos hc, hstep]
          exact hloop
        · rw [hch]
          simp only [setKey_same]
          obtain ⟨n, hn⟩ : ∃ n, (st.want bucket).toNat = n + 1 := ⟨(st.want bucket).toNat - 1, by omega⟩
          have hn' : (st.want bucket - 1).toNat = n := by omega
          rw [hn, hn']
          simp
        · intro k hk
          rw [hbk k hk]
          exact setKey_other _ _ hk
        · intro k hk
          rw [hwk k hk]
          exact setKey_other _ _ hk
    · refine ⟨st, ?_, ?_, fun _ _ => rfl, fun _ _ => rfl⟩
      · rw [pickLoop, if_neg hc]
      · by_cases hw : st.want bucket > 0
        · have hlen : st.buckets bucket = [] := List.length_eq_zero.mp (by omega)
          simp [hlen]
        · have : (st.want bucket).toNat = 0 := by omega
          simp [this]

/-- Under a strategy other than `balanced` the selector returns the first `want`
candidates of each sorted bucket. -/
theorem pickContestProblems_first (rt : Runtime F) (now : Time) (params : GenerateParams)
    (all : List (ProblemWithState F))
    (hs : normalizeStrategy rt.lowerRune params.Strategy ≠ "balanced")
    (hcap : makeslicePanics sizeofProblem params.totalCount = false) :
    pickContestProblems rt now params all =
      .ok (firstPicks rt (normalizeStrategy rt.lowerRune params.Strategy) now params all) := by
  obtain ⟨st₁, h₁, hc₁, hb₁, hw₁⟩ :=
    pickLoop_first rt (normalizeStrategy rt.lowerRune params.Strategy) "easy" hs _
      { buckets := sortBuckets
          (fillBuckets rt (normalizeStrategy rt.lowerRune params.Strategy) now all)
        want := wantOf params, usedTopics := fun _ => 0, chosen := [] } (le_refl _)
  obtain ⟨st₂, h₂, hc₂, hb₂, hw₂⟩ :=
    pickLoop_first rt (normalizeStrategy rt.lowerRune params.Strategy) "medium" hs _ st₁ (le_refl _)
  obtain ⟨st₃, h₃, hc₃, hb₃, hw₃⟩ :=
    pickLoop_first rt (normalizeStrategy rt.lowerRune params.Strategy) "hard" hs _ st₂ (le_refl _)
  have hme : ("medium" : String) ≠ "easy" := by decide
  have hhe : ("hard" : String) ≠ "easy" := by decide
  have hhm : ("hard" : String) ≠ "medium" := by decide
  unfold pickContestProblems pickFrom
  simp only [hcap, Bool.false_eq_true, if_false, h₁, h₂, h₃]
  rw [hc₃, hc₂, hc₁, hb₂ _ hhm, hb₁ _ hhe, hb₁ _ hme, hw₂ _ hhm, hw₁ _ hhe, hw₁ _ hme]
  simp [firstPicks, sortedBucket, wantOf]

/-- A strategy that is neither `due-heavy` nor `weakness` adds nothing to the score. -/
theorem sortedBucket_plain (rt : Runtime F) (strategy : String) (now : Time)
    (all : List (ProblemWithState F)) (k : String)
    (h1 : strategy ≠ "due-heavy") (h2 : strategy ≠ "weakness") :
    sortedBucket rt strategy now all k = sortedBucket rt "balanced" now all k := by
  have hm : mkCandidate rt strategy now = mkCandidate rt "balanced" now := by
    funext p
    have e1 : ("balanced" : String) ≠ "due-heavy" := by decide
    have e2 : ("balanced" : String) ≠ "weakness" := by decide
    simp only [mkCandidate, candidateScore, h1, h2, e1, e2, if_false]
  unfold sortedBucket fillBuckets
  rw [hm]

theorem normalizeStrategy_balanced (lr : Char → Char) :
    normalizeStrategy lr "balanced" = "balanced" := by
  rfl

end FirstFacts

/-! ## The selector: capacity, default mix, default strategy -/

section DefaultFacts

variable {F : Type} [LinearOrderedField F]

/-- Claim C4, the code at the failing input. The mix `{easy: 2^62, medium: 2^62, hard: 0}`
has non-negative counts and passes the validation of `Handler.Generate` unchanged, but
`totalCount()` wraps to `-2^63`, and `make` panics on the negative capacity: no list
is returned, for any pool and strategy. -/
theorem pickContestProblems_capacity_overflow (rt : Runtime F) (now : Time) (strategy : String)
    (all : List (ProblemWithState F)) :
    generateParams
        { Strategy := strategy, DurationMinutes := 60,
          DifficultyMix := { Easy := 2 ^ 62, Medium := 2 ^ 62, Hard := 0 } } =
      some { Strategy := strategy, DurationMinutes := 60,
             DifficultyMix := { Easy := 2 ^ 62, Medium := 2 ^ 62, Hard := 0 } } ∧
    GenerateParams.totalCount
        { Strategy := strategy, DurationMinutes := 60,
          DifficultyMix := { Easy := 2 ^ 62, Medium := 2 ^ 62, Hard := 0 } } = -(2 ^ 63) ∧
    pickContestProblems rt now
        { Strategy := strategy, DurationMinutes := 60,
          DifficultyMix := { Easy := 2 ^ 62, Medium := 2 ^ 62, Hard := 0 } } all =
      .error .makesliceCapOutOfRange := by
  have ht : GenerateParams.totalCount
      { Strategy := strategy, DurationMinutes := 60,
        DifficultyMix := { Easy := 2 ^ 62, Medium := 2 ^ 62, Hard := 0 } } = -(2 ^ 63) := by
    simp only [GenerateParams.totalCount]
    decide
  refine ⟨?_, ht, ?_⟩
  · have h60 : ¬ ((60 : Int) ≤ 0) := by decide
    have hneg : ¬ ((2 : Int) ^ 62 < 0 ∨ (2 : Int) ^ 62 < 0 ∨ (0 : Int) < 0) := by decide
    have hnz : ¬ (-(2 : Int) ^ 63 = 0) := by decide
    unfold generateParams
    simp only [h60, if_false, ht, hneg, hnz]
  · exact pickContestProblems_neg_cap rt now _ all (by rw [ht]; decide)

/-- The mix `{easy: 2^62, medium: 0, hard: 0}` has the capacity `totalCount() = 2^62`,
which is not negative, but its `2^62 * 104` bytes overflow a `uintptr`: `make` panics
as well, for any pool and strategy. -/
theorem pickContestProblems_capacity_too_large (rt : Runtime F) (now : Time) (strategy : String)
    (all : List (ProblemWithState F)) :
    GenerateParams.totalCount
        { Strategy := strategy, DurationMinutes := 60,
          DifficultyMix := { Easy := 2 ^ 62, Medium := 0, Hard := 0 } } = 2 ^ 62 ∧
    pickContestProblems rt now
        { Strategy := strategy, DurationMinutes := 60,
          DifficultyMix := { Easy := 2 ^ 62, Medium := 0, Hard := 0 } } all =
      .error .makesliceCapOutOfRange := by
  have ht : GenerateParams.totalCount
      { Strategy := strategy, DurationMinutes := 60,
        DifficultyMix := { Easy := 2 ^ 62, Medium := 0, Hard := 0 } } = 2 ^ 62 := by
    simp only [GenerateParams.totalCount]
    decide
  refine ⟨ht, pickContestProblems_cap_panic rt now _ all ?_⟩
  rw [ht]
  decide

/-- A list is returned exactly when `makeslice` accepts the capacity: for the sum
`totalCount()` of the three counts, brought back into the range of a Go `int`, from 0 to
2706490160679. -/
theorem pickContestProblems_returns_iff (rt : Runtime F) (now : Time) (params : GenerateParams)
    (all : List (ProblemWithState F)) :
    (∃ chosen, pickContestProblems rt now params all = .ok chosen) ↔
      makeslicePanics sizeofProblem params.totalCount = false := by
  constructor
  · rintro ⟨chosen, h⟩
    exact pickContestProblems_cap_of_ok rt now params all chosen h
  · intro h
    obtain ⟨pe, pm, ph, hok, -⟩ := pickContestProblems_shape rt now params all h
    exact ⟨_, hok⟩

/-- Claim C5, counterexample. On the sample pool the selector returns the empty list for
the mix {0,0,0} and five problems for the mix {2,2,1}. -/
theorem pickContestProblems_zero_mix_counterexample :
    pickContestProblems sampleRuntime 0
        { Strategy := "balanced", DurationMinutes := 60,
          DifficultyMix := { Easy := 0, Medium := 0, Hard := 0 } } samplePool = .ok [] ∧
    pickContestProblems sampleRuntime 0
        { Strategy := "balanced", DurationMinutes := 60,
          DifficultyMix := { Easy := 2, Medium := 2, Hard := 1 } } samplePool = .ok sampleChosen ∧
    sampleChosen ≠ [] := by
  decide!

/-- Claim C5, amended. The default mix is substituted by `Handler.Generate`, not by the
selector: a request with the mix {0,0,0} leads `Handler.Generate` to the same
selection as a request with the mix {2,2,1}, for every instant, strategy, duration and
pool; `pickContestProblems` itself returns the empty list for the mix {0,0,0}. -/
theorem generate_default_mix (rt : Runtime F) (now : Time) (strategy : String) (duration : Int)
    (all : List (ProblemWithState F)) :
    generateChosen rt now
        { Strategy := strategy, DurationMinutes := duration,
          DifficultyMix := { Easy := 0, Medium := 0, Hard := 0 } } all =
      generateChosen rt now
        { Strategy := strategy, DurationMinutes := duration,
          DifficultyMix := { Easy := 2, Medium := 2, Hard := 1 } } all ∧
    pickContestProblems rt now
        { Strategy := strategy, DurationMinutes := duration,
          DifficultyMix := { Easy := 0, Medium := 0, Hard := 0 } } all = .ok [] := by
  constructor
  · have h0 : wrap64 (wrap64 ((0 : Int) + 0) + 0) = 0 := by decide
    have h5 : ¬ wrap64 (wrap64 ((2 : Int) + 2) + 1) = 0 := by decide
    have hn0 : ¬ ((0 : Int) < 0 ∨ (0 : Int) < 0 ∨ (0 : Int) < 0) := by decide
    have hn5 : ¬ ((2 : Int) < 0 ∨ (2 : Int) < 0 ∨ (1 : Int) < 0) := by decide
    unfold generateChosen generateParams
    by_cases hd : duration ≤ 0
    · simp only [hd, if_true, GenerateParams.totalCount, h0, h5, hn0, hn5, if_false]
    · simp only [hd, if_false, GenerateParams.totalCount, h0, h5, hn0, hn5, if_true]
  · have hcap : makeslicePanics sizeofProblem (GenerateParams.totalCount
        { Strategy := strategy, DurationMinutes := duration,
          DifficultyMix := { Easy := 0, Medium := 0, Hard := 0 } }) = false := by
      simp only [GenerateParams.totalCount]
      decide
    obtain ⟨pe, pm, ph, hok, _, _, _, hle, hlm, hlh⟩ := pickContestProblems_shape rt now _ all hcap
    rw [hok]
    have he : pe = [] := List.length_eq_zero.mp (by rw [hle]; simp)
    have hm : pm = [] := List.length_eq_zero.mp (by rw [hlm]; simp)
    have hh : ph = [] := List.length_eq_zero.mp (by rw [hlh]; simp)
    rw [he, hm, hh]
    rfl

/-- Claim C6, counterexample. On the sample pool the strategy string `random`, which is
none of balanced, due-heavy and weakness, gives another list than `balanced`: the
second easy pick is `e2` instead of `e3`, because the topic scan is not run. -/
theorem pickContestProblems_unknown_strategy_counterexample :
    pickContestProblems sampleRuntime 0 (sampleParams "random") samplePool =
      .ok sampleChosenFirst ∧
    pickContestProblems sampleRuntime 0 (sampleParams "balanced") samplePool =
      .ok sampleChosen ∧
    sampleChosenFirst ≠ sampleChosen := by
  decide!

/-- Claim C6, amended. The only default is for the empty string: a strategy string that is
empty after trimming and lowercasing gives exactly the result of `balanced` on the
same instant, mix and pool.  Any other string that is none of balanced, due-heavy and
weakness is scored like `balanced` but picked without the topic scan: the returned
list is made of the first candidates of each bucket as sorted for `balanced`. -/
theorem pickContestProblems_strategy_default (rt : Runtime F) (now : Time)
    (params : GenerateParams) (all : List (ProblemWithState F)) :
    (trimSpace (toLower rt.lowerRune params.Strategy) = "" →
      pickContestProblems rt now params all =
        pickContestProblems rt now { params with Strategy := "balanced" } all) ∧
    (trimSpace (toLower rt.lowerRune params.Strategy) ≠ "" →
      trimSpace (toLower rt.lowerRune params.Strategy) ≠ "balanced" →
      trimSpace (toLower rt.lowerRune params.Strategy) ≠ "due-heavy" →
      trimSpace (toLower rt.lowerRune params.Strategy) ≠ "weakness" →
      ∀ chosen, pickContestProblems rt now params all = .ok chosen →
        chosen = firstPicks rt "balanced" now params all) := by
  constructor
  · intro h
    have hn : normalizeStrategy rt.lowerRune params.Strategy = "balanced" := by
      unfold normalizeStrategy
      simp only [h, if_true]
    unfold pickContestProblems
    simp only [hn, normalizeStrategy_balanced]
    rfl
  · intro h0 h1 h2 h3 chosen hok
    have hn : normalizeStrategy rt.lowerRune params.Strategy =
        trimSpace (toLower rt.lowerRune params.Strategy) := by
      unfold normalizeStrategy
      simp only [h0, if_false]
    have hcap := pickContestProblems_cap_of_ok rt now params all chosen hok
    rw [pickContestProblems_first rt now params all (by rw [hn]; exact h1) hcap] at hok
    cases hok
    unfold firstPicks
    rw [hn, sortedBucket_plain rt _ now all "easy" h2 h3,
      sortedBucket_plain rt _ now all "medium" h2 h3,
      sortedBucket_plain rt _ now all "hard" h2 h3]

theorem pickContestProblems_strategy_default_witness :
    pickContestProblems sampleRuntime 0 (sampleParams "  ") samplePool =
        pickContestProblems sampleRuntime 0
          { sampleParams "  " with Strategy := "balanced" } samplePool ∧
      sampleChosenFirst = firstPicks sampleRuntime "balanced" 0 (sampleParams "Random ") samplePool :=
  ⟨(pickContestProblems_strategy_default sampleRuntime 0 (sampleParams "  ") samplePool).1
      (by decide),
    (pickContestProblems_strategy_default sampleRuntime 0 (sampleParams "Random ") samplePool).2
      (by decide) (by decide) (by decide) (by decide) sampleChosenFirst (by decide!)⟩

end DefaultFacts

/-! ## `Handler.Generate`: validated parameters and per-item budget -/

section GenerateFacts

variable {F : Type} [LinearOrderedField F]

/-- What the validation of `Handler.Generate` does establish: a positive duration,
non-negative counts, a total (in Go arithmetic) that is not zero, and a mix that is
passed through unchanged unless its total is zero. -/
theorem generateParams_spec (req p : GenerateParams) (h : generateParams req = some p) :
    0 < p.DurationMinutes ∧ 0 ≤ p.DifficultyMix.Easy ∧ 0 ≤ p.DifficultyMix.Medium ∧
      0 ≤ p.DifficultyMix.Hard ∧ p.totalCount ≠ 0 ∧
      (req.totalCount ≠ 0 → p.DifficultyMix = req.DifficultyMix) ∧
      (req.totalCount = 0 → p.DifficultyMix = { Easy := 2, Medium := 2, Hard := 1 }) ∧
      p.Strategy = req.Strategy ∧
      p.DurationMinutes = (if req.DurationMinutes ≤ 0 then 60 else req.DurationMinutes) := by
  have h5 : GenerateParams.totalCount
      { Strategy := req.Strategy, DurationMinutes := 60,
        DifficultyMix := { Easy := 2, Medium := 2, Hard := 1 } } ≠ 0 := by
    simp only [GenerateParams.totalCount]
    decide
  have h5' : ∀ d, GenerateParams.totalCount
      { Strategy := req.Strategy, DurationMinutes := d,
        DifficultyMix := { Easy := 2, Medium := 2, Hard := 1 } } ≠ 0 := fun _ => h5
  unfold generateParams at h
  by_cases hd : req.DurationMinutes ≤ 0
  · simp only [hd, if_true] at h
    split_ifs at h with hneg hz
    · cases h
      refine ⟨by norm_num, by norm_num, by norm_num, by norm_num, h5' _, ?_, fun _ => rfl, rfl,
        by simp [hd]⟩
      intro hne
      exact absurd hz hne
    · cases h
      simp only [not_or, not_lt] at hneg
      refine ⟨by norm_num, hneg.1, hneg.2.1, hneg.2.2, hz, fun _ => rfl, ?_, rfl, by simp [hd]⟩
      intro hz'
      exact absurd hz' hz
  · simp only [hd, if_false] at h
    split_ifs at h with hneg hz
    · cases h
      refine ⟨not_le.mp hd, by norm_num, by norm_num, by norm_num, h5' _, ?_, fun _ => rfl, rfl,
        by simp [hd]⟩
      intro hne
      exact absurd hz hne
    · cases h
      simp only [not_or, not_lt] at hneg
      refine ⟨not_le.mp hd, hneg.1, hneg.2.1, hneg.2.2, hz, fun _ => rfl, ?_, rfl, by simp [hd]⟩
      intro hz'
      exact absurd hz' hz

/-- Claim C11. Whenever `Handler.Generate` has validated the request and the selector
returns a non-empty list, the division does not panic and the budget of each item is
`floor(DurationMinutes / len(chosen))`: the budgets add up to at most the duration and
the dropped remainder is smaller than `len(chosen)`. -/
theorem generatePlan_target_minutes (rt : Runtime F) (now : Time) (req p : GenerateParams)
    (all : List (ProblemWithState F)) (chosen : List Problem)
    (hp : generateParams req = some p)
    (hpick : pickContestProblems rt now p all = .ok chosen) (hne : chosen ≠ []) :
    ∃ t : Int, generatePlan rt now req all = .plan p chosen t ∧
      t = p.DurationMinutes / (chosen.length : Int) ∧
      t * (chosen.length : Int) ≤ p.DurationMinutes ∧
      p.DurationMinutes - t * (chosen.length : Int) < (chosen.length : Int) := by
  have hD := (generateParams_spec req p hp).1
  have hlen : 0 < chosen.length := List.length_pos.mpr hne
  have hlen' : (0 : Int) < (chosen.length : Int) := by exact_mod_cast hlen
  have htd : Int.tdiv p.DurationMinutes (chosen.length : Int) =
      p.DurationMinutes / (chosen.length : Int) :=
    Int.tdiv_eq_ediv (le_of_lt hD) (le_of_lt hlen')
  refine ⟨p.DurationMinutes / (chosen.length : Int), ?_, rfl, ?_, ?_⟩
  · unfold generatePlan
    simp only [hp, hpick]
    rw [if_neg (by omega)]
    unfold targetMinutes goDiv
    rw [if_pos hlen', if_neg (by omega), if_neg (by omega), htd]
  · exact Int.ediv_mul_le _ (by omega)
  · have := Int.lt_ediv_add_one_mul_self p.DurationMinutes hlen'
    linarith

theorem generatePlan_target_minutes_witness :
    ∃ t : Int, generatePlan sampleRuntime 0 (sampleParams "balanced") samplePool =
        .plan (sampleParams "balanced") sampleChosen t ∧
      t = (sampleParams "balanced").DurationMinutes / (sampleChosen.length : Int) ∧
      t * (sampleChosen.length : Int) ≤ (sampleParams "balanced").DurationMinutes ∧
      (sampleParams "balanced").DurationMinutes - t * (sampleChosen.length : Int) <
        (sampleChosen.length : Int) :=
  generatePlan_target_minutes sampleRuntime 0 (sampleParams "balanced") (sampleParams "balanced")
    samplePool sampleChosen (by decide) (by decide!) (by decide)

/-- Claim C14, the code at the failing input. The mix `{easy: 2^62, medium: 2^62, hard: 0}`
has non-negative counts; its total, computed in Go `int` arithmetic, is `-2^63`, which
is not zero, so `Handler.Generate` passes it to the selector unchanged, with a
`totalCount()` that is not positive. -/
theorem generateParams_total_overflow (strategy : String) (duration : Int) :
    ∃ p : GenerateParams,
      generateParams
          { Strategy := strategy, DurationMinutes := duration,
            DifficultyMix := { Easy := 2 ^ 62, Medium := 2 ^ 62, Hard := 0 } } = some p ∧
        p.DifficultyMix = { Easy := 2 ^ 62, Medium := 2 ^ 62, Hard := 0 } ∧
        p.totalCount = -(2 ^ 63) ∧ ¬ (0 < p.totalCount) := by
  have ht : ∀ d, GenerateParams.totalCount
      { Strategy := strategy, DurationMinutes := d,
        DifficultyMix := { Easy := 2 ^ 62, Medium := 2 ^ 62, Hard := 0 } } = -(2 ^ 63) := by
    intro d
    simp only [GenerateParams.totalCount]
    decide
  have hneg : ¬ ((2 : Int) ^ 62 < 0 ∨ (2 : Int) ^ 62 < 0 ∨ (0 : Int) < 0) := by decide
  have hnz : ¬ (-(2 : Int) ^ 63 = 0) := by decide
  by_cases hd : duration ≤ 0
  · refine ⟨{ Strategy := strategy, DurationMinutes := 60,
              DifficultyMix := { Easy := 2 ^ 62, Medium := 2 ^ 62, Hard := 0 } }, ?_, rfl, ht _, ?_⟩
    · unfold generateParams
      simp only [hd, if_true, ht, hneg, hnz, if_false]
    · rw [ht]; decide
  · refine ⟨{ Strategy := strategy, DurationMinutes := duration,
              DifficultyMix := { Easy := 2 ^ 62, Medium := 2 ^ 62, Hard := 0 } }, ?_, rfl, ht _, ?_⟩
    · unfold generateParams
      simp only [hd, if_false, ht, hneg, hnz]
    · rw [ht]; decide

end GenerateFacts

/-! ## Calendar export: `escapeText` is a single pass -/

theorem replaceAll_data (s old new : String) (h : old.data ≠ []) :
    (replaceAll s old new).data = replaceAllAux old.data new.data s.data 0 := by
  unfold replaceAll
  rw [if_neg h]

theorem replaceAllAux_single (a : Char) (new l : List Char) :
    replaceAllAux [a] new l 0 = mapChars (fun c => if c = a then new else [c]) l := by
  induction l with
  | nil => rfl
  | cons c cs ih =>
    unfold replaceAllAux mapChars
    by_cases h : c = a
    · subst h
      simp [List.isPrefixOf, ih]
    · have h' : ¬ a = c := fun e => h e.symm
      simp [List.isPrefixOf, ih, h, h']

theorem mapChars_append (f : Char → List Char) (x y : List Char) :
    mapChars f (x ++ y) = mapChars f x ++ mapChars f y := by
  induction x with
  | nil => rfl
  | cons c cs ih => simp [mapChars, ih]

/-- The second replacement of `escapeText`, of CR LF pairs. -/
theorem crlf_nil : replaceAllAux ['\r', '\n'] ['\\', 'n'] [] 0 = [] := rfl

theorem crlf_cons_other (c : Char) (cs : List Char) (h : c ≠ '\r') :
    replaceAllAux ['\r', '\n'] ['\\', 'n'] (c :: cs) 0 =
      c :: replaceAllAux ['\r', '\n'] ['\\', 'n'] cs 0 := by
  have h' : ¬ '\r' = c := fun e => h e.symm
  rw [replaceAllAux]
  simp [List.isPrefixOf, h']

theorem crlf_pair (cs : List Char) :
    replaceAllAux ['\r', '\n'] ['\\', 'n'] ('\r' :: '\n' :: cs) 0 =
      '\\' :: 'n' :: replaceAllAux ['\r', '\n'] ['\\', 'n'] cs 0 := by
  rw [replaceAllAux]
  simp [List.isPrefixOf, replaceAllAux]

theorem crlf_lone_cr (cs : List Char) (h : cs.head? ≠ some '\n') :
    replaceAllAux ['\r', '\n'] ['\\', 'n'] ('\r' :: cs) 0 =
      '\r' :: replaceAllAux ['\r', '\n'] ['\\', 'n'] cs 0 := by
  rw [replaceAllAux]
  cases cs with
  | nil => simp [List.isPrefixOf]
  | cons d ds =>
    have hd : ¬ '\n' = d := by
      intro e
      apply h
      simp [← e]
    simp [List.isPrefixOf, hd]

/-- The six replacements of `escapeText`, on the characters of the string. -/
theorem escapeText_data (s : String) : (escapeText s).data = escapeChain s.data := by
  unfold escapeText escapeChain
  simp only [replaceAll_data _ _ _ (by decide : ("\\" : String).data ≠ []),
    replaceAll_data _ _ _ (by decide : ("\r\n" : String).data ≠ []),
    replaceAll_data _ _ _ (by decide : ("\n" : String).data ≠ []),
    replaceAll_data _ _ _ (by decide : ("\r" : String).data ≠ []),
    replaceAll_data _ _ _ (by decide : (";" : String).data ≠ []),
    replaceAll_data _ _ _ (by decide : ("," : String).data ≠ [])]
  rw [← replaceAllAux_single, ← replaceAllAux_single, ← replaceAllAux_single,
    ← replaceAllAux_single, ← replaceAllAux_single]

theorem mapChars_backslash_head (cs : List Char) (h : cs.head? ≠ some '\n') :
    (mapChars (fun c => if c = '\\' then ['\\', '\\'] else [c]) cs).head? ≠ some '\n' := by
  cases cs with
  | nil => simp [mapChars]
  | cons d ds =>
    have hd : d ≠ '\n' := by
      intro e
      apply h
      simp [e]
    by_cases hb : d = '\\'
    · simp [mapChars, hb]
    · simp [mapChars, hb, hd]

theorem escapeChain_nil : escapeChain [] = [] := rfl

theorem escapeChain_cons (c : Char) (cs : List Char) (h : c ≠ '\r') :
    escapeChain (c :: cs) = escapeChar c ++ escapeChain cs := by
  unfold escapeChain escapeChar
  by_cases h1 : c = '\\'
  · subst h1
    simp [mapChars, crlf_cons_other]
  · by_cases h2 : c = '\n'
    · subst h2
      simp [mapChars, crlf_cons_other]
    · by_cases h3 : c = ';'
      · subst h3
        simp [mapChars, crlf_cons_other]
      · by_cases h4 : c = ','
        · subst h4
          simp [mapChars, crlf_cons_other]
        · simp [mapChars, crlf_cons_other, h, h1, h2, h3, h4]

theorem escapeChain_crlf (cs : List Char) :
    escapeChain ('\r' :: '\n' :: cs) = '\\' :: 'n' :: escapeChain cs := by
  unfold escapeChain
  simp [mapChars, crlf_pair]

theorem escapeChain_lone_cr (cs : List Char) (h : cs.head? ≠ some '\n') :
    escapeChain ('\r' :: cs) = '\\' :: 'n' :: escapeChain cs := by
  unfold escapeChain
  have hb := mapChars_backslash_head cs h
  have : mapChars (fun c => if c = '\\' then ['\\', '\\'] else [c]) ('\r' :: cs) =
      '\r' :: mapChars (fun c => if c = '\\' then ['\\', '\\'] else [c]) cs := by
    simp [mapChars]
  rw [this, crlf_lone_cr _ hb]
  simp [mapChars]

/-- The six successive replacements of `escapeText` amount to the single pass. -/
theorem escapeChain_eq_escapePass (l : List Char) : escapeChain l = escapePass l := by
  suffices h : ∀ n (l : List Char), l.length ≤ n → escapeChain l = escapePass l from
    h l.length l (le_refl _)
  intro n
  induction n with
  | zero =>
    intro l hl
    have : l = [] := List.length_eq_zero.mp (by omega)
    subst this
    rfl
  | succ n ih =>
    intro l hl
    match l, hl with
    | [], _ => rfl
    | [c], _ =>
      by_cases hc : c = '\r'
      · subst hc
        rw [escapeChain_lone_cr [] (by simp)]
        rfl
      · rw [escapeChain_cons c [] hc, escapeChain_nil]
        simp [escapePass]
    | c :: d :: cs, hl =>
      simp only [List.length_cons] at hl
      by_cases hc : c = '\r'
      · subst hc
        by_cases hd : d = '\n'
        · subst hd
          rw [escapeChain_crlf, ih cs (by omega)]
          simp [escapePass]
        · rw [escapeChain_lone_cr (d :: cs) (by simp [hd]),
            ih (d :: cs) (by simp only [List.length_cons]; omega)]
          simp [escapePass, hd, escapeChar]
      · rw [escapeChain_cons c (d :: cs) hc,
          ih (d :: cs) (by simp only [List.length_cons]; omega)]
        simp [escapePass, hc]

/-- Claim C18. For every string, `escapeText` gives the result of the single
left-to-right pass that doubles each backslash, turns each line break (a CR LF pair, a
lone LF or a lone CR) into backslash `n`, puts a backslash before each semicolon and
each comma, and copies every other character; the summary `Review: A, B; C` comes out
with its comma and its semicolon each preceded by a backslash. -/
theorem escapeText_single_pass (s : String) :
    escapeText s = ⟨escapePass s.data⟩ ∧
      escapeText "Review: A, B; C" = "Review: A\\, B\\; C" := by
  constructor
  · have h := escapeText_data s
    rw [escapeChain_eq_escapePass] at h
    cases hs : escapeText s with
    | mk ds =>
      rw [hs] at h
      simp only at h
      rw [h]
  · decide

/-! ## Calendar export: line breaks of `BuildICS` -/

theorem CRLFText_cr (l : List Char) (h : CRLFText l) (i : Nat) (hi : l[i]? = some '\r') :
    l[i + 1]? = some '\n' := by
  induction h generalizing i with
  | nil => simp at hi
  | char c cs hc _ _ ih =>
    cases i with
    | zero =>
      simp only [List.getElem?_cons_zero, Option.some.injEq] at hi
      exact absurd hi hc
    | succ j =>
      simp only [List.getElem?_cons_succ] at hi ⊢
      exact ih j hi
  | crlf cs _ ih =>
    cases i with
    | zero => simp
    | succ j =>
      cases j with
      | zero => simp at hi
      | succ k =>
        simp only [List.getElem?_cons_succ] at hi ⊢
        exact ih k hi

theorem CRLFText_lf (l : List Char) (h : CRLFText l) (i : Nat) (hi : l[i]? = some '\n') :
    ∃ j, i = j + 1 ∧ l[j]? = some '\r' := by
  induction h generalizing i with
  | nil => simp at hi
  | char c cs _ hc _ ih =>
    cases i with
    | zero =>
      simp only [List.getElem?_cons_zero, Option.some.injEq] at hi
      exact absurd hi hc
    | succ j =>
      simp only [List.getElem?_cons_succ] at hi
      obtain ⟨k, hk, hk'⟩ := ih j hi
      exact ⟨k + 1, by omega, by simpa using hk'⟩
  | crlf cs _ ih =>
    cases i with
    | zero => simp at hi
    | succ j =>
      cases j with
      | zero => exact ⟨0, rfl, by simp⟩
      | succ k =>
        simp only [List.getElem?_cons_succ] at hi
        obtain ⟨m, hm, hm'⟩ := ih k hi
        exact ⟨m + 2, by omega, by simpa using hm'⟩

theorem CRLFText_line (l rest : List Char) (hl : noLineBreak l) (hr : CRLFText rest) :
    CRLFText (l ++ '\r' :: '\n' :: rest) := by
  induction l with
  | nil => exact CRLFText.crlf rest hr
  | cons c cs ih =>
    have hc := hl c (List.mem_cons_self c cs)
    exact CRLFText.char c _ hc.1 hc.2 (ih (fun d hd => hl d (List.mem_cons_of_mem c hd)))

theorem noLineBreak_append (x y : List Char) (hx : noLineBreak x) (hy : noLineBreak y) :
    noLineBreak (x ++ y) := by
  intro c hc
  rcases List.mem_append.mp hc with h | h
  · exact hx c h
  · exact hy c h

theorem digitChar_noBreak (n : Nat) : digitChar n ≠ '\r' ∧ digitChar n ≠ '\n' := by
  have key : ∀ k, k < 10 → Char.ofNat (48 + k) ≠ '\r' ∧ Char.ofNat (48 + k) ≠ '\n' := by decide
  exact key (n % 10) (Nat.mod_lt n (by decide))

theorem decimalDigits_noBreak (fuel n : Nat) : noLineBreak (decimalDigits fuel n) := by
  induction fuel generalizing n with
  | zero => intro c hc; simp [decimalDigits] at hc
  | succ fuel ih =>
    unfold decimalDigits
    split_ifs
    · intro c hc
      simp only [List.mem_singleton] at hc
      rw [hc]
      exact digitChar_noBreak n
    · apply noLineBreak_append _ _ (ih _)
      intro c hc
      simp only [List.mem_singleton] at hc
      rw [hc]
      exact digitChar_noBreak n

theorem appendInt_noBreak (x : Int) (width : Nat) : noLineBreak (appendInt x width) := by
  unfold appendInt
  apply noLineBreak_append
  · apply noLineBreak_append
    · split_ifs
      · intro c hc
        simp only [List.mem_singleton] at hc
        rw [hc]
        decide
      · intro c hc
        simp at hc
    · intro c hc
      rw [(List.mem_replicate.mp hc).2]
      decide
  · exact decimalDigits_noBreak _ _

theorem formatDate_noBreak (t : ZonedTime) : noLineBreak t.formatDate.data := by
  unfold ZonedTime.formatDate
  exact noLineBreak_append _ _
    (noLineBreak_append _ _ (appendInt_noBreak _ _) (appendInt_noBreak _ _)) (appendInt_noBreak _ _)

theorem formatStamp_noBreak (t : ZonedTime) : noLineBreak t.formatStamp.data := by
  have hT : noLineBreak ['T'] := by
    intro c hc
    simp only [List.mem_singleton] at hc
    rw [hc]
    decide
  have hZ : noLineBreak ['Z'] := by
    intro c hc
    simp only [List.mem_singleton] at hc
    rw [hc]
    decide
  unfold ZonedTime.formatStamp
  exact noLineBreak_append _ _ (noLineBreak_append _ _ (noLineBreak_append _ _
    (noLineBreak_append _ _ (noLineBreak_append _ _ (noLineBreak_append _ _
      (noLineBreak_append _ _ (appendInt_noBreak _ _) (appendInt_noBreak _ _))
      (appendInt_noBreak _ _)) hT) (appendInt_noBreak _ _)) (appendInt_noBreak _ _))
    (appendInt_noBreak _ _)) hZ

theorem escapeChar_noBreak (c : Char) : noLineBreak (escapeChar c) := by
  unfold escapeChar
  split_ifs with h1 h2 h3 h4
  · intro d hd
    simp only [List.mem_cons, List.mem_singleton, List.not_mem_nil, or_false, or_self] at hd
    rw [hd]
    decide
  · intro d hd
    simp only [List.mem_cons, List.mem_singleton, List.not_mem_nil, or_false] at hd
    rcases hd with hd | hd <;> rw [hd] <;> decide
  · intro d hd
    simp only [List.mem_cons, List.mem_singleton, List.not_mem_nil, or_false] at hd
    rcases hd with hd | hd <;> rw [hd] <;> decide
  · intro d hd
    simp only [List.mem_cons, List.mem_singleton, List.not_mem_nil, or_false] at hd
    rcases hd with hd | hd <;> rw [hd] <;> decide
  · intro d hd
    simp only [List.mem_singleton] at hd
    rw [hd]
    simp only [not_or] at h2
    exact ⟨h2.2, h2.1⟩

theorem escapePass_noBreak (l : List Char) : noLineBreak (escapePass l) := by
  suffices h : ∀ n (l : List Char), l.length ≤ n → noLineBreak (escapePass l) from
    h l.length l (le_refl _)
  intro n
  induction n with
  | zero =>
    intro l hl
    have : l = [] := List.length_eq_zero.mp (by omega)
    subst this
    intro c hc
    simp [escapePass] at hc
  | succ n ih =>
    intro l hl
    match l, hl with
    | [], _ => intro c hc; simp [escapePass] at hc
    | [c], _ => exact escapeChar_noBreak c
    | c :: d :: cs, hl =>
      simp only [List.length_cons] at hl
      unfold escapePass
      split_ifs
      · intro x hx
        simp only [List.mem_cons] at hx
        rcases hx with hx | hx | hx
        · rw [hx]; decide
        · rw [hx]; decide
        · exact ih cs (by omega) x hx
      · exact noLineBreak_append _ _ (escapeChar_noBreak c)
          (ih (d :: cs) (by simp only [List.length_cons]; omega))

/-- An escaped text value has no CR and no LF. -/
theorem escapeText_noBreak (s : String) : noLineBreak (escapeText s).data := by
  rw [escapeText_data, escapeChain_eq_escapePass]
  exact escapePass_noBreak _

/-! ## Calendar export: the output of `BuildICS` -/

theorem foldl_lines_data (lines : List String) (b : String) :
    (lines.foldl (fun b line => b ++ line ++ "\r\n") b).data =
      b.data ++ (lines.map (fun line => line.data ++ ['\r', '\n'])).flatten := by
  induction lines generalizing b with
  | nil => simp
  | cons l ls ih =>
    rw [List.foldl_cons, ih]
    simp [String.data_append]

/-- The output of `BuildICS`: each line followed by CR LF. -/
theorem BuildICS_data (now : Time) (calName : String) (events : List Event) :
    (BuildICS now calName events).data =
      ((icsLines now calName events).map (fun line => line.data ++ ['\r', '\n'])).flatten := by
  unfold BuildICS
  rw [foldl_lines_data]
  rfl

theorem CRLFText_lines (lines : List String) (h : ∀ l ∈ lines, noLineBreak l.data) :
    CRLFText ((lines.map (fun line => line.data ++ ['\r', '\n'])).flatten) := by
  induction lines with
  | nil => exact CRLFText.nil
  | cons l ls ih =>
    simp only [List.map_cons, List.flatten_cons, List.append_assoc, List.cons_append,
      List.nil_append]
    exact CRLFText_line _ _ (h l (List.mem_cons_self l ls))
      (ih (fun x hx => h x (List.mem_cons_of_mem l hx)))

theorem noLineBreak_tagged (tag value : String) (ht : noLineBreak tag.data)
    (hv : noLineBreak value.data) : noLineBreak (tag ++ value).data := by
  rw [String.data_append]
  exact noLineBreak_append _ _ ht hv

theorem eventLines_noBreak (now : Time) (e : Event) :
    ∀ l ∈ eventLines now e, noLineBreak l.data := by
  intro l hl
  unfold eventLines at hl
  simp only [List.mem_append] at hl
  rcases hl with ((((hA | hB) | hC) | hD) | hE) | hF
  · simp only [List.mem_cons, List.mem_singleton, List.not_mem_nil, or_false] at hA
    rcases hA with hl | hl | hl
    · rw [hl]; decide
    · rw [hl]; exact noLineBreak_tagged _ _ (by decide) (escapeText_noBreak _)
    · rw [hl]; exact noLineBreak_tagged _ _ (by decide) (formatStamp_noBreak _)
  · split_ifs at hB
    · simp only [List.mem_cons, List.mem_singleton, List.not_mem_nil, or_false] at hB
      rcases hB with hl | hl
      · rw [hl]; exact noLineBreak_tagged _ _ (by decide) (formatDate_noBreak _)
      · rw [hl]; exact noLineBreak_tagged _ _ (by decide) (formatDate_noBreak _)
    · simp only [List.mem_cons, List.mem_singleton, List.not_mem_nil, or_false] at hB
      rcases hB with hl | hl
      · rw [hl]; exact noLineBreak_tagged _ _ (by decide) (formatStamp_noBreak _)
      · rw [hl]; exact noLineBreak_tagged _ _ (by decide) (formatStamp_noBreak _)
  · simp only [List.mem_singleton] at hC
    rw [hC]; exact noLineBreak_tagged _ _ (by decide) (escapeText_noBreak _)
  · split_ifs at hD
    · simp only [List.mem_singleton] at hD
      rw [hD]; exact noLineBreak_tagged _ _ (by decide) (escapeText_noBreak _)
    · simp at hD
  · split_ifs at hE
    · simp only [List.mem_singleton] at hE
      rw [hE]; exact noLineBreak_tagged _ _ (by decide) (escapeText_noBreak _)
    · simp at hE
  · simp only [List.mem_singleton] at hF
    rw [hF]; decide

theorem icsLines_noBreak (now : Time) (calName : String) (events : List Event) :
    ∀ l ∈ icsLines now calName events, noLineBreak l.data := by
  intro l hl
  unfold icsLines at hl
  simp only [List.mem_append] at hl
  rcases hl with (((hA | hB) | hC) | hD) | hE
  · simp only [List.mem_cons, List.mem_singleton, List.not_mem_nil, or_false] at hA
    rcases hA with hl | hl | hl
    · rw [hl]; decide
    · rw [hl]; decide
    · rw [hl]; decide
  · split_ifs at hB
    · simp only [List.mem_singleton] at hB
      rw [hB]; exact noLineBreak_tagged _ _ (by decide) (escapeText_noBreak _)
    · simp at hB
  · simp only [List.mem_singleton] at hC
    rw [hC]; decide
  · simp only [List.mem_flatten, List.mem_map] at hD
    obtain ⟨ls, ⟨e, _, rfl⟩, hl'⟩ := hD
    exact eventLines_noBreak now e l hl'
  · simp only [List.mem_singleton] at hE
    rw [hE]; decide

/-- Claim C19. In the string returned by `BuildICS`, for every calendar name and every
list of events, every CR is followed by an LF, every LF is preceded by a CR, and the
string ends with `END:VCALENDAR` followed by CR LF. -/
theorem BuildICS_line_breaks (now : Time) (calName : String) (events : List Event) :
    (∀ i, (BuildICS now calName events).data[i]? = some '\r' →
      (BuildICS now calName events).data[i + 1]? = some '\n') ∧
    (∀ i, (BuildICS now calName events).data[i]? = some '\n' →
      ∃ j, i = j + 1 ∧ (BuildICS now calName events).data[j]? = some '\r') ∧
    ("END:VCALENDAR\r\n" : String).data <:+ (BuildICS now calName events).data := by
  have hc : CRLFText (BuildICS now calName events).data := by
    rw [BuildICS_data]
    exact CRLFText_lines _ (icsLines_noBreak now calName events)
  refine ⟨CRLFText_cr _ hc, CRLFText_lf _ hc, ?_⟩
  rw [BuildICS_data]
  unfold icsLines
  simp only [List.map_append, List.flatten_append, List.map_cons, List.map_nil,
    List.flatten_cons, List.flatten_nil, List.append_nil]
  exact List.suffix_append _ _

/-! ## Calendar export: all-day events -/

theorem not_prefix_of_getElem (p l : List Char) (i : Nat) (c d : Char) (hp : p[i]? = some c)
    (hl : l[i]? = some d) (hne : c ≠ d) : ¬ p <+: l := by
  rintro ⟨t, rfl⟩
  have hi : i < p.length := by
    by_contra hge
    rw [List.getElem?_eq_none (by omega)] at hp
    cases hp
  rw [List.getElem?_append_left hi, hp] at hl
  exact hne (Option.some.inj hl)

theorem tagged_getElem (tag value : String) (i : Nat) (c : Char) (h : tag.data[i]? = some c) :
    (tag ++ value).data[i]? = some c := by
  have hi : i < tag.data.length := by
    by_contra hge
    rw [List.getElem?_eq_none (by omega)] at h
    cases h
  rw [String.data_append, List.getElem?_append_left hi, h]

/-- A line that `BuildICS` writes for an event is a line of the calendar, followed by
CR LF in the output. -/
theorem eventLine_in_output (now : Time) (calName : String) (events : List Event) (e : Event)
    (he : e ∈ events) (l : String) (hl : l ∈ eventLines now e) :
    l ∈ icsLines now calName events ∧
      (l.data ++ ['\r', '\n']) <:+: (BuildICS now calName events).data := by
  have hmem : l ∈ icsLines now calName events := by
    unfold icsLines
    simp only [List.mem_append, List.mem_flatten, List.mem_map]
    exact Or.inl (Or.inr ⟨eventLines now e, ⟨e, he, rfl⟩, hl⟩)
  refine ⟨hmem, ?_⟩
  rw [BuildICS_data]
  exact List.infix_of_mem_flatten (List.mem_map_of_mem _ hmem)

/-- Claim C20. For an event with `AllDay = true`, `BuildICS` writes the line
`DTSTART;VALUE=DATE:` followed by the `YYYYMMDD` date of `Start` in the location of
`Start`, and the line `DTEND;VALUE=DATE:` followed by the date of `Start.AddDate(0, 0, 1)`
(the next calendar day, at least in a location with a fixed offset); none of the lines
of the event begins with `DTSTART:`; and the field `End` has no influence on the
output. -/
theorem BuildICS_all_day (now : Time) (calName : String) (pre post : List Event) (e : Event)
    (hall : e.AllDay = true) :
    (("DTSTART;VALUE=DATE:" ++ e.Start.formatDate).data ++ ['\r', '\n']) <:+:
        (BuildICS now calName (pre ++ e :: post)).data ∧
    (("DTEND;VALUE=DATE:" ++ (e.Start.AddDays 1).formatDate).data ++ ['\r', '\n']) <:+:
        (BuildICS now calName (pre ++ e :: post)).data ∧
    eventLines now e =
      ["BEGIN:VEVENT", "UID:" ++ escapeText e.UID,
        "DTSTAMP:" ++ (ZonedTime.mk now Location.UTC).formatStamp,
        "DTSTART;VALUE=DATE:" ++ e.Start.formatDate,
        "DTEND;VALUE=DATE:" ++ (e.Start.AddDays 1).formatDate,
        "SUMMARY:" ++ escapeText e.Summary] ++
      (if e.Description ≠ "" then ["DESCRIPTION:" ++ escapeText e.Description] else []) ++
      (if e.URL ≠ "" then ["URL:" ++ escapeText e.URL] else []) ++ ["END:VEVENT"] ∧
    (∀ c : Int, (∀ t, e.Start.loc.offset t = c) →
      (e.Start.AddDays 1).wall / Day = e.Start.wall / Day + 1) ∧
    (∀ l ∈ eventLines now e, ¬ ("DTSTART:" : String).data <+: l.data) ∧
    (∀ t : ZonedTime, BuildICS now calName (pre ++ { e with End := t } :: post) =
      BuildICS now calName (pre ++ e :: post)) := by
  have hlines : eventLines now e =
      ["BEGIN:VEVENT", "UID:" ++ escapeText e.UID,
        "DTSTAMP:" ++ (ZonedTime.mk now Location.UTC).formatStamp,
        "DTSTART;VALUE=DATE:" ++ e.Start.formatDate,
        "DTEND;VALUE=DATE:" ++ (e.Start.AddDays 1).formatDate,
        "SUMMARY:" ++ escapeText e.Summary] ++
      (if e.Description ≠ "" then ["DESCRIPTION:" ++ escapeText e.Description] else []) ++
      (if e.URL ≠ "" then ["URL:" ++ escapeText e.URL] else []) ++ ["END:VEVENT"] := by
    unfold eventLines
    simp only [hall, if_true, List.cons_append, List.nil_append, List.append_assoc]
  have he : e ∈ pre ++ e :: post := by simp
  refine ⟨?_, ?_, hlines, ?_, ?_, ?_⟩
  · exact (eventLine_in_output now calName _ e he _ (by rw [hlines]; simp)).2
  · exact (eventLine_in_output now calName _ e he _ (by rw [hlines]; simp)).2
  · intro c hc
    have hday : Day ≠ 0 := by decide
    simp only [ZonedTime.AddDays, ZonedTime.wall, Location.fromWall, hc]
    rw [show e.Start.instant + c + 1 * Day - c + c = e.Start.instant + c + 1 * Day by ring]
    exact Int.add_mul_ediv_right _ _ hday
  · intro l hl
    rw [hlines] at hl
    simp only [List.mem_append] at hl
    rcases hl with ((hA | hD) | hU) | hF
    · simp only [List.mem_cons, List.mem_singleton, List.not_mem_nil, or_false] at hA
      rcases hA with h | h | h | h | h | h
      · rw [h]; exact not_prefix_of_getElem _ _ 0 'D' 'B' (by decide) (by decide) (by decide)
      · rw [h]
        exact not_prefix_of_getElem _ _ 0 'D' 'U' (by decide)
          (tagged_getElem _ _ 0 'U' (by decide)) (by decide)
      · rw [h]
        exact not_prefix_of_getElem _ _ 5 'R' 'M' (by decide)
          (tagged_getElem _ _ 5 'M' (by decide)) (by decide)
      · rw [h]
        exact not_prefix_of_getElem _ _ 7 ':' ';' (by decide)
          (tagged_getElem _ _ 7 ';' (by decide)) (by decide)
      · rw [h]
        exact not_prefix_of_getElem _ _ 2 'S' 'E' (by decide)
          (tagged_getElem _ _ 2 'E' (by decide)) (by decide)
      · rw [h]
        exact not_prefix_of_getElem _ _ 0 'D' 'S' (by decide)
          (tagged_getElem _ _ 0 'S' (by decide)) (by decide)
    · split_ifs at hD
      · simp only [List.mem_singleton] at hD
        rw [hD]
        exact not_prefix_of_getElem _ _ 1 'T' 'E' (by decide)
          (tagged_getElem _ _ 1 'E' (by decide)) (by decide)
      · simp at hD
    · split_ifs at hU
      · simp only [List.mem_singleton] at hU
        rw [hU]
        exact not_prefix_of_getElem _ _ 0 'D' 'U' (by decide)
          (tagged_getElem _ _ 0 'U' (by decide)) (by decide)
      · simp at hU
    · simp only [List.mem_singleton] at hF
      rw [hF]; exact not_prefix_of_getElem _ _ 0 'D' 'E' (by decide) (by decide) (by decide)
  · intro t
    have hsame : eventLines now { e with End := t } = eventLines now e := by
      unfold eventLines
      simp only [hall, if_true]
    unfold BuildICS icsLines
    simp only [List.map_append, List.map_cons, hsame]

theorem BuildICS_all_day_witness :
    (("DTSTART;VALUE=DATE:20260208" : String).data ++ ['\r', '\n']) <:+:
        (BuildICS 0 "PrepTracker" [sampleEvent]).data ∧
    (("DTEND;VALUE=DATE:20260209" : String).data ++ ['\r', '\n']) <:+:
        (BuildICS 0 "PrepTracker" [sampleEvent]).data ∧
    (sampleEvent.Start.AddDays 1).wall / Day = sampleEvent.Start.wall / Day + 1 ∧
    (∀ l ∈ eventLines 0 sampleEvent, ¬ ("DTSTART:" : String).data <+: l.data) ∧
    BuildICS 0 "PrepTracker" [{ sampleEvent with End := sampleEvent.Start }] =
      BuildICS 0 "PrepTracker" [sampleEvent] :=
  have h := BuildICS_all_day 0 "PrepTracker" [] [] sampleEvent rfl
  have hs : ("DTSTART;VALUE=DATE:" ++ sampleEvent.Start.formatDate : String) =
      "DTSTART;VALUE=DATE:20260208" := by decide!
  have hd : ("DTEND;VALUE=DATE:" ++ (sampleEvent.Start.AddDays 1).formatDate : String) =
      "DTEND;VALUE=DATE:20260209" := by decide!
  ⟨hs ▸ h.1, hd ▸ h.2.1, h.2.2.2.1 0 (fun _ => rfl), h.2.2.2.2.1,
    h.2.2.2.2.2 sampleEvent.Start⟩

/-! ## The scheduler: interval floor, repetitions, anchoring -/

section SchedulerFacts

variable {F : Type} [LinearOrderedField F] [FloorRing F]

/-- The interval that `scheduler.Update` returns is at least `min_interval_days`. -/
theorem scheduler_interval_floor (k : scheduler.Constants F) (st : scheduler.State F)
    (grade : Int) (now : Time) (loc : Location) (minIntervalDays dueHourLocal dueMinuteLocal : Int) :
    minIntervalDays ≤
      (scheduler.Update k st grade now loc minIntervalDays dueHourLocal
        dueMinuteLocal).State.IntervalDays := by
  unfold scheduler.Update
  by_cases h : grade ≤ 1
  · simp only [h, if_true]
    exact le_refl _
  · simp only [h, if_false]
    exact le_max_right _ _

/-- Claim C15. For every memory state, every grade in `[0,4]`, every review instant and
all settings with `min_interval_days ≥ 1`, the interval returned by `scheduler.Update`
is at least `min_interval_days`; after a lapse (grade `≤ 1`) it is exactly
`min_interval_days`. -/
theorem scheduler_Update_interval_floor (k : scheduler.Constants F) (st : scheduler.State F)
    (grade : Int) (now : Time) (loc : Location) (minIntervalDays dueHourLocal dueMinuteLocal : Int)
    (_hg0 : 0 ≤ grade) (_hg4 : grade ≤ 4) (_hmin : 1 ≤ minIntervalDays) :
    minIntervalDays ≤
        (scheduler.Update k st grade now loc minIntervalDays dueHourLocal
          dueMinuteLocal).State.IntervalDays ∧
      (grade ≤ 1 →
        (scheduler.Update k st grade now loc minIntervalDays dueHourLocal
          dueMinuteLocal).State.IntervalDays = minIntervalDays) := by
  refine ⟨scheduler_interval_floor k st grade now loc _ _ _, ?_⟩
  intro h
  unfold scheduler.Update
  simp only [h, if_true]

theorem scheduler_Update_interval_floor_witness :
    (7 : Int) ≤
        (scheduler.Update sampleConstants { Reps := 2, IntervalDays := 3, Ease := 5 / 2 } 1 0
          Location.UTC 7 9 0).State.IntervalDays ∧
      ((1 : Int) ≤ 1 →
        (scheduler.Update sampleConstants { Reps := 2, IntervalDays := 3, Ease := 5 / 2 } 1 0
          Location.UTC 7 9 0).State.IntervalDays = 7) :=
  scheduler_Update_interval_floor sampleConstants { Reps := 2, IntervalDays := 3, Ease := 5 / 2 }
    1 0 Location.UTC 7 9 0 (by decide) (by decide) (by decide)

/-- Claim C16. For every memory state with `reps = k ≥ 0` and every grade in `[0,4]`,
`scheduler.Update` returns `reps' = 0` when the grade is at most 1 and `reps' = k + 1`
when the grade is at least 2. -/
theorem scheduler_Update_reps (k : scheduler.Constants F) (st : scheduler.State F)
    (grade : Int) (now : Time) (loc : Location) (minIntervalDays dueHourLocal dueMinuteLocal : Int)
    (_hreps : 0 ≤ st.Reps) (_hg0 : 0 ≤ grade) (_hg4 : grade ≤ 4) :
    (grade ≤ 1 →
      (scheduler.Update k st grade now loc minIntervalDays dueHourLocal
        dueMinuteLocal).State.Reps = 0) ∧
    (2 ≤ grade →
      (scheduler.Update k st grade now loc minIntervalDays dueHourLocal
        dueMinuteLocal).State.Reps = st.Reps + 1) := by
  constructor
  · intro h
    unfold scheduler.Update
    simp only [h, if_true]
  · intro h
    have h' : ¬ grade ≤ 1 := by omega
    unfold scheduler.Update
    simp only [h', if_false]

theorem scheduler_Update_reps_witness :
    (scheduler.Update sampleConstants { Reps := 2, IntervalDays := 3, Ease := 5 / 2 } 1 0
        Location.UTC 7 9 0).State.Reps = 0 ∧
      (scheduler.Update sampleConstants { Reps := 2, IntervalDays := 3, Ease := 5 / 2 } 3 0
        Location.UTC 7 9 0).State.Reps = 2 + 1 :=
  ⟨(scheduler_Update_reps sampleConstants { Reps := 2, IntervalDays := 3, Ease := 5 / 2 } 1 0
      Location.UTC 7 9 0 (by decide) (by decide) (by decide)).1 (by decide),
    (scheduler_Update_reps sampleConstants { Reps := 2, IntervalDays := 3, Ease := 5 / 2 } 3 0
      Location.UTC 7 9 0 (by decide) (by decide) (by decide)).2 (by decide)⟩

/-- The arithmetic of anchoring, for an offset `c` of at most a day: the anchored wall
reading is within two days of `t`, it shows the hour and the minute asked for, and the
anchored instant is less than a day before `t`. -/
theorem anchor_arith (t c hour minute : Int) (hh0 : 0 ≤ hour) (hh : hour ≤ 23)
    (hm0 : 0 ≤ minute) (hm : minute ≤ 59) (hc1 : -86400000000000 ≤ c)
    (hc2 : c ≤ 86400000000000) :
    (t - 2 * 86400000000000 ≤ t ∧ t ≤ t + 2 * 86400000000000) ∧
    (t - 2 * 86400000000000 ≤
        (t + c) / 86400000000000 * 86400000000000 + hour * 3600000000000 +
          minute * 60000000000 ∧
      (t + c) / 86400000000000 * 86400000000000 + hour * 3600000000000 +
          minute * 60000000000 ≤ t + 2 * 86400000000000) ∧
    (t - 2 * 86400000000000 ≤
        (t + c) / 86400000000000 * 86400000000000 + hour * 3600000000000 +
          minute * 60000000000 - c ∧
      (t + c) / 86400000000000 * 86400000000000 + hour * 3600000000000 +
          minute * 60000000000 - c ≤ t + 2 * 86400000000000) ∧
    ((t + c) / 86400000000000 * 86400000000000 + hour * 3600000000000 +
        minute * 60000000000 - c + c) % 86400000000000 / 3600000000000 = hour ∧
    ((t + c) / 86400000000000 * 86400000000000 + hour * 3600000000000 +
        minute * 60000000000 - c + c) % 3600000000000 / 60000000000 = minute ∧
    t - 86400000000000 <
      (t + c) / 86400000000000 * 86400000000000 + hour * 3600000000000 +
        minute * 60000000000 - c := by
  refine ⟨⟨by omega, by omega⟩, ⟨by omega, by omega⟩, ⟨by omega, by omega⟩, by omega, by omega,
    by omega⟩

/-- Anchoring where the offset of the location does not change: within two days of the
anchored instant `t` the offset is `c`. -/
theorem AnchorLocalDay_fixed_offset (t : Time) (loc : Location) (hour minute c : Int)
    (hh0 : 0 ≤ hour) (hh : hour ≤ 23) (hm0 : 0 ≤ minute) (hm : minute ≤ 59)
    (hc : -Day ≤ c ∧ c ≤ Day)
    (hoff : ∀ u, t - 2 * Day ≤ u → u ≤ t + 2 * Day → loc.offset u = c) :
    localHour loc (scheduler.AnchorLocalDay t loc hour minute) = hour ∧
      localMinute loc (scheduler.AnchorLocalDay t loc hour minute) = minute ∧
      t - Day < scheduler.AnchorLocalDay t loc hour minute := by
  have hDay : Day = 86400000000000 := by decide
  have hHour : Hour = 3600000000000 := by decide
  have hMin : Minute = 60000000000 := by decide
  rw [hDay] at hc hoff
  obtain ⟨hA, hB, hC, hD, hE, hF⟩ := anchor_arith t c hour minute hh0 hh hm0 hm hc.1 hc.2
  have ht : loc.offset t = c := hoff t hA.1 hA.2
  have hw : loc.offset ((t + c) / 86400000000000 * 86400000000000 + hour * 3600000000000 +
      minute * 60000000000) = c := hoff _ hB.1 hB.2
  have hw' : loc.offset ((t + c) / 86400000000000 * 86400000000000 + hour * 3600000000000 +
      minute * 60000000000 - c) = c := hoff _ hC.1 hC.2
  unfold localHour localMinute scheduler.AnchorLocalDay Location.fromWall
  simp only [ht, hDay, hHour, hMin, hw, hw']
  exact ⟨hD, hE, hF⟩

/-- The model of `scheduler.Update` at a change of offset, `reviewInstant + n days`
being `n` times 24 hours after the review instant.  In a zone whose clock is set back,
a lapse reviewed at 00:30 local time of the 25-hour day, with `min_interval_days = 1`
and the due time 00:00, gets a `due_at` at 00:00 of the same local day, half an hour
before the review instant.  In a zone whose clock is set forward from 02:00 to 03:00,
the due time 02:30 does not exist on the day of the change, and `due_at` shows 01:30
there. -/
theorem scheduler_Update_due_at_offset_change :
    (scheduler.Update sampleConstants { Reps := 1, IntervalDays := 1, Ease := 5 / 2 } 0
        (4 * Hour + 30 * Minute) fallBackZone 1 0 0).DueAt = 4 * Hour ∧
      ¬ (4 * Hour + 30 * Minute <
        (scheduler.Update sampleConstants { Reps := 1, IntervalDays := 1, Ease := 5 / 2 } 0
          (4 * Hour + 30 * Minute) fallBackZone 1 0 0).DueAt) ∧
      localHour springForwardZone
        (scheduler.Update sampleConstants { Reps := 1, IntervalDays := 1, Ease := 5 / 2 } 0
          (-(10 * Hour)) springForwardZone 1 2 30).DueAt = 1 := by
  decide!

/-- The `due_at` of the model of `scheduler.Update` is
`anchorLocalDay(reviewInstant + interval_days' days, timezone, due_hour_local,
due_minute_local)`.  When `min_interval_days ≥ 1`, the due time is a time of day, and
the offset of the timezone does not change within two days of
`reviewInstant + interval_days' days`, this `due_at` shows the hour and the minute
`(due_hour_local, due_minute_local)` in the timezone and is strictly later than the
review instant. -/
theorem scheduler_Update_due_at (k : scheduler.Constants F) (st : scheduler.State F)
    (grade : Int) (now : Time) (loc : Location) (minIntervalDays dueHourLocal dueMinuteLocal : Int)
    (r : scheduler.Result F)
    (hr : r = scheduler.Update k st grade now loc minIntervalDays dueHourLocal dueMinuteLocal) :
    r.DueAt = scheduler.AnchorLocalDay (now + r.State.IntervalDays * Day) loc dueHourLocal
        dueMinuteLocal ∧
      (∀ c : Int, 1 ≤ minIntervalDays → 0 ≤ dueHourLocal → dueHourLocal ≤ 23 →
        0 ≤ dueMinuteLocal → dueMinuteLocal ≤ 59 → -Day ≤ c ∧ c ≤ Day →
        (∀ u, now + r.State.IntervalDays * Day - 2 * Day ≤ u →
          u ≤ now + r.State.IntervalDays * Day + 2 * Day → loc.offset u = c) →
        localHour loc r.DueAt = dueHourLocal ∧ localMinute loc r.DueAt = dueMinuteLocal ∧
          now < r.DueAt) := by
  have hdue : r.DueAt = scheduler.AnchorLocalDay (now + r.State.IntervalDays * Day) loc
      dueHourLocal dueMinuteLocal := by
    rw [hr]
    rfl
  refine ⟨hdue, ?_⟩
  intro c hmin hh0 hh hm0 hm hc hoff
  obtain ⟨h1, h2, h3⟩ := AnchorLocalDay_fixed_offset (now + r.State.IntervalDays * Day) loc
    dueHourLocal dueMinuteLocal c hh0 hh hm0 hm hc hoff
  rw [← hdue] at h1 h2 h3
  refine ⟨h1, h2, ?_⟩
  have hn : minIntervalDays ≤ r.State.IntervalDays := by
    rw [hr]
    exact scheduler_interval_floor k st grade now loc _ _ _
  have hDay : Day = 86400000000000 := by decide
  rw [hDay] at h3
  have key : ∀ a n d m : Int, a + n * 86400000000000 - 86400000000000 < d → m ≤ n → 1 ≤ m →
      a < d := by
    intro a n d m h1 h2 h3
    omega
  exact key now r.State.IntervalDays r.DueAt minIntervalDays h3 hn hmin

theorem scheduler_Update_due_at_witness :
    localHour Location.UTC
        (scheduler.Update sampleConstants { Reps := 0, IntervalDays := 1, Ease := 5 / 2 } 3 0
          Location.UTC 1 9 0).DueAt = 9 ∧
      localMinute Location.UTC
        (scheduler.Update sampleConstants { Reps := 0, IntervalDays := 1, Ease := 5 / 2 } 3 0
          Location.UTC 1 9 0).DueAt = 0 ∧
      (0 : Time) <
        (scheduler.Update sampleConstants { Reps := 0, IntervalDays := 1, Ease := 5 / 2 } 3 0
          Location.UTC 1 9 0).DueAt :=
  (scheduler_Update_due_at sampleConstants { Reps := 0, IntervalDays := 1, Ease := 5 / 2 } 3 0
    Location.UTC 1 9 0 _ rfl).2 0 (by decide) (by decide) (by decide) (by decide) (by decide)
    (by decide) (fun _ _ _ => rfl)

end SchedulerFacts

/-! ## Handlers: grade validation -/

theorem validateResults_none (rs : List submitResult) (h : validateResults rs = none) :
    ∀ r ∈ rs, 0 ≤ r.Grade ∧ r.Grade ≤ 4 := by
  induction rs with
  | nil => intro r hr; simp at hr
  | cons a rest ih =>
    unfold validateResults at h
    split_ifs at h with h1 h2 h3
    intro r hr
    rcases List.mem_cons.1 hr with e | hr
    · subst e
      constructor <;> omega
    · exact ih h r hr

theorem Post_updates {F : Type} (env : PostEnv F) (c : UpdateCall F)
    (hc : c ∈ (reviews.Post env).updates) :
    (0 ≤ c.grade ∧ c.grade ≤ 4) ∧
      ∃ req s, env.body = some req ∧ env.settings = some s ∧ c.grade = req.Grade ∧
        c.loc = resolveLocation env.loadLocation s.Timezone ∧
        c.minIntervalDays = s.MinIntervalDays ∧ c.dueHourLocal = s.DueHourLocal ∧
        c.dueMinuteLocal = s.DueMinuteLocal := by
  unfold reviews.Post at hc
  split at hc
  · simp at hc
  split at hc
  · simp at hc
  split at hc
  · simp at hc
  rename_i req hreq
  split at hc
  · simp at hc
  split at hc
  · simp at hc
  rename_i hg
  split at hc
  · simp at hc
  split at hc
  · simp at hc
  rename_i s hs
  simp only at hc
  split at hc
  · simp at hc
  split at hc
  · simp at hc
  split at hc
  · simp at hc
  split at hc
  · simp at hc
  have hcall : c.grade = req.Grade ∧ c.loc = resolveLocation env.loadLocation s.Timezone ∧
      c.minIntervalDays = s.MinIntervalDays ∧ c.dueHourLocal = s.DueHourLocal ∧
      c.dueMinuteLocal = s.DueMinuteLocal := by
    split_ifs at hc <;> simp at hc <;> subst hc <;> simp
  refine ⟨?_, req, s, hreq, hs, hcall⟩
  rw [hcall.1]
  constructor <;> omega

theorem validateResults_bad (rs : List submitResult)
    (h : ∃ r ∈ rs, r.Grade < 0 ∨ r.Grade > 4) : ∃ msg, validateResults rs = some msg := by
  cases hv : validateResults rs with
  | some msg => exact ⟨msg, rfl⟩
  | none =>
    obtain ⟨r, hr, hbad⟩ := h
    have := validateResults_none rs hv r hr
    omega

theorem submitLoop_updates {F : Type} (env : SubmitEnv F) (s : Settings) (loc : Location)
    (rs : List submitResult) :
    ∀ (i : Nat) (calls : List (UpdateCall F)) (c : UpdateCall F),
      c ∈ (submitLoop env s loc rs i calls).updates →
      c ∈ calls ∨ ((∃ r ∈ rs, c.grade = r.Grade) ∧ c.loc = loc ∧
        c.minIntervalDays = s.MinIntervalDays ∧ c.dueHourLocal = s.DueHourLocal ∧
        c.dueMinuteLocal = s.DueMinuteLocal) := by
  induction rs with
  | nil =>
    intro i calls c hc
    unfold submitLoop at hc
    split_ifs at hc <;> exact Or.inl hc
  | cons a rest ih =>
    intro i calls c hc
    unfold submitLoop at hc
    split at hc
    · exact Or.inl hc
    split at hc
    · exact Or.inl hc
    split at hc
    · exact Or.inl hc
    simp only at hc
    have hnew : ∀ k : UpdateCall F, k.grade = a.Grade → k.loc = loc →
        k.minIntervalDays = s.MinIntervalDays → k.dueHourLocal = s.DueHourLocal →
        k.dueMinuteLocal = s.DueMinuteLocal → c ∈ calls ++ [k] →
        c ∈ calls ∨ ((∃ r ∈ a :: rest, c.grade = r.Grade) ∧ c.loc = loc ∧
          c.minIntervalDays = s.MinIntervalDays ∧ c.dueHourLocal = s.DueHourLocal ∧
          c.dueMinuteLocal = s.DueMinuteLocal) := by
      intro k h1 h2 h3 h4 h5 h
      rcases List.mem_append.1 h with h | h
      · exact Or.inl h
      · right
        simp only [List.mem_singleton] at h
        subst h
        exact ⟨⟨a, List.mem_cons_self _ _, h1⟩, h2, h3, h4, h5⟩
    split at hc
    · exact hnew _ rfl rfl rfl rfl rfl hc
    · rcases ih _ _ c hc with h | ⟨⟨r, hr, hg⟩, hrest⟩
      · exact hnew _ rfl rfl rfl rfl rfl h
      · exact Or.inr ⟨⟨r, List.mem_cons_of_mem _ hr, hg⟩, hrest⟩

theorem SubmitResults_updates {F : Type} (env : SubmitEnv F) (c : UpdateCall F)
    (hc : c ∈ (contests.SubmitResults env).updates) :
    (0 ≤ c.grade ∧ c.grade ≤ 4) ∧
      ∃ rs s, env.body = some rs ∧ env.settings = some s ∧ (∃ r ∈ rs, c.grade = r.Grade) ∧
        c.loc = resolveLocation env.loadLocation s.Timezone ∧
        c.minIntervalDays = s.MinIntervalDays ∧ c.dueHourLocal = s.DueHourLocal ∧
        c.dueMinuteLocal = s.DueMinuteLocal := by
  unfold contests.SubmitResults at hc
  split at hc
  · simp at hc
  split at hc
  · simp at hc
  split at hc
  · simp at hc
  split at hc
  · simp at hc
  rename_i rs hrs
  split at hc
  · simp at hc
  rename_i hv
  split at hc
  · simp at hc
  rename_i s hs
  simp only at hc
  split at hc
  · simp at hc
  split at hc
  · simp at hc
  rcases submitLoop_updates env s _ rs 0 [] c hc with h | ⟨⟨r, hr, hg⟩, hrest⟩
  · simp at h
  · refine ⟨?_, rs, s, hrs, hs, ⟨r, hr, hg⟩, hrest⟩
    rw [hg]
    exact validateResults_none rs hv r hr

theorem Create_updates {F : Type} (env : CreateEnv F) (c : UpdateCall F)
    (hc : c ∈ (problems.Create env).updates) :
    (0 ≤ c.grade ∧ c.grade ≤ 4) ∧
      ∃ req initial s, env.body = some req ∧ req.Initial = some initial ∧
        env.settings = some s ∧ c.grade = initial.Grade ∧
        c.loc = resolveLocation env.loadLocation s.Timezone ∧
        c.minIntervalDays = s.MinIntervalDays ∧ c.dueHourLocal = s.DueHourLocal ∧
        c.dueMinuteLocal = s.DueMinuteLocal := by
  unfold problems.Create at hc
  split at hc
  · simp at hc
  split at hc
  · simp at hc
  split at hc
  · simp at hc
  rename_i req hreq
  split at hc
  · simp at hc
  split at hc
  · simp at hc
  rename_i s hs
  simp only at hc
  split at hc
  · simp at hc
  split at hc
  · split_ifs at hc <;> simp at hc
  · simp at hc
  split at hc
  · split_ifs at hc <;> simp at hc
  · simp at hc
  split at hc
  · split_ifs at hc <;> simp at hc
  rename_i initial hini
  split at hc
  · simp at hc
  rename_i hg
  split at hc
  · simp at hc
  split at hc
  · simp at hc
  split at hc
  · simp at hc
  split at hc
  · simp at hc
  have hcall : c.grade = initial.Grade ∧
      c.loc = resolveLocation env.loadLocation s.Timezone ∧
      c.minIntervalDays = s.MinIntervalDays ∧ c.dueHourLocal = s.DueHourLocal ∧
      c.dueMinuteLocal = s.DueMinuteLocal := by
    split_ifs at hc <;> simp at hc <;> subst hc <;> simp
  refine ⟨?_, req, initial, s, hreq, hini, hs, hcall⟩
  rw [hcall.1]
  constructor <;> omega

theorem Post_status_loadLocation {F : Type} (env : PostEnv F) (f : String → Option Location) :
    (reviews.Post { env with loadLocation := f }).status = (reviews.Post env).status := by
  unfold reviews.Post
  simp only []
  split
  · rfl
  split
  · rfl
  split
  · rfl
  split
  · rfl
  split
  · rfl
  split
  · rfl
  split
  · rfl
  split
  · rename_i h
    rw [h]
  rename_i h
  rw [h]
  simp only []
  split
  · rfl
  split
  · rfl
  split
  · rfl
  split_ifs <;> rfl

theorem submitLoop_status {F : Type} (env : SubmitEnv F) (f : String → Option Location)
    (s : Settings) (rs : List submitResult) :
    ∀ (i : Nat) (loc loc2 : Location) (calls calls2 : List (UpdateCall F)),
      (submitLoop { env with loadLocation := f } s loc rs i calls).status =
        (submitLoop env s loc2 rs i calls2).status := by
  induction rs with
  | nil =>
    intro i loc loc2 calls calls2
    unfold submitLoop
    simp only []
    split_ifs <;> rfl
  | cons a rest ih =>
    intro i loc loc2 calls calls2
    unfold submitLoop
    simp only []
    split
    · rfl
    split
    · rfl
    split
    · rfl
    split
    · rfl
    · exact ih _ _ _ _ _

theorem SubmitResults_status_loadLocation {F : Type} (env : SubmitEnv F)
    (f : String → Option Location) :
    (contests.SubmitResults { env with loadLocation := f }).status =
      (contests.SubmitResults env).status := by
  unfold contests.SubmitResults
  simp only []
  split
  · rfl
  split
  · rfl
  split
  · rfl
  split
  · rfl
  split
  · rfl
  split
  · rfl
  split
  · rfl
  split
  · rfl
  exact submitLoop_status env f _ _ _ _ _ _ _

theorem Create_status_loadLocation {F : Type} (env : CreateEnv F)
    (f : String → Option Location) :
    (problems.Create { env with loadLocation := f }).status = (problems.Create env).status := by
  unfold problems.Create
  simp only []
  split
  · rfl
  split
  · rfl
  split
  · rfl
  split
  · rfl
  split
  · rfl
  split
  · rfl
  split
  · split_ifs <;> rfl
  · rfl
  split
  · split_ifs <;> rfl
  · rfl
  split
  · split_ifs <;> rfl
  split
  · rfl
  split
  · rfl
  split
  · rename_i h
    rw [h]
  rename_i h
  rw [h]
  simp only []
  split
  · rfl
  split
  · rfl
  split_ifs <;> rfl

theorem Post_bad_grade_status {F : Type} (env : PostEnv F) (req : postReviewRequest)
    (hm : env.methodIsPost = true) (hu : env.userID.isSome = true)
    (hb : env.body = some req) (hg : req.Grade < 0 ∨ req.Grade > 4) :
    (reviews.Post env).status = 400 := by
  obtain ⟨u, hu⟩ := Option.isSome_iff_exists.1 hu
  unfold reviews.Post
  simp only [hm, hu, hb, hg]
  split_ifs <;> first | rfl | simp_all

theorem SubmitResults_bad_grade_status {F : Type} (env : SubmitEnv F)
    (rs : List submitResult) (hm : env.methodIsPost = true) (hu : env.userID.isSome = true)
    (hb : env.body = some rs) (hg : ∃ r ∈ rs, r.Grade < 0 ∨ r.Grade > 4) :
    (contests.SubmitResults env).status = 400 := by
  obtain ⟨u, hu⟩ := Option.isSome_iff_exists.1 hu
  obtain ⟨msg, hv⟩ := validateResults_bad rs hg
  unfold contests.SubmitResults
  simp only [hm, hu, hb, hv]
  split_ifs <;> first | rfl | simp_all

theorem Create_bad_grade_status {F : Type} (env : CreateEnv F) (req : createRequest)
    (initial : initialReview) (hm : env.methodIsPost = true)
    (hu : env.userID.isSome = true) (hb : env.body = some req)
    (hi : req.Initial = some initial) (hg : initial.Grade < 0 ∨ initial.Grade > 4)
    (hs : env.settings.isSome = true) (hbegin : env.beginOk = true)
    (hcreate : env.createOrGetError = none) (hensure : env.ensureStateError = none) :
    (problems.Create env).status = 400 := by
  obtain ⟨u, hu⟩ := Option.isSome_iff_exists.1 hu
  obtain ⟨s, hs⟩ := Option.isSome_iff_exists.1 hs
  unfold problems.Create
  simp only [hm, hu, hb, hs, hbegin, hcreate, hensure, hi, hg]
  split_ifs <;> first | rfl | simp_all

/-- Claim C12, as the text has it, fails for problems `Handler.Create`: an authenticated
POST whose `initial_review.grade` is 9 is answered with 500, not 400, when loading the
user settings fails, because `Create` checks the grade only after the settings are
loaded, the transaction is begun and the problem and its state are written. No
`scheduler.Update` call is made. -/
theorem Create_bad_grade_counterexample :
    (∃ req initial, (sampleCreateEnv 9 none).body = some req ∧
        req.Initial = some initial ∧ initial.Grade > 4) ∧
      (problems.Create (sampleCreateEnv 9 none)).status = 500 ∧
      (problems.Create (sampleCreateEnv 9 none)).updates.length = 0 :=
  ⟨⟨_, _, rfl, rfl, by decide⟩, rfl, rfl⟩

/-- Claim C12, amended. In reviews `Handler.Post`, contests `Handler.SubmitResults` and
problems `Handler.Create`, every `scheduler.Update` call has a grade between 0 and 4, and
a decoded request that carries a grade outside that range (in `SubmitResults`: in any one
of its results) makes no `scheduler.Update` call. Such a request is answered with 400 by
`Post` and `SubmitResults` as soon as the method is POST and the user is authenticated,
and by `Create` when, in addition, the settings load, the start of the transaction,
`CreateOrGetTx` and `EnsureUserStateTx` succeed. -/
theorem handlers_validate_grade {F : Type} (pe : PostEnv F) (se : SubmitEnv F)
    (ce : CreateEnv F) :
    (∀ c, c ∈ (reviews.Post pe).updates ∨ c ∈ (contests.SubmitResults se).updates ∨
        c ∈ (problems.Create ce).updates → 0 ≤ c.grade ∧ c.grade ≤ 4) ∧
      (∀ req, pe.body = some req → req.Grade < 0 ∨ req.Grade > 4 →
        (reviews.Post pe).updates = [] ∧
          (pe.methodIsPost = true → pe.userID.isSome = true →
            (reviews.Post pe).status = 400)) ∧
      (∀ rs, se.body = some rs → (∃ r ∈ rs, r.Grade < 0 ∨ r.Grade > 4) →
        (contests.SubmitResults se).updates = [] ∧
          (se.methodIsPost = true → se.userID.isSome = true →
            (contests.SubmitResults se).status = 400)) ∧
      (∀ req initial, ce.body = some req → req.Initial = some initial →
        initial.Grade < 0 ∨ initial.Grade > 4 →
        (problems.Create ce).updates = [] ∧
          (ce.methodIsPost = true → ce.userID.isSome = true → ce.settings.isSome = true →
            ce.beginOk = true → ce.createOrGetError = none → ce.ensureStateError = none →
            (problems.Create ce).status = 400)) := by
  refine ⟨?_, ?_, ?_, ?_⟩
  · rintro c (hc | hc | hc)
    · exact (Post_updates pe c hc).1
    · exact (SubmitResults_updates se c hc).1
    · exact (Create_updates ce c hc).1
  · intro req hb hg
    refine ⟨List.eq_nil_iff_forall_not_mem.2 fun c hc => ?_,
      fun hm hu => Post_bad_grade_status pe req hm hu hb hg⟩
    obtain ⟨hr, req2, s, hb2, -, hgr, -⟩ := Post_updates pe c hc
    rw [hb] at hb2
    cases hb2
    omega
  · intro rs hb hg
    refine ⟨List.eq_nil_iff_forall_not_mem.2 fun c hc => ?_,
      fun hm hu => SubmitResults_bad_grade_status se rs hm hu hb hg⟩
    unfold contests.SubmitResults at hc
    obtain ⟨msg, hv⟩ := validateResults_bad rs hg
    simp only [hb, hv] at hc
    split_ifs at hc <;> first | (split at hc <;> simp_all) | simp_all
  · intro req initial hb hi hg
    refine ⟨List.eq_nil_iff_forall_not_mem.2 fun c hc => ?_,
      fun hm hu hs hbegin hcreate hensure =>
        Create_bad_grade_status ce req initial hm hu hb hi hg hs hbegin hcreate hensure⟩
    obtain ⟨hr, req2, initial2, s, hb2, hi2, -, hgr, -⟩ := Create_updates ce c hc
    rw [hb] at hb2
    cases hb2
    rw [hi] at hi2
    cases hi2
    omega

/-- Claim C12, amended, on sample requests: a review with grade 3 reaches
`scheduler.Update` once, with grade 3; a review with grade 5, contest results with the
grades 3 and 7, and a new problem with an initial grade 9 are answered with 400 and
reach no `scheduler.Update`. -/
theorem handlers_validate_grade_witness :
    (reviews.Post (samplePostEnv 3)).updates.length = 1 ∧
      (∀ c ∈ (reviews.Post (samplePostEnv 3)).updates, 0 ≤ c.grade ∧ c.grade ≤ 4) ∧
      ((reviews.Post (samplePostEnv 5)).updates = [] ∧
        (reviews.Post (samplePostEnv 5)).status = 400) ∧
      ((contests.SubmitResults (sampleSubmitEnv 3 7)).updates = [] ∧
        (contests.SubmitResults (sampleSubmitEnv 3 7)).status = 400) ∧
      ((problems.Create (sampleCreateEnv 9 (some sampleSettings))).updates = [] ∧
        (problems.Create (sampleCreateEnv 9 (some sampleSettings))).status = 400) :=
  have good := handlers_validate_grade (samplePostEnv 3) (sampleSubmitEnv 3 7)
    (sampleCreateEnv 9 (some sampleSettings))
  have bad := handlers_validate_grade (samplePostEnv 5) (sampleSubmitEnv 3 7)
    (sampleCreateEnv 9 (some sampleSettings))
  ⟨rfl, fun c hc => good.1 c (Or.inl hc),
    ⟨(bad.2.1 _ rfl (by decide)).1, (bad.2.1 _ rfl (by decide)).2 rfl rfl⟩,
    ⟨(bad.2.2.1 _ rfl (by decide)).1, (bad.2.2.1 _ rfl (by decide)).2 rfl rfl⟩,
    ⟨(bad.2.2.2 _ _ rfl rfl (by decide)).1,
      (bad.2.2.2 _ _ rfl rfl (by decide)).2 rfl rfl rfl rfl rfl rfl⟩⟩

/-! ## The selector: the sorted buckets -/

section SortedBuckets

variable {F : Type} [LinearOrderedField F]

theorem less_false_iff (a b : candidate F) :
    less b a = false ↔
      b.score < a.score ∨ (b.score = a.score ∧ a.state.DueAt ≤ b.state.DueAt) := by
  unfold less Time.Before
  by_cases h : b.score = a.score
  · simp only [h, if_true, decide_eq_false_iff_not, not_lt, lt_irrefl, false_or, true_and]
  · simp only [h, if_false, decide_eq_false_iff_not, not_lt, false_and, or_false, gt_iff_lt]
    exact ⟨fun h' => lt_of_le_of_ne h' h, le_of_lt⟩

theorem notLess_total (a b : candidate F) : less b a = false ∨ less a b = false := by
  rw [less_false_iff, less_false_iff]
  rcases lt_trichotomy a.score b.score with h | h | h
  · exact Or.inr (Or.inl h)
  · rcases le_total a.state.DueAt b.state.DueAt with h' | h'
    · exact Or.inl (Or.inr ⟨h.symm, h'⟩)
    · exact Or.inr (Or.inr ⟨h, h'⟩)
  · exact Or.inl (Or.inl h)

theorem notLess_trans (a b c : candidate F) (hab : less b a = false) (hbc : less c b = false) :
    less c a = false := by
  rw [less_false_iff] at *
  rcases hab with h1 | ⟨h1, h1'⟩ <;> rcases hbc with h2 | ⟨h2, h2'⟩
  · exact Or.inl (lt_trans h2 h1)
  · exact Or.inl (h2 ▸ h1)
  · exact Or.inl (h1 ▸ h2)
  · exact Or.inr ⟨h2.trans h1, le_trans h1' h2'⟩

theorem sortStable_sorted (l : List (candidate F)) :
    (sortStable l).Pairwise (fun a b => less b a = false) := by
  haveI : IsTotal (candidate F) (fun a b => less b a = false) := ⟨notLess_total⟩
  haveI : IsTrans (candidate F) (fun a b => less b a = false) := ⟨notLess_trans⟩
  exact List.sorted_insertionSort (fun a b => less b a = false) l

theorem sortStable_stable (l : List (candidate F)) (s : F) (d : Time) :
    (sortStable l).filter (fun c => decide (c.score = s ∧ c.state.DueAt = d)) =
      l.filter (fun c => decide (c.score = s ∧ c.state.DueAt = d)) := by
  have hpw : (l.filter (fun c => decide (c.score = s ∧ c.state.DueAt = d))).Pairwise
      (fun a b => less b a = false) := by
    rw [List.pairwise_iff_forall_sublist]
    intro a b hab
    have ha : a ∈ l.filter (fun c => decide (c.score = s ∧ c.state.DueAt = d)) :=
      hab.subset (by simp)
    have hb : b ∈ l.filter (fun c => decide (c.score = s ∧ c.state.DueAt = d)) :=
      hab.subset (by simp)
    simp only [List.mem_filter, decide_eq_true_eq] at ha hb
    rw [less_false_iff]
    exact Or.inr ⟨hb.2.1.trans ha.2.1.symm, le_of_eq (ha.2.2.trans hb.2.2.symm)⟩
  have hsub : List.Sublist (l.filter (fun c => decide (c.score = s ∧ c.state.DueAt = d)))
      (sortStable l) :=
    List.sublist_insertionSort hpw (List.filter_sublist l)
  have hsub2 := hsub.filter (fun c => decide (c.score = s ∧ c.state.DueAt = d))
  rw [List.filter_filter] at hsub2
  simp only [Bool.and_self] at hsub2
  have hlen : ((sortStable l).filter (fun c => decide (c.score = s ∧ c.state.DueAt = d))).length =
      (l.filter (fun c => decide (c.score = s ∧ c.state.DueAt = d))).length :=
    ((sortStable_perm l).filter _).length_eq
  exact (hsub2.eq_of_length hlen.symm).symm

theorem sortedBucket_eq_sortStable (rt : Runtime F) (strategy : String) (now : Time)
    (all : List (ProblemWithState F)) (k : String)
    (hk : k = "easy" ∨ k = "medium" ∨ k = "hard") :
    sortedBucket rt strategy now all k =
      sortStable ((all.filter
        (fun p => decide (normalizeDifficulty rt.lowerRune p.Difficulty = k))).map
          (mkCandidate rt strategy now)) := by
  have hne : k ≠ "unknown" := by
    rcases hk with h | h | h <;> rw [h] <;> decide
  unfold sortedBucket
  rw [sortBuckets_apply, if_pos hk, fillBuckets_apply rt strategy now all k hne]

/-- Claim C26. After the sorting step, the bucket of each of the three difficulties is
the stable sort of its candidates, taken in pool order: it is a rearrangement of them;
for positions `i < j` the score at `i` is at least the score at `j`, and when the two
scores are equal the `due_at` at `j` is not before the `due_at` at `i`; and the
candidates that have a given score and a given `due_at` stand in their pool order. -/
theorem sortedBucket_stable_sort (rt : Runtime F) (strategy : String) (now : Time)
    (all : List (ProblemWithState F)) (k : String)
    (hk : k = "easy" ∨ k = "medium" ∨ k = "hard") :
    (sortedBucket rt strategy now all k).Perm
        ((all.filter (fun p => decide (normalizeDifficulty rt.lowerRune p.Difficulty = k))).map
          (mkCandidate rt strategy now)) ∧
      (sortedBucket rt strategy now all k).Pairwise
        (fun a b => b.score ≤ a.score ∧
          (a.score = b.score → Time.Before b.state.DueAt a.state.DueAt = false)) ∧
      (∀ (s : F) (d : Time),
        (sortedBucket rt strategy now all k).filter
            (fun c => decide (c.score = s ∧ c.state.DueAt = d)) =
          ((all.filter
            (fun p => decide (normalizeDifficulty rt.lowerRune p.Difficulty = k))).map
              (mkCandidate rt strategy now)).filter
            (fun c => decide (c.score = s ∧ c.state.DueAt = d))) := by
  refine ⟨sortedBucket_perm rt strategy now all k hk, ?_, ?_⟩
  · rw [sortedBucket_eq_sortStable rt strategy now all k hk]
    refine (sortStable_sorted _).imp ?_
    intro a b hab
    rw [less_false_iff] at hab
    rcases hab with h | ⟨h, h'⟩
    · exact ⟨le_of_lt h, fun he => absurd he (ne_of_gt h)⟩
    · refine ⟨le_of_eq h, fun _ => ?_⟩
      unfold Time.Before
      exact decide_eq_false (not_lt.mpr h')
  · intro s d
    rw [sortedBucket_eq_sortStable rt strategy now all k hk]
    exact sortStable_stable _ s d

end SortedBuckets

/-! ## The selector: strategies that take the highest score first -/

section HighestFirst

variable {F : Type} [LinearOrderedField F]

theorem sortedBucket_score_sorted (rt : Runtime F) (strategy : String) (now : Time)
    (all : List (ProblemWithState F)) (k : String)
    (hk : k = "easy" ∨ k = "medium" ∨ k = "hard") :
    (sortedBucket rt strategy now all k).Pairwise (fun a b => b.score ≤ a.score) := by
  rw [sortedBucket_eq_sortStable rt strategy now all k hk]
  refine (sortStable_sorted _).imp ?_
  intro a b hab
  rw [less_false_iff] at hab
  rcases hab with h | ⟨h, -⟩
  · exact le_of_lt h
  · exact le_of_eq h

theorem take_drop_score (l : List (candidate F)) (h : l.Pairwise (fun a b => b.score ≤ a.score))
    (n : Nat) : ∀ c ∈ l.take n, ∀ c' ∈ l.drop n, c'.score ≤ c.score := by
  intro c hc c' hc'
  have h' : (l.take n ++ l.drop n).Pairwise (fun a b => b.score ≤ a.score) := by
    rw [List.take_append_drop]
    exact h
  exact (List.pairwise_append.1 h').2.2 c hc c' hc'

theorem take_min_length_eq {α : Type} (l : List α) (n : Nat) :
    l.take (min n l.length) = l.take n := by
  rcases Nat.le_total n l.length with h | h
  · rw [Nat.min_eq_left h]
  · rw [Nat.min_eq_right h, List.take_length, List.take_of_length_le h]

/-- Claim C25. Under the strategies `due-heavy` and `weakness`, the list that
`pickContestProblems` returns is made, bucket after bucket, of the first
`min(requested, bucket size)` candidates of the sorted bucket, in that order; and in
each of the three buckets no candidate that is left has a higher score than a candidate
that is taken. -/
theorem pickContestProblems_highest_first (rt : Runtime F) (now : Time)
    (params : GenerateParams) (all : List (ProblemWithState F)) (chosen : List Problem)
    (hs : normalizeStrategy rt.lowerRune params.Strategy = "due-heavy" ∨
      normalizeStrategy rt.lowerRune params.Strategy = "weakness")
    (h : pickContestProblems rt now params all = .ok chosen) :
    chosen =
        ((sortedBucket rt (normalizeStrategy rt.lowerRune params.Strategy) now all
                "easy").take (min params.DifficultyMix.Easy.toNat
                  (sortedBucket rt (normalizeStrategy rt.lowerRune params.Strategy) now all
                    "easy").length) ++
              (sortedBucket rt (normalizeStrategy rt.lowerRune params.Strategy) now all
                "medium").take (min params.DifficultyMix.Medium.toNat
                  (sortedBucket rt (normalizeStrategy rt.lowerRune params.Strategy) now all
                    "medium").length) ++
              (sortedBucket rt (normalizeStrategy rt.lowerRune params.Strategy) now all
                "hard").take (min params.DifficultyMix.Hard.toNat
                  (sortedBucket rt (normalizeStrategy rt.lowerRune params.Strategy) now all
                    "hard").length)).map (fun c => c.problem) ∧
      (∀ k, k = "easy" ∨ k = "medium" ∨ k = "hard" → ∀ n : Nat,
        ∀ c ∈ (sortedBucket rt (normalizeStrategy rt.lowerRune params.Strategy) now all
          k).take n,
        ∀ c' ∈ (sortedBucket rt (normalizeStrategy rt.lowerRune params.Strategy) now all
          k).drop n, c'.score ≤ c.score) := by
  have hnb : normalizeStrategy rt.lowerRune params.Strategy ≠ "balanced" := by
    rcases hs with h | h <;> rw [h] <;> decide
  refine ⟨?_, fun k hk n => take_drop_score _ (sortedBucket_score_sorted rt _ now all k hk) n⟩
  rw [pickContestProblems_first rt now params all hnb
    (pickContestProblems_cap_of_ok rt now params all chosen h)] at h
  rw [← Except.ok.inj h]
  unfold firstPicks
  simp only [take_min_length_eq]

end HighestFirst
theorem pickContestProblems_highest_first_witness :
    pickContestProblems sampleRuntime (10 * Day) (sampleParams "due-heavy") duePool =
        .ok [sampleProblem "e2" "easy" ["array"], sampleProblem "e3" "easy" ["graph"],
          sampleProblem "m2" "medium" ["dp"], sampleProblem "m1" "medium" ["dp"]] ∧
      [sampleProblem "e2" "easy" ["array"], sampleProblem "e3" "easy" ["graph"],
          sampleProblem "m2" "medium" ["dp"], sampleProblem "m1" "medium" ["dp"]] =
        ((sortedBucket sampleRuntime "due-heavy" (10 * Day) duePool "easy").take 2 ++
          (sortedBucket sampleRuntime "due-heavy" (10 * Day) duePool "medium").take 2 ++
          (sortedBucket sampleRuntime "due-heavy" (10 * Day) duePool "hard").take 1).map
            (fun c => c.problem) ∧
      ∀ c ∈ (sortedBucket sampleRuntime "due-heavy" (10 * Day) duePool "easy").take 2,
        ∀ c' ∈ (sortedBucket sampleRuntime "due-heavy" (10 * Day) duePool "easy").drop 2,
          c'.score ≤ c.score :=
  ⟨by decide!,
    (pickContestProblems_highest_first sampleRuntime (10 * Day) (sampleParams "due-heavy")
      duePool _ (Or.inl (by decide!)) (by decide!)).1.trans (by decide!),
    (pickContestProblems_highest_first sampleRuntime (10 * Day) (sampleParams "due-heavy")
      duePool
      [sampleProblem "e2" "easy" ["array"], sampleProblem "e3" "easy" ["graph"],
        sampleProblem "m2" "medium" ["dp"], sampleProblem "m1" "medium" ["dp"]]
      (Or.inl (by decide!)) (by decide!)).2 "easy" (Or.inl rfl) 2⟩

theorem sortedBucket_stable_sort_witness :
    (sortedBucket sampleRuntime "due-heavy" (10 * Day) duePool "easy").map
        (fun c => (c.problem.ID, c.score)) = [("e2", 230), ("e3", 185), ("e1", 140)] ∧
      (sortedBucket sampleRuntime "due-heavy" (10 * Day) duePool "easy").Pairwise
        (fun a b => b.score ≤ a.score ∧
          (a.score = b.score → Time.Before b.state.DueAt a.state.DueAt = false)) :=
  ⟨by decide!,
    (sortedBucket_stable_sort sampleRuntime "due-heavy" (10 * Day) duePool "easy"
      (Or.inl rfl)).2.1⟩
/-! ## The selector: no pool entry is selected twice -/

theorem indexInjection_cons {α : Type} (a : α) (l₁ l₂ : List α) (f : Nat → Nat)
    (h : IndexInjection l₁ l₂ f) :
    IndexInjection (a :: l₁) (a :: l₂) (fun i => if i = 0 then 0 else f (i - 1) + 1) := by
  obtain ⟨h1, h2⟩ := h
  constructor
  · intro i hi
    rcases i with _ | i
    · simp
    · have hi' : i < l₁.length := by simpa using hi
      have := h1 i hi'
      simp [this.1, this.2]
  · intro i j hi hj hij
    rcases i with _ | i <;> rcases j with _ | j
    · rfl
    · simp at hij
    · simp at hij
    · have hi' : i < l₁.length := by simpa using hi
      have hj' : j < l₁.length := by simpa using hj
      have : f i = f j := by simpa using hij
      rw [h2 i j hi' hj' this]

theorem indexInjection_skip {α : Type} (a : α) (l₁ l₂ : List α) (f : Nat → Nat)
    (h : IndexInjection l₁ l₂ f) : IndexInjection l₁ (a :: l₂) (fun i => f i + 1) := by
  obtain ⟨h1, h2⟩ := h
  constructor
  · intro i hi
    have := h1 i hi
    simp [this.1, this.2]
  · intro i j hi hj hij
    exact h2 i j hi hj (by simpa using hij)

theorem indexInjection_trans {α : Type} (l₁ l₂ l₃ : List α) (f g : Nat → Nat)
    (hf : IndexInjection l₁ l₂ f) (hg : IndexInjection l₂ l₃ g) :
    IndexInjection l₁ l₃ (fun i => g (f i)) := by
  obtain ⟨f1, f2⟩ := hf
  obtain ⟨g1, g2⟩ := hg
  constructor
  · intro i hi
    have h1 := f1 i hi
    have h2 := g1 (f i) h1.1
    exact ⟨h2.1, h1.2.trans h2.2⟩
  · intro i j hi hj hij
    exact f2 i j hi hj (g2 (f i) (f j) (f1 i hi).1 (f1 j hj).1 hij)

theorem indexInjection_of_perm {α : Type} {l₁ l₂ : List α} (h : l₁.Perm l₂) :
    ∃ f, IndexInjection l₁ l₂ f := by
  induction h with
  | nil => exact ⟨id, by constructor <;> intro i <;> simp⟩
  | cons a _ ih =>
    obtain ⟨f, hf⟩ := ih
    exact ⟨_, indexInjection_cons a _ _ f hf⟩
  | swap a b l =>
    refine ⟨fun i => if i = 0 then 1 else if i = 1 then 0 else i, ?_, ?_⟩
    · intro i hi
      rcases i with _ | _ | i
      · simp
      · simp
      · have hi' : i < l.length := by simpa using hi
        simp [hi']
    · intro i j _ _ hij
      rcases i with _ | _ | i <;> rcases j with _ | _ | j <;> simp at hij <;> omega
  | trans _ _ ih₁ ih₂ =>
    obtain ⟨f, hf⟩ := ih₁
    obtain ⟨g, hg⟩ := ih₂
    exact ⟨_, indexInjection_trans _ _ _ f g hf hg⟩

theorem indexInjection_of_sublist {α : Type} {l₁ l₂ : List α} (h : List.Sublist l₁ l₂) :
    ∃ f, IndexInjection l₁ l₂ f := by
  induction h with
  | slnil => exact ⟨id, by constructor <;> intro i <;> simp⟩
  | cons a _ ih =>
    obtain ⟨f, hf⟩ := ih
    exact ⟨_, indexInjection_skip a _ _ f hf⟩
  | cons₂ a _ ih =>
    obtain ⟨f, hf⟩ := ih
    exact ⟨_, indexInjection_cons a _ _ f hf⟩

theorem indexInjection_of_subperm {α : Type} {l₁ l₂ : List α} (h : List.Subperm l₁ l₂) :
    ∃ f, IndexInjection l₁ l₂ f := by
  obtain ⟨l, hp, hs⟩ := h
  obtain ⟨f, hf⟩ := indexInjection_of_perm hp.symm
  obtain ⟨g, hg⟩ := indexInjection_of_sublist hs
  exact ⟨_, indexInjection_trans _ _ _ f g hf hg⟩

theorem subperm_append {α : Type} {a a' b b' : List α} (ha : List.Subperm a a')
    (hb : List.Subperm b b') : List.Subperm (a ++ b) (a' ++ b') :=
  ((List.subperm_append_right b).2 ha).trans ((List.subperm_append_left a').2 hb)

theorem subperm_map {α β : Type} (f : α → β) {l₁ l₂ : List α} (h : List.Subperm l₁ l₂) :
    List.Subperm (l₁.map f) (l₂.map f) := by
  obtain ⟨l, hp, hs⟩ := h
  exact ⟨l.map f, hp.map f, hs.map f⟩

theorem three_filters_subperm {α β : Type} [DecidableEq β] (key : α → β) (k₁ k₂ k₃ : β)
    (h12 : k₁ ≠ k₂) (h13 : k₁ ≠ k₃) (h23 : k₂ ≠ k₃) (l : List α) :
    List.Subperm
      (l.filter (fun x => decide (key x = k₁)) ++ l.filter (fun x => decide (key x = k₂)) ++
        l.filter (fun x => decide (key x = k₃))) l := by
  induction l with
  | nil => simp
  | cons a l ih =>
    by_cases h1 : key a = k₁
    · have h2 : key a ≠ k₂ := fun h => h12 (h1.symm.trans h)
      have h3 : key a ≠ k₃ := fun h => h13 (h1.symm.trans h)
      simp only [List.filter_cons, h1, h2, h3, h12, h13, h23, h12.symm, h13.symm, h23.symm,
        decide_True, decide_False, if_true,
        Bool.false_eq_true, if_false, List.cons_append]
      exact (List.subperm_cons a).2 ih
    · by_cases h2 : key a = k₂
      · have h3 : key a ≠ k₃ := fun h => h23 (h2.symm.trans h)
        simp only [List.filter_cons, h1, h2, h3, h12, h13, h23, h12.symm, h13.symm, h23.symm,
        decide_True, decide_False, if_true,
          Bool.false_eq_true, if_false]
        refine List.Subperm.trans (List.Perm.subperm ?_) ((List.subperm_cons a).2 ih)
        rw [List.append_assoc, List.append_assoc]
        exact List.perm_middle
      · by_cases h3 : key a = k₃
        · simp only [List.filter_cons, h1, h2, h3, h12, h13, h23, h12.symm, h13.symm, h23.symm,
        decide_True, decide_False, if_true,
            Bool.false_eq_true, if_false]
          refine List.Subperm.trans (List.Perm.subperm ?_) ((List.subperm_cons a).2 ih)
          exact List.perm_middle
        · simp only [List.filter_cons, h1, h2, h3, decide_False, Bool.false_eq_true, if_false]
          exact List.Subperm.cons_right a ih

section NoRepeat

variable {F : Type} [LinearOrderedField F]

theorem picked_subperm_pool (rt : Runtime F) (strategy : String) (now : Time)
    (all : List (ProblemWithState F)) (pe pm ph : List (candidate F))
    (he : List.Subperm pe (sortedBucket rt strategy now all "easy"))
    (hm : List.Subperm pm (sortedBucket rt strategy now all "medium"))
    (hh : List.Subperm ph (sortedBucket rt strategy now all "hard")) :
    List.Subperm ((pe ++ pm ++ ph).map (fun c => c.problem))
      (all.map (fun p => p.toProblem)) := by
  have he' := he.trans (sortedBucket_perm rt strategy now all "easy" (Or.inl rfl)).subperm
  have hm' := hm.trans
    (sortedBucket_perm rt strategy now all "medium" (Or.inr (Or.inl rfl))).subperm
  have hh' := hh.trans
    (sortedBucket_perm rt strategy now all "hard" (Or.inr (Or.inr rfl))).subperm
  have h3 := subperm_append (subperm_append he' hm') hh'
  rw [← List.map_append, ← List.map_append] at h3
  have h4 := three_filters_subperm (fun p : ProblemWithState F =>
    normalizeDifficulty rt.lowerRune p.Difficulty) "easy" "medium" "hard" (by decide)
    (by decide) (by decide) all
  have h5 := h3.trans (subperm_map (mkCandidate rt strategy now) h4)
  have h6 := subperm_map (fun c : candidate F => c.problem) h5
  rw [List.map_map] at h6
  exact h6

/-- Claim C29. The list that `pickContestProblems` returns never holds the same pool
entry twice: there is a one-to-one mapping from the positions of the returned list to
positions of the pool such that each returned problem is the problem of the pool entry
at the mapped position; so the list is not longer than the pool. -/
theorem pickContestProblems_no_repeat (rt : Runtime F) (now : Time) (params : GenerateParams)
    (all : List (ProblemWithState F)) (chosen : List Problem)
    (h : pickContestProblems rt now params all = .ok chosen) :
    (∃ f : Fin chosen.length → Fin all.length, Function.Injective f ∧
        ∀ i, chosen.get i = (all.get (f i)).toProblem) ∧
      chosen.length ≤ all.length := by
  obtain ⟨pe, pm, ph, hpick, he, hm, hh, -, -, -⟩ :=
    pickContestProblems_shape rt now params all
      (pickContestProblems_cap_of_ok rt now params all chosen h)
  have hsub := picked_subperm_pool rt _ now all pe pm ph he hm hh
  rw [hpick] at h
  rw [Except.ok.inj h] at hsub
  refine ⟨?_, by simpa using hsub.length_le⟩
  obtain ⟨f, hf1, hf2⟩ := indexInjection_of_subperm hsub
  have hlt : ∀ i : Fin chosen.length, f i.1 < all.length := by
    intro i
    simpa using (hf1 i.1 i.2).1
  refine ⟨fun i => ⟨f i.1, hlt i⟩, ?_, ?_⟩
  · intro i j hij
    exact Fin.ext (hf2 i.1 j.1 i.2 j.2 (by simpa using congrArg Fin.val hij))
  · intro i
    have h := (hf1 i.1 i.2).2
    rw [List.getElem?_eq_getElem i.2, List.getElem?_map,
      List.getElem?_eq_getElem (hlt i)] at h
    simpa using h

end NoRepeat
theorem pickContestProblems_no_repeat_witness :
    pickContestProblems sampleRuntime 0 (sampleParams "balanced") samplePool =
        .ok sampleChosen ∧
      (∃ f : Fin sampleChosen.length → Fin samplePool.length, Function.Injective f ∧
        ∀ i, sampleChosen.get i = (samplePool.get (f i)).toProblem) ∧
      sampleChosen.length ≤ samplePool.length :=
  ⟨by decide!,
    pickContestProblems_no_repeat sampleRuntime 0 (sampleParams "balanced") samplePool
      sampleChosen (by decide!)⟩
/-! ## The selector: the pool order matters only for ties -/

section PoolOrder

variable {F : Type} [LinearOrderedField F]

theorem fillBuckets_unknown (rt : Runtime F) (strategy : String) (now : Time)
    (all : List (ProblemWithState F)) : fillBuckets rt strategy now all "unknown" = [] := by
  unfold fillBuckets
  suffices h : ∀ (init : String → List (candidate F)),
      (all.foldl
        (fun buckets p =>
          let d := normalizeDifficulty rt.lowerRune p.Difficulty
          if d = "unknown" then buckets
          else setKey buckets d (buckets d ++ [mkCandidate rt strategy now p]))
        init) "unknown" = init "unknown" from h (fun _ => [])
  induction all with
  | nil => intro init; rfl
  | cons p ps ih =>
    intro init
    rw [List.foldl_cons, ih]
    generalize normalizeDifficulty rt.lowerRune p.Difficulty = d
    by_cases hd : d = "unknown"
    · simp [hd]
    · have hd' : ¬ "unknown" = d := fun h => hd h.symm
      simp [hd, setKey, hd']

theorem sorted_perm_unique {α : Type} (r : α → α → Prop) :
    ∀ (l₁ l₂ : List α), l₁.Perm l₂ → l₁.Pairwise r → l₂.Pairwise r →
      (∀ a ∈ l₁, ∀ b ∈ l₁, r a b → r b a → a = b) → l₁ = l₂ := by
  intro l₁
  induction l₁ with
  | nil =>
    intro l₂ hp _ _ _
    exact hp.nil_eq
  | cons a t ih =>
    intro l₂ hp h₁ h₂ hanti
    cases l₂ with
    | nil => exact absurd hp.length_eq (by simp)
    | cons b t₂ =>
      have hab : a = b := by
        by_contra hne
        have ha : a ∈ t₂ := by
          have := hp.subset (List.mem_cons_self a t)
          rcases List.mem_cons.1 this with h | h
          · exact absurd h hne
          · exact h
        have hb : b ∈ t := by
          have := hp.symm.subset (List.mem_cons_self b t₂)
          rcases List.mem_cons.1 this with h | h
          · exact absurd h.symm hne
          · exact h
        exact hne (hanti a (List.mem_cons_self a t) b (List.mem_cons_of_mem a hb)
          ((List.pairwise_cons.1 h₁).1 b hb) ((List.pairwise_cons.1 h₂).1 a ha))
      subst hab
      have hp' : t.Perm t₂ := (List.perm_cons a).1 hp
      rw [ih t₂ hp' (List.pairwise_cons.1 h₁).2 (List.pairwise_cons.1 h₂).2
        (fun x hx y hy => hanti x (List.mem_cons_of_mem a hx) y (List.mem_cons_of_mem a hy))]

theorem sortStable_eq_of_perm (l l' : List (candidate F)) (hp : l'.Perm l)
    (hties : l.Pairwise
      (fun a b => ¬ (a.score = b.score ∧ a.state.DueAt = b.state.DueAt))) :
    sortStable l' = sortStable l := by
  refine sorted_perm_unique (fun a b => less b a = false) _ _
    (((sortStable_perm l').trans hp).trans (sortStable_perm l).symm)
    (sortStable_sorted l') (sortStable_sorted l) ?_
  intro a ha b hb hab hba
  by_contra hne
  have ha' : a ∈ l := ((sortStable_perm l').trans hp).subset ha
  have hb' : b ∈ l := ((sortStable_perm l').trans hp).subset hb
  have hsymm : Symmetric
      (fun a b : candidate F => ¬ (a.score = b.score ∧ a.state.DueAt = b.state.DueAt)) :=
    fun x y h h' => h ⟨h'.1.symm, h'.2.symm⟩
  refine hties.forall hsymm ha' hb' hne ?_
  rw [less_false_iff] at hab hba
  rcases hab with h | ⟨h, h'⟩
  · rcases hba with h2 | ⟨h2, -⟩
    · exact absurd h (lt_asymm h2)
    · exact absurd h2 (ne_of_gt h)
  · rcases hba with h2 | ⟨-, h2'⟩
    · exact absurd h (ne_of_gt h2)
    · exact ⟨h.symm, le_antisymm h' h2'⟩

theorem sortBuckets_fillBuckets_perm (rt : Runtime F) (strategy : String) (now : Time)
    (all all' : List (ProblemWithState F)) (hperm : all'.Perm all)
    (hties : all.Pairwise (fun p q =>
      normalizeDifficulty rt.lowerRune p.Difficulty =
          normalizeDifficulty rt.lowerRune q.Difficulty →
        normalizeDifficulty rt.lowerRune p.Difficulty ≠ "unknown" →
        ¬ (candidateScore rt strategy now p = candidateScore rt strategy now q ∧
          p.State.DueAt = q.State.DueAt))) :
    sortBuckets (fillBuckets rt strategy now all') =
      sortBuckets (fillBuckets rt strategy now all) := by
  funext k
  by_cases hu : k = "unknown"
  · rw [sortBuckets_apply, sortBuckets_apply, hu, fillBuckets_unknown, fillBuckets_unknown]
  · rw [sortBuckets_apply, sortBuckets_apply, fillBuckets_apply rt strategy now all k hu,
      fillBuckets_apply rt strategy now all' k hu]
    have hp : ((all'.filter
        (fun p => decide (normalizeDifficulty rt.lowerRune p.Difficulty = k))).map
          (mkCandidate rt strategy now)).Perm
        ((all.filter (fun p => decide (normalizeDifficulty rt.lowerRune p.Difficulty = k))).map
          (mkCandidate rt strategy now)) := (hperm.filter _).map _
    by_cases hk : k = "easy" ∨ k = "medium" ∨ k = "hard"
    · rw [if_pos hk, if_pos hk]
      refine sortStable_eq_of_perm _ _ hp ?_
      rw [List.pairwise_map]
      refine ((hties.filter _).imp_of_mem ?_)
      intro p q hp' hq' h
      simp only [List.mem_filter, decide_eq_true_eq] at hp' hq'
      exact h (hp'.2.trans hq'.2.symm) (fun h' => hu (hp'.2.symm.trans h'))
    · rw [if_neg hk, if_neg hk]
      have hempty : ∀ l : List (ProblemWithState F),
          l.filter (fun p => decide (normalizeDifficulty rt.lowerRune p.Difficulty = k)) =
            [] := by
        intro l
        rw [List.filter_eq_nil_iff]
        intro p _
        simp only [decide_eq_true_eq]
        intro h
        rcases normalizeDifficulty_cases rt.lowerRune p.Difficulty with h' | h' | h' | h'
        · exact hk (Or.inl (h.symm.trans h'))
        · exact hk (Or.inr (Or.inl (h.symm.trans h')))
        · exact hk (Or.inr (Or.inr (h.symm.trans h')))
        · exact hu (h.symm.trans h')
      rw [hempty, hempty]

/-- Claim C30. When no two entries of the pool that go to the same difficulty bucket
(easy, medium or hard) have both the same score and the same `due_at`, `pickContestProblems` gives the same
result for every permutation of the pool. -/
theorem pickContestProblems_perm (rt : Runtime F) (now : Time) (params : GenerateParams)
    (all all' : List (ProblemWithState F)) (hperm : all'.Perm all)
    (hties : all.Pairwise (fun p q =>
      normalizeDifficulty rt.lowerRune p.Difficulty =
          normalizeDifficulty rt.lowerRune q.Difficulty →
        normalizeDifficulty rt.lowerRune p.Difficulty ≠ "unknown" →
        ¬ (candidateScore rt (normalizeStrategy rt.lowerRune params.Strategy) now p =
            candidateScore rt (normalizeStrategy rt.lowerRune params.Strategy) now q ∧
          p.State.DueAt = q.State.DueAt))) :
    pickContestProblems rt now params all' = pickContestProblems rt now params all := by
  unfold pickContestProblems
  simp only [sortBuckets_fillBuckets_perm rt _ now all all' hperm hties]

theorem pickContestProblems_perm_witness :
    pickContestProblems sampleRuntime (10 * Day) (sampleParams "balanced") duePool.reverse =
      pickContestProblems sampleRuntime (10 * Day) (sampleParams "balanced") duePool :=
  pickContestProblems_perm sampleRuntime (10 * Day) (sampleParams "balanced") duePool
    duePool.reverse (List.reverse_perm duePool) (by decide!)

end PoolOrder

/-! ## Overdue days: range of the result -/

theorem bitLog_spec : ∀ (fuel n : Nat), 1 ≤ n → n ≤ fuel →
    2 ^ bitLog fuel n ≤ n ∧ n < 2 ^ (bitLog fuel n + 1) := by
  intro fuel
  induction fuel with
  | zero => intro n h1 h2; omega
  | succ fuel ih =>
    intro n h1 h2
    unfold bitLog
    by_cases hn : n < 2
    · rw [if_pos hn]
      have : n = 1 := by omega
      subst this
      simp
    · rw [if_neg hn]
      have h := ih (n / 2) (by omega) (by omega)
      constructor
      · calc 2 ^ (bitLog fuel (n / 2) + 1) = 2 ^ bitLog fuel (n / 2) * 2 := pow_succ _ _
          _ ≤ n / 2 * 2 := Nat.mul_le_mul_right 2 h.1
          _ ≤ n := Nat.div_mul_le_self n 2
      · have h2' : n / 2 + 1 ≤ 2 ^ (bitLog fuel (n / 2) + 1) := h.2
        calc n < (n / 2 + 1) * 2 := by omega
          _ ≤ 2 ^ (bitLog fuel (n / 2) + 1) * 2 := Nat.mul_le_mul_right 2 h2'
          _ = 2 ^ (bitLog fuel (n / 2) + 1 + 1) := (pow_succ _ _).symm

theorem binExp_le (q : ℚ) (hq : q ≠ 0) : (2 : ℚ) ^ binExp q ≤ |q| := by
  unfold binExp
  simp only []
  split_ifs with h
  · exact h
  · have hnum : 1 ≤ q.num.natAbs := Nat.one_le_iff_ne_zero.2
      (fun h0 => hq (Rat.num_eq_zero.1 (Int.natAbs_eq_zero.1 h0)))
    have hden : 1 ≤ q.den := q.den_pos
    have h1 := (bitLog_spec q.num.natAbs q.num.natAbs hnum le_rfl).1
    have h2 := (bitLog_spec q.den q.den hden le_rfl).2
    have h1' : (2 : ℚ) ^ (bitLog q.num.natAbs q.num.natAbs) ≤ (q.num.natAbs : ℚ) := by
      exact_mod_cast h1
    have h2' : (q.den : ℚ) ≤ (2 : ℚ) ^ (bitLog q.den q.den + 1) := by
      exact_mod_cast le_of_lt h2
    have habs : |q| = (q.num.natAbs : ℚ) / (q.den : ℚ) := by
      have hq' : q = (q.num : ℚ) / (q.den : ℚ) := (Rat.num_div_den q).symm
      have hd : (0 : ℚ) < (q.den : ℚ) := by exact_mod_cast q.den_pos
      conv_lhs => rw [hq']
      rw [abs_div, abs_of_pos hd, Nat.cast_natAbs, Int.cast_abs]
    rw [habs]
    have hd : (0 : ℚ) < (q.den : ℚ) := by exact_mod_cast q.den_pos
    rw [le_div_iff₀ hd]
    have hexp : (2 : ℚ) ^ ((bitLog q.num.natAbs q.num.natAbs : Int) -
        (bitLog q.den q.den : Int) - 1) =
        (2 : ℚ) ^ (bitLog q.num.natAbs q.num.natAbs) / (2 : ℚ) ^ (bitLog q.den q.den + 1) := by
      rw [sub_sub, zpow_sub₀ (by norm_num : (2 : ℚ) ≠ 0)]
      norm_cast
    rw [hexp]
    have hp : (0 : ℚ) < (2 : ℚ) ^ (bitLog q.den q.den + 1) := by positivity
    rw [div_mul_eq_mul_div, div_le_iff₀ hp]
    calc (2 : ℚ) ^ (bitLog q.num.natAbs q.num.natAbs) * (q.den : ℚ)
        ≤ (q.num.natAbs : ℚ) * (q.den : ℚ) :=
          mul_le_mul_of_nonneg_right h1' (le_of_lt hd)
      _ ≤ (q.num.natAbs : ℚ) * (2 : ℚ) ^ (bitLog q.den q.den + 1) :=
          mul_le_mul_of_nonneg_left h2' (by positivity)

theorem roundHalfEven_bounds (q : ℚ) (hq : 0 ≤ q) :
    (0 : ℚ) ≤ (roundHalfEven q : ℚ) ∧ (roundHalfEven q : ℚ) ≤ q + 1 := by
  have hf0 : (0 : Int) ≤ Int.floor q := Int.floor_nonneg.2 hq
  have hf0' : (0 : ℚ) ≤ (Int.floor q : ℚ) := by exact_mod_cast hf0
  have hfl : (Int.floor q : ℚ) ≤ q := Int.floor_le q
  unfold roundHalfEven
  simp only []
  split_ifs <;> push_cast <;> constructor <;> linarith

theorem roundF64_bounds (q : ℚ) (hq : 0 ≤ q) : 0 ≤ roundF64 q ∧ roundF64 q ≤ 2 * q := by
  unfold roundF64
  split_ifs with h0
  · subst h0
    simp
  · simp only []
    have hpos : 0 < q := lt_of_le_of_ne hq (Ne.symm h0)
    have hs : (0 : ℚ) < (2 : ℚ) ^ (binExp q - 52) := by positivity
    have hsle : (2 : ℚ) ^ (binExp q - 52) ≤ q := by
      calc (2 : ℚ) ^ (binExp q - 52) ≤ (2 : ℚ) ^ binExp q :=
            zpow_le_zpow_right₀ (by norm_num) (by omega)
        _ ≤ |q| := binExp_le q h0
        _ = q := abs_of_pos hpos
    have hb := roundHalfEven_bounds (q / (2 : ℚ) ^ (binExp q - 52)) (div_nonneg hq (le_of_lt hs))
    constructor
    · exact mul_nonneg hb.1 (le_of_lt hs)
    · calc (roundHalfEven (q / (2 : ℚ) ^ (binExp q - 52)) : ℚ) * (2 : ℚ) ^ (binExp q - 52)
          ≤ (q / (2 : ℚ) ^ (binExp q - 52) + 1) * (2 : ℚ) ^ (binExp q - 52) :=
            mul_le_mul_of_nonneg_right hb.2 (le_of_lt hs)
        _ = q + (2 : ℚ) ^ (binExp q - 52) := by
            rw [add_mul, div_mul_cancel₀ _ (ne_of_gt hs), one_mul]
        _ ≤ 2 * q := by linarith

theorem saturated_range (t u : Int) (h : u ≤ t) :
    0 ≤ (if -9223372036854775808 ≤ t - u ∧ t - u ≤ 9223372036854775807 then t - u
        else if t < u then -9223372036854775808 else 9223372036854775807) ∧
      (if -9223372036854775808 ≤ t - u ∧ t - u ≤ 9223372036854775807 then t - u
        else if t < u then -9223372036854775808 else 9223372036854775807) ≤
        9223372036854775807 := by
  split_ifs <;> constructor <;> omega

theorem timeSub_range (t u : Int) (h : u ≤ t) :
    0 ≤ Time.Sub t u ∧ Time.Sub t u ≤ 9223372036854775807 :=
  saturated_range t u h

theorem hours_bounds (d : Int) (h0 : 0 ≤ d) (h1 : d ≤ 9223372036854775807) :
    0 ≤ Duration.Hours d ∧ Duration.Hours d ≤ 10248200 := by
  have hH : Hour = 3600000000000 := rfl
  have hdiv : Int.tdiv d Hour = d / 3600000000000 := by
    rw [hH]
    exact Int.tdiv_eq_ediv h0 (by norm_num)
  have hmod : Int.tmod d Hour = d % 3600000000000 := by
    rw [hH]
    exact Int.tmod_eq_emod h0 (by norm_num)
  have hq0 : (0 : Int) ≤ d / 3600000000000 := by omega
  have hq1 : d / 3600000000000 ≤ 2562047 := by omega
  have hr0 : (0 : Int) ≤ d % 3600000000000 := by omega
  have hr1 : d % 3600000000000 ≤ 3600000000000 := by omega
  have hq0' : (0 : ℚ) ≤ ((d / 3600000000000 : Int) : ℚ) := by exact_mod_cast hq0
  have hq1' : ((d / 3600000000000 : Int) : ℚ) ≤ 2562047 := by exact_mod_cast hq1
  have hr0' : (0 : ℚ) ≤ ((d % 3600000000000 : Int) : ℚ) := by exact_mod_cast hr0
  have hr1' : ((d % 3600000000000 : Int) : ℚ) ≤ 3600000000000 := by exact_mod_cast hr1
  unfold Duration.Hours
  simp only [hdiv, hmod]
  have a := roundF64_bounds _ hq0'
  have b := roundF64_bounds _ hr0'
  have hb1 : (0 : ℚ) ≤ roundF64 ((d % 3600000000000 : Int) : ℚ) / 3600000000000 :=
    div_nonneg b.1 (by norm_num)
  have hb2 : roundF64 ((d % 3600000000000 : Int) : ℚ) / 3600000000000 ≤ 2 := by
    rw [div_le_iff₀ (by norm_num)]
    linarith [b.2]
  have c := roundF64_bounds _ hb1
  have hsum : (0 : ℚ) ≤ roundF64 ((d / 3600000000000 : Int) : ℚ) +
      roundF64 (roundF64 ((d % 3600000000000 : Int) : ℚ) / 3600000000000) :=
    add_nonneg a.1 c.1
  have e := roundF64_bounds _ hsum
  constructor
  · exact e.1
  · linarith [e.2, a.2, c.2]

/-- The overdue-day count is never negative and stays below `2^20`: `Time.Sub` gives at
most `2^63 - 1` nanoseconds, about 106751 days. -/
theorem overdueDays_bounds (now dueAt : Time) :
    0 ≤ overdueDays now dueAt ∧ overdueDays now dueAt < 1048576 := by
  unfold overdueDays
  split_ifs with hb
  · constructor <;> norm_num
  · simp only []
    have hle : dueAt ≤ now := by
      unfold Time.Before at hb
      simpa using hb
    obtain ⟨hd0, hd1⟩ := timeSub_range now dueAt hle
    obtain ⟨hh0, hh1⟩ := hours_bounds _ hd0 hd1
    have hx0 : (0 : ℚ) ≤ Duration.Hours (Time.Sub now dueAt) / 24 :=
      div_nonneg hh0 (by norm_num)
    obtain ⟨hr0, hr1⟩ := roundF64_bounds _ hx0
    have hr2 : roundF64 (Duration.Hours (Time.Sub now dueAt) / 24) ≤ 854017 := by
      have : Duration.Hours (Time.Sub now dueAt) / 24 ≤ 427008.5 := by
        rw [div_le_iff₀ (by norm_num)]
        linarith
      linarith
    have ht0 : 0 ≤ truncToInt (roundF64 (Duration.Hours (Time.Sub now dueAt) / 24)) := by
      unfold truncToInt
      rw [if_pos hr0]
      exact Int.floor_nonneg.2 hr0
    have ht1 : truncToInt (roundF64 (Duration.Hours (Time.Sub now dueAt) / 24)) ≤ 854017 := by
      unfold truncToInt
      rw [if_pos hr0]
      have : ((Int.floor (roundF64 (Duration.Hours (Time.Sub now dueAt) / 24)) : Int) : ℚ) ≤
          854017 := le_trans (Int.floor_le _) hr2
      exact_mod_cast this
    rw [wrap64_of_range _ (by omega) (by omega)]
    constructor <;> omega
/-! ## The score of a candidate -/

section Score

variable {F : Type} [LinearOrderedField F]

theorem saturated_le_iff (t u : Int) :
    (if -9223372036854775808 ≤ t - u ∧ t - u ≤ 9223372036854775807 then t - u
        else if t < u then -9223372036854775808 else 9223372036854775807) ≤
        1209600000000000 ↔ t - u ≤ 1209600000000000 := by
  split_ifs <;> constructor <;> intro _ <;> omega

theorem timeSub_le_14_days (t u : Time) :
    Time.Sub t u ≤ 14 * 24 * Hour ↔ t - u ≤ 14 * Day :=
  saturated_le_iff t u

theorem hasRecentFail_bonus (s : UserState F) (now : Time) :
    (if hasRecentFail s now then (15 : F) else 0) = recentFailBonusSpec s now := by
  unfold hasRecentFail recentFailBonusSpec
  rcases hg : s.LastGrade with _ | g <;> rcases hr : s.LastReviewAt with _ | r <;>
    simp only [Bool.false_eq_true, if_false]
  by_cases h1 : g > 1
  · have h1' : ¬ g ≤ 1 := not_le.mpr h1
    simp only [h1, h1', if_true, false_and, if_false, Bool.false_eq_true]
  · have h1' : g ≤ 1 := not_lt.mp h1
    simp only [h1, h1', if_false, true_and, decide_eq_true_eq, timeSub_le_14_days]

theorem overdue_products (now dueAt : Time) :
    wrap64 (3 * overdueDays now dueAt) = 3 * overdueDays now dueAt ∧
      wrap64 (2 * overdueDays now dueAt) = 2 * overdueDays now dueAt := by
  obtain ⟨h0, h1⟩ := overdueDays_bounds now dueAt
  exact ⟨wrap64_of_range _ (by omega) (by omega), wrap64_of_range _ (by omega) (by omega)⟩

theorem candidateScore_eq_spec (rt : Runtime F) (strategy : String) (now : Time)
    (p : ProblemWithState F) :
    candidateScore rt strategy now p = candidateScoreSpec rt.log2 strategy now p := by
  unfold candidateScore candidateScoreSpec
  simp only [(overdue_products now p.State.DueAt).1, (overdue_products now p.State.DueAt).2,
    hasRecentFail_bonus]
  split_ifs <;> push_cast <;> ring

/-- Claim C23. For every pool entry whose difficulty is easy, medium or hard, the
candidate that `pickContestProblems` puts into the bucket of that difficulty has the
score `3*overdue + 2*(100 - mastery) + bonus + extra`, with `overdue` the result of
`overdueDays`, `mastery` the result of `masteryScore`, `bonus` 15 exactly for a recent
fail and `extra` the term of the strategy; and every candidate of a bucket comes from
such a pool entry. -/
theorem candidateScore_formula (rt : Runtime F) (strategy : String) (now : Time)
    (all : List (ProblemWithState F)) (k : String)
    (hk : k = "easy" ∨ k = "medium" ∨ k = "hard") :
    (∀ p ∈ all, normalizeDifficulty rt.lowerRune p.Difficulty = k →
      ∃ c ∈ sortedBucket rt strategy now all k, c.problem = p.toProblem ∧ c.state = p.State ∧
        c.score = candidateScoreSpec rt.log2 strategy now p) ∧
    (∀ c ∈ sortedBucket rt strategy now all k, ∃ p ∈ all,
      normalizeDifficulty rt.lowerRune p.Difficulty = k ∧ c.problem = p.toProblem ∧
        c.state = p.State ∧ c.score = candidateScoreSpec rt.log2 strategy now p) := by
  have hperm := sortedBucket_perm rt strategy now all k hk
  constructor
  · intro p hp hd
    refine ⟨mkCandidate rt strategy now p, hperm.symm.subset ?_, rfl, rfl,
      candidateScore_eq_spec rt strategy now p⟩
    exact List.mem_map_of_mem _ (List.mem_filter.2 ⟨hp, decide_eq_true hd⟩)
  · intro c hc
    obtain ⟨p, hp, rfl⟩ := List.mem_map.1 (hperm.subset hc)
    rw [List.mem_filter, decide_eq_true_eq] at hp
    exact ⟨p, hp.1, hp.2, rfl, rfl, candidateScore_eq_spec rt strategy now p⟩

theorem candidateScore_formula_witness :
    (∀ p ∈ [reviewedEntry "a" 1 0 (some 1) (some (9 * Day))],
      normalizeDifficulty sampleRuntime.lowerRune p.Difficulty = "easy" →
      ∃ c ∈ sortedBucket sampleRuntime "weakness" (10 * Day)
          [reviewedEntry "a" 1 0 (some 1) (some (9 * Day))] "easy",
        c.problem = p.toProblem ∧ c.state = p.State ∧
        c.score = candidateScoreSpec sampleRuntime.log2 "weakness" (10 * Day) p) ∧
      candidateScoreSpec sampleRuntime.log2 "weakness" (10 * Day)
        (reviewedEntry "a" 1 0 (some 1) (some (9 * Day))) = 30 + 2 * 70 + 15 + 70 :=
  ⟨(candidateScore_formula sampleRuntime "weakness" (10 * Day)
      [reviewedEntry "a" 1 0 (some 1) (some (9 * Day))] "easy" (Or.inl rfl)).1, by decide!⟩

end Score
/-! ## The score grows with the overdue days -/

section ScoreMonotone

variable {F : Type} [LinearOrderedField F]

theorem clamp_mono (v w lo hi : F) (h : v ≤ w) (hlh : lo ≤ hi) :
    clamp v lo hi ≤ clamp w lo hi := by
  unfold clamp
  split_ifs <;> linarith

theorem masteryScore_antitone (log2 : F → F) (reps : Int) (ease : F) (a b : Int)
    (ha : 0 ≤ a) (hab : a ≤ b) (hb : b < 2305843009213693952) :
    masteryScore log2 reps ease b ≤ masteryScore log2 reps ease a := by
  unfold masteryScore
  simp only []
  rw [wrap64_of_range (a * 2) (by omega) (by omega), wrap64_of_range (b * 2) (by omega) (by omega)]
  apply clamp_mono _ _ _ _ _ (by norm_num)
  have hcast : ((a * 2 : Int) : F) ≤ ((b * 2 : Int) : F) := by
    exact_mod_cast (by omega : a * 2 ≤ b * 2)
  split_ifs <;> linarith

theorem scoreOfOverdue_lt (log2 : F → F) (strategy : String) (reps : Int) (ease : F)
    (recentFail : Bool) (a b : Int) (ha : 0 ≤ a) (hab : a < b)
    (hb : b < 2305843009213693952) :
    scoreOfOverdue log2 strategy reps ease recentFail a <
      scoreOfOverdue log2 strategy reps ease recentFail b := by
  have hm := masteryScore_antitone log2 reps ease a b ha (le_of_lt hab) hb
  unfold scoreOfOverdue
  simp only []
  rw [wrap64_of_range (3 * a) (by omega) (by omega), wrap64_of_range (3 * b) (by omega) (by omega),
    wrap64_of_range (2 * a) (by omega) (by omega), wrap64_of_range (2 * b) (by omega) (by omega)]
  have h3 : ((3 * a : Int) : F) < ((3 * b : Int) : F) := by
    exact_mod_cast (by omega : 3 * a < 3 * b)
  have h2 : ((2 * a : Int) : F) < ((2 * b : Int) : F) := by
    exact_mod_cast (by omega : 2 * a < 2 * b)
  split_ifs <;> linarith

theorem candidateScore_eq_scoreOfOverdue (rt : Runtime F) (strategy : String) (now : Time)
    (p : ProblemWithState F) :
    candidateScore rt strategy now p =
      scoreOfOverdue rt.log2 strategy p.State.Reps p.State.Ease (hasRecentFail p.State now)
        (overdueDays now p.State.DueAt) := rfl

/-- Claim C28. With the strategy, `reps`, `ease` and the recent-fail status held fixed,
the score that `pickContestProblems` computes is strictly greater for the greater of
two overdue-day counts `0 ≤ a < b`, for all counts below `2^61`; every count that
`overdueDays` returns is below `2^20`, so of two pool entries that differ in their
overdue days only, the more overdue one has the strictly greater score. -/
theorem score_increases_with_overdue (rt : Runtime F) (strategy : String) :
    (∀ (reps : Int) (ease : F) (recentFail : Bool) (a b : Int), 0 ≤ a → a < b →
      b < 2 ^ 61 →
      scoreOfOverdue rt.log2 strategy reps ease recentFail a <
        scoreOfOverdue rt.log2 strategy reps ease recentFail b) ∧
    (∀ (now : Time) (p : ProblemWithState F),
      candidateScore rt strategy now p =
        scoreOfOverdue rt.log2 strategy p.State.Reps p.State.Ease (hasRecentFail p.State now)
          (overdueDays now p.State.DueAt) ∧
      0 ≤ overdueDays now p.State.DueAt ∧ overdueDays now p.State.DueAt < 2 ^ 20) ∧
    (∀ (now : Time) (p q : ProblemWithState F), p.State.Reps = q.State.Reps →
      p.State.Ease = q.State.Ease → hasRecentFail p.State now = hasRecentFail q.State now →
      overdueDays now p.State.DueAt < overdueDays now q.State.DueAt →
      candidateScore rt strategy now p < candidateScore rt strategy now q) := by
  refine ⟨?_, ?_, ?_⟩
  · intro reps ease recentFail a b ha hab hb
    exact scoreOfOverdue_lt rt.log2 strategy reps ease recentFail a b ha hab (by omega)
  · intro now p
    obtain ⟨h0, h1⟩ := overdueDays_bounds now p.State.DueAt
    exact ⟨rfl, h0, by omega⟩
  · intro now p q hr he hf hod
    rw [candidateScore_eq_scoreOfOverdue, candidateScore_eq_scoreOfOverdue, hr, he, hf]
    obtain ⟨h0, -⟩ := overdueDays_bounds now p.State.DueAt
    obtain ⟨-, h1⟩ := overdueDays_bounds now q.State.DueAt
    exact scoreOfOverdue_lt rt.log2 strategy _ _ _ _ _ h0 hod (by omega)

theorem score_increases_with_overdue_witness :
    scoreOfOverdue sampleRuntime.log2 "balanced" 1 (5 / 2) false 3 <
        scoreOfOverdue sampleRuntime.log2 "balanced" 1 (5 / 2) false 20 ∧
      candidateScore sampleRuntime "weakness" (10 * Day) (reviewedEntry "a" 1 (5 * Day) none none) <
        candidateScore sampleRuntime "weakness" (10 * Day) (reviewedEntry "b" 1 0 none none) :=
  ⟨(score_increases_with_overdue sampleRuntime "balanced").1 1 (5 / 2) false 3 20 (by decide)
      (by decide) (by decide),
    (score_increases_with_overdue sampleRuntime "weakness").2.2 (10 * Day)
      (reviewedEntry "a" 1 (5 * Day) none none) (reviewedEntry "b" 1 0 none none) rfl rfl rfl
      (by decide!)⟩

end ScoreMonotone

/-! ## The selector: topic diversity under the balanced strategy -/

theorem mem_insertKey (keys : List String) (t k : String) :
    k ∈ insertKey keys t ↔ k ∈ keys ∨ k = t := by
  unfold insertKey
  split_ifs with h
  · constructor
    · exact Or.inl
    · rintro (h' | h')
      · exact h'
      · rw [h']; exact h
  · simp

theorem insertKey_nodup (keys : List String) (t : String) (h : keys.Nodup) :
    (insertKey keys t).Nodup := by
  unfold insertKey
  split_ifs with h'
  · exact h
  · exact List.Nodup.append h (List.nodup_singleton t) (by simpa using h')

theorem topicSet_nodup (lr : Char → Char) (topics : List String) :
    (topicSet lr topics).Nodup := by
  unfold topicSet
  suffices h : ∀ init : List String, init.Nodup →
      (topics.foldl (fun out t =>
        let t := trimSpace (toLower lr t)
        if t = "" then out else insertKey out t) init).Nodup from h [] List.nodup_nil
  induction topics with
  | nil => intro init h; exact h
  | cons a l ih =>
    intro init h
    rw [List.foldl_cons]
    apply ih
    simp only []
    split_ifs
    · exact h
    · exact insertKey_nodup _ _ h

theorem mem_topicSet (lr : Char → Char) (topics : List String) (t : String) :
    t ∈ topicSet lr topics ↔ t ≠ "" ∧ ∃ raw ∈ topics, trimSpace (toLower lr raw) = t := by
  unfold topicSet
  suffices h : ∀ init : List String,
      t ∈ topics.foldl (fun out t =>
        let t := trimSpace (toLower lr t)
        if t = "" then out else insertKey out t) init ↔
      t ∈ init ∨ (t ≠ "" ∧ ∃ raw ∈ topics, trimSpace (toLower lr raw) = t) by
    simpa using h []
  induction topics with
  | nil => intro init; simp
  | cons a l ih =>
    intro init
    rw [List.foldl_cons, ih]
    simp only []
    by_cases ha : trimSpace (toLower lr a) = ""
    · rw [if_pos ha]
      constructor
      · rintro (h | ⟨h1, raw, hraw, h2⟩)
        · exact Or.inl h
        · exact Or.inr ⟨h1, raw, List.mem_cons_of_mem _ hraw, h2⟩
      · rintro (h | ⟨h1, raw, hraw, h2⟩)
        · exact Or.inl h
        · rcases List.mem_cons.1 hraw with e | hraw
          · subst e
            exact absurd (h2.symm.trans ha) h1
          · exact Or.inr ⟨h1, raw, hraw, h2⟩
    · rw [if_neg ha, mem_insertKey]
      constructor
      · rintro ((h | h) | ⟨h1, raw, hraw, h2⟩)
        · exact Or.inl h
        · exact Or.inr ⟨h ▸ ha, a, List.mem_cons_self _ _, h.symm⟩
        · exact Or.inr ⟨h1, raw, List.mem_cons_of_mem _ hraw, h2⟩
      · rintro (h | ⟨h1, raw, hraw, h2⟩)
        · exact Or.inl (Or.inl h)
        · rcases List.mem_cons.1 hraw with e | hraw
          · subst e
            exact Or.inl (Or.inr h2.symm)
          · exact Or.inr ⟨h1, raw, hraw, h2⟩

section Diversity

variable {F : Type} [LinearOrderedField F]

theorem countNewTopics_pos_iff (rt : Runtime F) (h : ∀ n j ks, (rt.rangeOrder n j ks).Perm ks)
    (n j : Nat) (used : String → Int) (ts : List String) :
    countNewTopics rt n j used ts > 0 ↔ ∃ t ∈ ts, used t = 0 := by
  unfold countNewTopics
  rw [foldl_countNew, (h n j ts).countP_eq]
  constructor
  · intro hpos
    have : 0 < ts.countP (fun t => decide (used t = 0)) := by omega
    obtain ⟨t, ht, hd⟩ := List.countP_pos_iff.1 this
    exact ⟨t, ht, by simpa using hd⟩
  · rintro ⟨t, ht, h0⟩
    have : 0 < ts.countP (fun t => decide (used t = 0)) :=
      List.countP_pos_iff.2 ⟨t, ht, by simpa using h0⟩
    omega

theorem markUsed_apply (rt : Runtime F) (h : ∀ n j ks, (rt.rangeOrder n j ks).Perm ks)
    (n : Nat) (used : String → Int) (ts : List String) (hnd : ts.Nodup) (k : String) :
    markUsed rt n used ts k = used k + (if k ∈ ts then 1 else 0) := by
  unfold markUsed
  rw [foldl_markUsed, (h n 0 ts).count_eq]
  split_ifs with hk
  · rw [List.count_eq_one_of_mem hnd hk]
    rfl
  · rw [List.count_eq_zero_of_not_mem hk]
    rfl

theorem usedTopics_zero_iff (lr : Char → Char) (st : PickState F)
    (hinv : usedTopicsAgree lr st) (t : String) :
    st.usedTopics t = 0 ↔ ∀ q ∈ st.chosen, t ∉ topicSet lr q.Topics := by
  rw [hinv t]
  constructor
  · intro h q hq hmem
    have h0 : st.chosen.countP (fun p => decide (t ∈ topicSet lr p.Topics)) = 0 := by
      exact_mod_cast h
    rw [List.countP_eq_zero] at h0
    exact absurd (decide_eq_true hmem) (h0 q hq)
  · intro h
    have h0 : st.chosen.countP (fun p => decide (t ∈ topicSet lr p.Topics)) = 0 := by
      rw [List.countP_eq_zero]
      intro q hq
      simpa using h q hq
    exact_mod_cast h0

theorem findNewTopicIdx_spec (rt : Runtime F) (h : ∀ n j ks, (rt.rangeOrder n j ks).Perm ks)
    (n : Nat) (used : String → Int) (l : List (candidate F)) :
    ∀ i : Nat,
      (findNewTopicIdx rt n used l i = none ∧
        ∀ c ∈ l, ¬ ∃ t ∈ topicSet rt.lowerRune c.problem.Topics, used t = 0) ∨
      (∃ j c, findNewTopicIdx rt n used l i = some (i + j) ∧ l[j]? = some c ∧
        (∃ t ∈ topicSet rt.lowerRune c.problem.Topics, used t = 0) ∧
        ∀ j' c', j' < j → l[j']? = some c' →
          ¬ ∃ t ∈ topicSet rt.lowerRune c'.problem.Topics, used t = 0) := by
  induction l with
  | nil =>
    intro i
    left
    exact ⟨rfl, by simp⟩
  | cons a l ih =>
    intro i
    unfold findNewTopicIdx
    by_cases hnew : countNewTopics rt n (i + 1) used (topicSet rt.lowerRune a.problem.Topics) > 0
    · rw [if_pos hnew]
      right
      refine ⟨0, a, rfl, by simp, (countNewTopics_pos_iff rt h _ _ _ _).1 hnew, ?_⟩
      intro j' c' hj'
      omega
    · rw [if_neg hnew]
      have ha : ¬ ∃ t ∈ topicSet rt.lowerRune a.problem.Topics, used t = 0 :=
        fun hex => hnew ((countNewTopics_pos_iff rt h _ _ _ _).2 hex)
      rcases ih (i + 1) with ⟨hnone, hall⟩ | ⟨j, c, hsome, hget, hc, hbefore⟩
      · left
        refine ⟨hnone, ?_⟩
        intro c hc
        rcases List.mem_cons.1 hc with e | hc
        · rw [e]; exact ha
        · exact hall c hc
      · right
        refine ⟨j + 1, c, ?_, by simpa using hget, hc, ?_⟩
        · rw [hsome]
          congr 1
          omega
        · intro j' c' hj' hget'
          rcases j' with _ | j'
          · simp at hget'
            rw [← hget']
            exact ha
          · exact hbefore j' c' (by omega) (by simpa using hget')

theorem pickStep_agree (rt : Runtime F) (h : ∀ n j ks, (rt.rangeOrder n j ks).Perm ks)
    (strategy bucket : String) (st st' : PickState F)
    (hinv : usedTopicsAgree rt.lowerRune st)
    (hstep : pickStep rt strategy bucket st = .ok st') :
    usedTopicsAgree rt.lowerRune st' ∧
      ∀ k, List.Sublist (st'.buckets k) (st.buckets k) := by
  unfold pickStep at hstep
  simp only [] at hstep
  split at hstep
  · cases hstep
  · rename_i c hc
    cases hstep
    constructor
    · intro t
      simp only []
      rw [markUsed_apply rt h _ _ _ (topicSet_nodup _ _), hinv t, List.countP_append]
      simp only [List.countP_cons, List.countP_nil, decide_eq_true_eq, zero_add]
      split_ifs <;> simp
    · intro k
      simp only []
      by_cases hk : k = bucket
      · rw [hk, setKey_same]
        have hsub : List.Sublist
            ((st.buckets bucket).take
                (bestIdx rt strategy st.chosen.length st.usedTopics (st.buckets bucket)) ++
              (st.buckets bucket).drop
                (bestIdx rt strategy st.chosen.length st.usedTopics (st.buckets bucket) + 1))
            ((st.buckets bucket).take
                (bestIdx rt strategy st.chosen.length st.usedTopics (st.buckets bucket)) ++
              (st.buckets bucket).drop
                (bestIdx rt strategy st.chosen.length st.usedTopics (st.buckets bucket))) :=
          List.Sublist.append (List.Sublist.refl _)
            (List.drop_sublist_drop_left _ (Nat.le_succ _))
        rw [List.take_append_drop] at hsub
        exact hsub
      · rw [setKey_other _ _ hk]

theorem reachable_agree (rt : Runtime F) (h : ∀ n j ks, (rt.rangeOrder n j ks).Perm ks)
    (now : Time) (params : GenerateParams) (all : List (ProblemWithState F))
    (st : PickState F) (hreach : Reachable rt now params all st) :
    usedTopicsAgree rt.lowerRune st ∧
      ∀ k, List.Sublist (st.buckets k)
        (sortedBucket rt (normalizeStrategy rt.lowerRune params.Strategy) now all k) := by
  induction hreach with
  | start =>
    constructor
    · intro t
      simp
    · intro k
      exact List.Sublist.refl _
  | step bucket st st' _ _ hstep ih =>
    obtain ⟨h1, h2⟩ := pickStep_agree rt h _ bucket st st' ih.1 hstep
    exact ⟨h1, fun k => (h2 k).trans (ih.2 k)⟩

theorem pickLoop_reachable (rt : Runtime F) (now : Time) (params : GenerateParams)
    (all : List (ProblemWithState F)) (bucket : String) (fuel : Nat) :
    ∀ st st' : PickState F, Reachable rt now params all st →
      pickLoop rt (normalizeStrategy rt.lowerRune params.Strategy) bucket fuel st = .ok st' →
      Reachable rt now params all st' := by
  induction fuel with
  | zero =>
    intro st st' hreach hloop
    unfold pickLoop at hloop
    split_ifs at hloop
    cases hloop
    exact hreach
  | succ fuel ih =>
    intro st st' hreach hloop
    unfold pickLoop at hloop
    split_ifs at hloop with hguard
    · split at hloop
      · cases hloop
      · rename_i st₁ hstep
        exact ih st₁ st' (Reachable.step bucket st st₁ hreach hguard hstep) hloop
    · cases hloop
      exact hreach

theorem pickContestProblems_reachable (rt : Runtime F) (now : Time) (params : GenerateParams)
    (all : List (ProblemWithState F)) (chosen : List Problem)
    (hpick : pickContestProblems rt now params all = .ok chosen) :
    ∃ st, Reachable rt now params all st ∧ st.chosen = chosen := by
  unfold pickContestProblems at hpick
  simp only [] at hpick
  split_ifs at hpick
  split at hpick
  · cases hpick
  rename_i st₁ h₁
  split at hpick
  · cases hpick
  rename_i st₂ h₂
  split at hpick
  · cases hpick
  rename_i st₃ h₃
  cases hpick
  have r₁ := pickLoop_reachable rt now params all "easy" _ _ st₁ Reachable.start h₁
  have r₂ := pickLoop_reachable rt now params all "medium" _ _ st₂ r₁ h₂
  exact ⟨st₃, pickLoop_reachable rt now params all "hard" _ _ st₃ r₂ h₃, rfl⟩

end Diversity

section DiversityClaim

variable {F : Type} [LinearOrderedField F]

/-- Claim C24. Under the strategy `balanced`, at every iteration of the loop of
`pickFrom` in a state that a call of `pickContestProblems` can go through (`range`
visiting every key of a map once): the candidate picked stands at an index `i` of the
bucket, which is what is left of the sorted bucket, in sorted order; if some candidate
left in the bucket has a normalized topic that no problem chosen so far has, the
candidate picked is the first such candidate, otherwise it is the first candidate of
the bucket; it is removed from the bucket and its problem is appended to the chosen
problems; and afterwards the map `usedTopics` is zero exactly at the topics that no
chosen problem has, so every topic of the picked problem counts as used.  A normalized
topic is a non-empty trimmed and lowercased topic. -/
theorem pickStep_balanced_diversity (rt : Runtime F)
    (hrange : ∀ n j ks, (rt.rangeOrder n j ks).Perm ks) (now : Time)
    (params : GenerateParams) (all : List (ProblemWithState F))
    (hs : normalizeStrategy rt.lowerRune params.Strategy = "balanced")
    (st : PickState F) (hreach : Reachable rt now params all st) (bucket : String)
    (hguard : st.want bucket > 0 ∧ (st.buckets bucket).length > 0) :
    ∃ (i : Nat) (c : candidate F) (st' : PickState F),
      pickStep rt "balanced" bucket st = .ok st' ∧
      Reachable rt now params all st' ∧
      List.Sublist (st.buckets bucket) (sortedBucket rt "balanced" now all bucket) ∧
      (st.buckets bucket)[i]? = some c ∧
      ((∃ c' ∈ st.buckets bucket, bringsNewTopic rt.lowerRune st.chosen c'.problem) →
        bringsNewTopic rt.lowerRune st.chosen c.problem ∧
        ∀ j c', j < i → (st.buckets bucket)[j]? = some c' →
          ¬ bringsNewTopic rt.lowerRune st.chosen c'.problem) ∧
      ((¬ ∃ c' ∈ st.buckets bucket, bringsNewTopic rt.lowerRune st.chosen c'.problem) →
        i = 0) ∧
      st'.chosen = st.chosen ++ [c.problem] ∧
      st'.buckets bucket = (st.buckets bucket).take i ++ (st.buckets bucket).drop (i + 1) ∧
      (∀ t, st'.usedTopics t = 0 ↔
        ∀ q ∈ st.chosen ++ [c.problem], t ∉ topicSet rt.lowerRune q.Topics) ∧
      (∀ t ∈ topicSet rt.lowerRune c.problem.Topics, st'.usedTopics t ≠ 0) ∧
      (∀ (p : Problem) (t : String), t ∈ topicSet rt.lowerRune p.Topics ↔
        t ≠ "" ∧ ∃ raw ∈ p.Topics, trimSpace (toLower rt.lowerRune raw) = t) := by
  obtain ⟨hinv, hsub⟩ := reachable_agree rt hrange now params all st hreach
  rw [hs] at hsub
  have hnew : ∀ c' : candidate F,
      (∃ t ∈ topicSet rt.lowerRune c'.problem.Topics, st.usedTopics t = 0) ↔
        bringsNewTopic rt.lowerRune st.chosen c'.problem := by
    intro c'
    unfold bringsNewTopic
    constructor
    · rintro ⟨t, ht, h0⟩
      exact ⟨t, ht, (usedTopics_zero_iff rt.lowerRune st hinv t).1 h0⟩
    · rintro ⟨t, ht, h0⟩
      exact ⟨t, ht, (usedTopics_zero_iff rt.lowerRune st hinv t).2 h0⟩
  have key : ∃ (i : Nat) (c : candidate F),
      bestIdx rt "balanced" st.chosen.length st.usedTopics (st.buckets bucket) = i ∧
      (st.buckets bucket)[i]? = some c ∧
      ((∃ c' ∈ st.buckets bucket, bringsNewTopic rt.lowerRune st.chosen c'.problem) →
        bringsNewTopic rt.lowerRune st.chosen c.problem ∧
        ∀ j c', j < i → (st.buckets bucket)[j]? = some c' →
          ¬ bringsNewTopic rt.lowerRune st.chosen c'.problem) ∧
      ((¬ ∃ c' ∈ st.buckets bucket, bringsNewTopic rt.lowerRune st.chosen c'.problem) →
        i = 0) := by
    unfold bestIdx
    rw [if_pos rfl]
    rcases findNewTopicIdx_spec rt hrange st.chosen.length st.usedTopics (st.buckets bucket) 0
      with ⟨hnone, hall⟩ | ⟨j, c, hsome, hget, hc, hbefore⟩
    · rw [hnone]
      have hno : ¬ ∃ c' ∈ st.buckets bucket,
          bringsNewTopic rt.lowerRune st.chosen c'.problem := by
        rintro ⟨c', hc', hb⟩
        exact hall c' hc' ((hnew c').2 hb)
      obtain ⟨c, hc⟩ : ∃ c, (st.buckets bucket)[0]? = some c := by
        cases hb : st.buckets bucket with
        | nil => rw [hb] at hguard; simp at hguard
        | cons a l => exact ⟨a, by simp⟩
      exact ⟨0, c, rfl, hc, fun hex => absurd hex hno, fun _ => rfl⟩
    · rw [hsome]
      simp only [Option.getD_some, zero_add]
      refine ⟨j, c, rfl, hget, fun _ => ⟨(hnew c).1 hc, ?_⟩, ?_⟩
      · intro j' c' hj' hget' hb
        exact hbefore j' c' hj' hget' ((hnew c').2 hb)
      · intro hno
        exfalso
        apply hno
        have hj : j < (st.buckets bucket).length := by
          rcases Nat.lt_or_ge j (st.buckets bucket).length with h | h
          · exact h
          · rw [List.getElem?_eq_none h] at hget
            cases hget
        exact ⟨c, List.mem_iff_getElem?.2 ⟨j, hget⟩, (hnew c).1 hc⟩
  obtain ⟨i, c, hbest, hget, hfirst, hzero⟩ := key
  have hstep : pickStep rt "balanced" bucket st =
      .ok { buckets := setKey st.buckets bucket
              ((st.buckets bucket).take i ++ (st.buckets bucket).drop (i + 1))
            want := setKey st.want bucket (st.want bucket - 1)
            usedTopics := markUsed rt st.chosen.length st.usedTopics
              (topicSet rt.lowerRune c.problem.Topics)
            chosen := st.chosen ++ [c.problem] } := by
    unfold pickStep
    simp only [hbest, hget]
  have hstep' := hstep
  rw [← hs] at hstep'
  have hagree := (pickStep_agree rt hrange _ bucket st _ hinv hstep).1
  have hused : ∀ t, markUsed rt st.chosen.length st.usedTopics
      (topicSet rt.lowerRune c.problem.Topics) t = 0 ↔
        ∀ q ∈ st.chosen ++ [c.problem], t ∉ topicSet rt.lowerRune q.Topics :=
    fun t => usedTopics_zero_iff rt.lowerRune _ hagree t
  refine ⟨i, c, _, hstep, Reachable.step bucket st _ hreach hguard hstep', hsub bucket, hget,
    hfirst, hzero, rfl, setKey_same _ _ _, hused, ?_, fun p t => mem_topicSet _ _ _⟩
  intro t ht h0
  exact (hused t).1 h0 c.problem (by simp) ht

end DiversityClaim

theorem pickStep_balanced_diversity_witness :
    ((sampleAfterOne.buckets "easy").map (fun c => c.problem.ID) = ["e2", "e3"] ∧
      bestIdx sampleRuntime "balanced" 1 sampleAfterOne.usedTopics
        (sampleAfterOne.buckets "easy") = 1) ∧
    ∃ (i : Nat) (c : candidate ℚ) (st' : PickState ℚ),
      pickStep sampleRuntime "balanced" "easy" sampleAfterOne = .ok st' ∧
      Reachable sampleRuntime 0 (sampleParams "balanced") samplePool st' ∧
      List.Sublist (sampleAfterOne.buckets "easy")
        (sortedBucket sampleRuntime "balanced" 0 samplePool "easy") ∧
      (sampleAfterOne.buckets "easy")[i]? = some c ∧
      ((∃ c' ∈ sampleAfterOne.buckets "easy",
          bringsNewTopic sampleRuntime.lowerRune sampleAfterOne.chosen c'.problem) →
        bringsNewTopic sampleRuntime.lowerRune sampleAfterOne.chosen c.problem ∧
        ∀ j c', j < i → (sampleAfterOne.buckets "easy")[j]? = some c' →
          ¬ bringsNewTopic sampleRuntime.lowerRune sampleAfterOne.chosen c'.problem) ∧
      ((¬ ∃ c' ∈ sampleAfterOne.buckets "easy",
          bringsNewTopic sampleRuntime.lowerRune sampleAfterOne.chosen c'.problem) → i = 0) ∧
      st'.chosen = sampleAfterOne.chosen ++ [c.problem] ∧
      st'.buckets "easy" =
        (sampleAfterOne.buckets "easy").take i ++ (sampleAfterOne.buckets "easy").drop (i + 1) ∧
      (∀ t, st'.usedTopics t = 0 ↔
        ∀ q ∈ sampleAfterOne.chosen ++ [c.problem],
          t ∉ topicSet sampleRuntime.lowerRune q.Topics) ∧
      (∀ t ∈ topicSet sampleRuntime.lowerRune c.problem.Topics, st'.usedTopics t ≠ 0) ∧
      (∀ (p : Problem) (t : String), t ∈ topicSet sampleRuntime.lowerRune p.Topics ↔
        t ≠ "" ∧ ∃ raw ∈ p.Topics, trimSpace (toLower sampleRuntime.lowerRune raw) = t) :=
by
  have hstep : pickStep sampleRuntime
      (normalizeStrategy sampleRuntime.lowerRune (sampleParams "balanced").Strategy) "easy"
      sampleStart = .ok sampleAfterOne := by
    obtain ⟨c, st', h, -⟩ := pickStep_ok sampleRuntime
      (normalizeStrategy sampleRuntime.lowerRune (sampleParams "balanced").Strategy) "easy"
      sampleStart (by decide!)
    unfold sampleAfterOne
    rw [h]
  exact ⟨⟨by decide!, by decide!⟩,
    pickStep_balanced_diversity sampleRuntime (fun _ _ ks => List.Perm.refl ks) 0
      (sampleParams "balanced") samplePool (by decide!) sampleAfterOne
      (Reachable.step "easy" sampleStart sampleAfterOne Reachable.start
        ⟨by decide, by decide!⟩ hstep)
      "easy" ⟨by decide!, by decide!⟩⟩

/-! ## Topic statistics: the mastery formula is the one of the selector -/

theorem timeSub_self (t : Time) : Time.Sub t t = 0 := by
  unfold Time.Sub
  rw [sub_self, if_pos (by decide)]

theorem overdue_at_zero : wrap64 (truncToInt (roundF64 (Duration.Hours 0 / 24))) = 0 := by
  decide!

/-- Claim C27. The function `masteryScore` of package `stats` returns, for every `reps`,
`ease` and overdue-day count, what `masteryScore` of package `contests` returns; the
overdue-day count that stats `Handler.Topics` computes from `now` and `due_at` is the
result of `overdueDays` of package `contests` for all instants; so the mastery that
`Handler.Topics` gives a row is the mastery the selector gives it. -/
theorem stats_mastery_shared {F : Type} [LinearOrderedField F] (log2 : F → F) :
    (∀ (reps : Int) (ease : F) (od : Int),
      stats.masteryScore log2 reps ease od = masteryScore log2 reps ease od) ∧
    (∀ now dueAt : Time, stats.topicsOverdueDays now dueAt = overdueDays now dueAt) ∧
    (∀ (now : Time) (reps : Int) (ease : F) (dueAt : Time),
      stats.topicsMastery log2 now reps ease dueAt =
        masteryScore log2 reps ease (overdueDays now dueAt)) := by
  have h1 : ∀ (reps : Int) (ease : F) (od : Int),
      stats.masteryScore log2 reps ease od = masteryScore log2 reps ease od :=
    fun _ _ _ => rfl
  have h2 : ∀ now dueAt : Time, stats.topicsOverdueDays now dueAt = overdueDays now dueAt := by
    intro now dueAt
    unfold stats.topicsOverdueDays overdueDays Time.After Time.Before
    rcases lt_trichotomy now dueAt with h | h | h
    · rw [if_neg (by simpa using le_of_lt h), if_pos (by simpa using h)]
    · subst h
      rw [if_neg (by simp), if_neg (by simp)]
      simp only [timeSub_self]
      exact overdue_at_zero.symm
    · rw [if_pos (by simpa using h), if_neg (by simpa using le_of_lt h)]
  refine ⟨h1, h2, ?_⟩
  intro now reps ease dueAt
  unfold stats.topicsMastery
  rw [h1, h2]
/-! ## Calendar export: timed events -/

theorem semiEscapedFrom_of_noSemi (l : List Char) (h : ∀ c ∈ l, c ≠ ';') :
    ∀ p, semiEscapedFrom p l = true := by
  induction l with
  | nil => intro p; rfl
  | cons a t ih =>
    intro p
    unfold semiEscapedFrom
    rw [ih (fun c hc => h c (List.mem_cons_of_mem a hc)) a]
    have ha : a ≠ ';' := h a (List.mem_cons_self a t)
    simp [ha]

theorem semiEscaped_of_noSemi (l : List Char) (h : ∀ c ∈ l, c ≠ ';') : semiEscaped l :=
  semiEscapedFrom_of_noSemi l h ' '

theorem semiEscapedFrom_any (l : List Char) (h : semiEscaped l) :
    ∀ p, semiEscapedFrom p l = true := by
  intro p
  cases l with
  | nil => rfl
  | cons a t =>
    unfold semiEscaped semiEscapedFrom at h
    unfold semiEscapedFrom
    simp only [Bool.and_eq_true, Bool.or_eq_true, bne_iff_ne, beq_iff_eq] at h ⊢
    rcases h with ⟨h1 | h1, h2⟩
    · exact ⟨Or.inl h1, h2⟩
    · exact absurd h1 (by decide)

theorem semiEscapedFrom_append (x y : List Char) (hy : semiEscaped y) :
    ∀ p, semiEscapedFrom p x = true → semiEscapedFrom p (x ++ y) = true := by
  induction x with
  | nil =>
    intro p _
    exact semiEscapedFrom_any y hy p
  | cons a t ih =>
    intro p h
    unfold semiEscapedFrom at h
    rw [List.cons_append]
    unfold semiEscapedFrom
    simp only [Bool.and_eq_true] at h ⊢
    exact ⟨h.1, ih a h.2⟩

theorem semiEscaped_append (x y : List Char) (hx : semiEscaped x) (hy : semiEscaped y) :
    semiEscaped (x ++ y) :=
  semiEscapedFrom_append x y hy ' ' hx

theorem semiEscapedFrom_left (x y : List Char) :
    ∀ p, semiEscapedFrom p (x ++ y) = true → semiEscapedFrom p x = true := by
  induction x with
  | nil => intro p _; rfl
  | cons a t ih =>
    intro p h
    rw [List.cons_append] at h
    unfold semiEscapedFrom at h ⊢
    simp only [Bool.and_eq_true] at h ⊢
    exact ⟨h.1, ih a h.2⟩

theorem semiEscapedFrom_right (x y : List Char) :
    ∀ p, semiEscapedFrom p (x ++ y) = true → ∃ p', semiEscapedFrom p' y = true := by
  induction x with
  | nil => intro p h; exact ⟨p, h⟩
  | cons a t ih =>
    intro p h
    rw [List.cons_append] at h
    unfold semiEscapedFrom at h
    simp only [Bool.and_eq_true] at h
    exact ih a h.2

theorem date_start_not_semiEscaped (p : Char) :
    semiEscapedFrom p ("DTSTART;VALUE=DATE:" : String).data = false := by
  have h : semiEscapedFrom 'D' ("TSTART;VALUE=DATE:" : String).data = false := by decide
  show ((_ || _) && semiEscapedFrom 'D' ("TSTART;VALUE=DATE:" : String).data) = false
  rw [h, Bool.and_false]

theorem digitChar_noSemi (n : Nat) : digitChar n ≠ ';' := by
  have key : ∀ k, k < 10 → Char.ofNat (48 + k) ≠ ';' := by decide
  exact key (n % 10) (Nat.mod_lt n (by decide))

theorem decimalDigits_noSemi (fuel n : Nat) : ∀ c ∈ decimalDigits fuel n, c ≠ ';' := by
  induction fuel generalizing n with
  | zero => intro c hc; simp [decimalDigits] at hc
  | succ fuel ih =>
    unfold decimalDigits
    split_ifs
    · intro c hc
      simp only [List.mem_singleton] at hc
      rw [hc]
      exact digitChar_noSemi n
    · intro c hc
      rcases List.mem_append.1 hc with hc | hc
      · exact ih _ c hc
      · simp only [List.mem_singleton] at hc
        rw [hc]
        exact digitChar_noSemi n

theorem appendInt_noSemi (x : Int) (width : Nat) : ∀ c ∈ appendInt x width, c ≠ ';' := by
  unfold appendInt
  intro c hc
  simp only [List.mem_append] at hc
  rcases hc with (hc | hc) | hc
  · split_ifs at hc
    · simp only [List.mem_singleton] at hc
      rw [hc]
      decide
    · simp at hc
  · rw [(List.mem_replicate.mp hc).2]
    decide
  · exact decimalDigits_noSemi _ _ c hc

theorem formatStamp_semiEscaped (t : ZonedTime) : semiEscaped t.formatStamp.data := by
  apply semiEscaped_of_noSemi
  unfold ZonedTime.formatStamp
  intro c hc
  simp only [List.mem_append, List.mem_singleton] at hc
  rcases hc with ((((((hc | hc) | hc) | hc) | hc) | hc) | hc) | hc
  · exact appendInt_noSemi _ _ c hc
  · exact appendInt_noSemi _ _ c hc
  · exact appendInt_noSemi _ _ c hc
  · rw [hc]; decide
  · exact appendInt_noSemi _ _ c hc
  · exact appendInt_noSemi _ _ c hc
  · exact appendInt_noSemi _ _ c hc
  · rw [hc]; decide

theorem escapeChar_semiEscaped (c : Char) : semiEscaped (escapeChar c) := by
  unfold escapeChar
  split_ifs with h1 h2 h3 h4
  · decide
  · decide
  · decide
  · decide
  · exact semiEscaped_of_noSemi _ (fun d hd => by
      simp only [List.mem_singleton] at hd
      rw [hd]
      exact h3)

theorem escapePass_semiEscaped (l : List Char) : semiEscaped (escapePass l) := by
  suffices h : ∀ n (l : List Char), l.length ≤ n → semiEscaped (escapePass l) from
    h l.length l (le_refl _)
  intro n
  induction n with
  | zero =>
    intro l hl
    have : l = [] := List.length_eq_zero.mp (by omega)
    subst this
    decide
  | succ n ih =>
    intro l hl
    match l, hl with
    | [], _ => decide
    | [c], _ => exact escapeChar_semiEscaped c
    | c :: d :: cs, hl =>
      simp only [List.length_cons] at hl
      unfold escapePass
      split_ifs
      · exact semiEscaped_append ['\\', 'n'] _ (by decide) (ih cs (by omega))
      · exact semiEscaped_append _ _ (escapeChar_semiEscaped c)
          (ih (d :: cs) (by simp only [List.length_cons]; omega))

theorem escapeText_semiEscaped (s : String) : semiEscaped (escapeText s).data := by
  rw [escapeText_data, escapeChain_eq_escapePass]
  exact escapePass_semiEscaped _

theorem semiEscaped_tagged (tag value : String) (ht : semiEscaped tag.data)
    (hv : semiEscaped value.data) : semiEscaped (tag ++ value).data := by
  rw [String.data_append]
  exact semiEscaped_append _ _ ht hv

theorem eventLines_semiEscaped (now : Time) (e : Event) (hall : e.AllDay = false) :
    ∀ l ∈ eventLines now e, semiEscaped l.data := by
  intro l hl
  unfold eventLines at hl
  simp only [hall, Bool.false_eq_true, if_false, List.mem_append] at hl
  rcases hl with ((((hA | hB) | hC) | hD) | hE) | hF
  · simp only [List.mem_cons, List.mem_singleton, List.not_mem_nil, or_false] at hA
    rcases hA with hl | hl | hl
    · rw [hl]; decide
    · rw [hl]; exact semiEscaped_tagged _ _ (by decide) (escapeText_semiEscaped _)
    · rw [hl]; exact semiEscaped_tagged _ _ (by decide) (formatStamp_semiEscaped _)
  · simp only [List.mem_cons, List.mem_singleton, List.not_mem_nil, or_false] at hB
    rcases hB with hl | hl
    · rw [hl]; exact semiEscaped_tagged _ _ (by decide) (formatStamp_semiEscaped _)
    · rw [hl]; exact semiEscaped_tagged _ _ (by decide) (formatStamp_semiEscaped _)
  · simp only [List.mem_singleton] at hC
    rw [hC]; exact semiEscaped_tagged _ _ (by decide) (escapeText_semiEscaped _)
  · split_ifs at hD
    · simp only [List.mem_singleton] at hD
      rw [hD]; exact semiEscaped_tagged _ _ (by decide) (escapeText_semiEscaped _)
    · simp at hD
  · split_ifs at hE
    · simp only [List.mem_singleton] at hE
      rw [hE]; exact semiEscaped_tagged _ _ (by decide) (escapeText_semiEscaped _)
    · simp at hE
  · simp only [List.mem_singleton] at hF
    rw [hF]; decide

theorem icsLines_semiEscaped (now : Time) (calName : String) (events : List Event)
    (hall : ∀ e ∈ events, e.AllDay = false) :
    ∀ l ∈ icsLines now calName events, semiEscaped l.data := by
  intro l hl
  unfold icsLines at hl
  simp only [List.mem_append] at hl
  rcases hl with (((hA | hB) | hC) | hD) | hE
  · simp only [List.mem_cons, List.mem_singleton, List.not_mem_nil, or_false] at hA
    rcases hA with hl | hl | hl
    · rw [hl]; decide
    · rw [hl]; decide
    · rw [hl]; decide
  · split_ifs at hB
    · simp only [List.mem_singleton] at hB
      rw [hB]; exact semiEscaped_tagged _ _ (by decide) (escapeText_semiEscaped _)
    · simp at hB
  · simp only [List.mem_singleton] at hC
    rw [hC]; decide
  · simp only [List.mem_flatten, List.mem_map] at hD
    obtain ⟨ls, ⟨e, he, rfl⟩, hl'⟩ := hD
    exact eventLines_semiEscaped now e (hall e he) l hl'
  · simp only [List.mem_singleton] at hE
    rw [hE]; decide

theorem semiEscaped_lines (lines : List String) (h : ∀ l ∈ lines, semiEscaped l.data) :
    semiEscaped ((lines.map (fun line => line.data ++ ['\r', '\n'])).flatten) := by
  induction lines with
  | nil => decide
  | cons l ls ih =>
    simp only [List.map_cons, List.flatten_cons]
    exact semiEscaped_append _ _
      (semiEscaped_append _ _ (h l (List.mem_cons_self l ls)) (by decide))
      (ih (fun x hx => h x (List.mem_cons_of_mem l hx)))

theorem BuildICS_no_date_start (now : Time) (calName : String) (events : List Event)
    (hall : ∀ e ∈ events, e.AllDay = false) :
    ¬ ("DTSTART;VALUE=DATE:" : String).data <:+: (BuildICS now calName events).data := by
  rintro ⟨s, t, hst⟩
  have h : semiEscaped (BuildICS now calName events).data := by
    rw [BuildICS_data]
    exact semiEscaped_lines _ (icsLines_semiEscaped now calName events hall)
  rw [← hst] at h
  obtain ⟨p, hp⟩ := semiEscapedFrom_right s _ ' ' (semiEscapedFrom_left _ t ' ' h)
  rw [date_start_not_semiEscaped p] at hp
  cases hp

theorem BuildICS_timed_start (now : Time) (calName : String) (events : List Event)
    (hne : events ≠ []) (hall : ∀ e ∈ events, e.AllDay = false) :
    ("DTSTART:" : String).data <:+: (BuildICS now calName events).data := by
  cases events with
  | nil => exact absurd rfl hne
  | cons e es =>
    have hmem : "DTSTART:" ++ e.Start.UTC.formatStamp ∈ eventLines now e := by
      unfold eventLines
      simp [hall e (List.mem_cons_self e es)]
    obtain ⟨-, s, t, hst⟩ := eventLine_in_output now calName (e :: es) e
      (List.mem_cons_self e es) _ hmem
    rw [String.data_append] at hst
    exact ⟨s, e.Start.UTC.formatStamp.data ++ ['\r', '\n'] ++ t, by
      rw [← hst]
      simp only [List.append_assoc]⟩

theorem ICS_ok (env : ICSEnv) (h : (calendar.ICS env).status = 200) :
    ∃ (userID : String) (settings : Settings) (due : List DueProblem),
      env.settings = some settings ∧
      (calendar.ICS env).body = BuildICS env.nowAtBuild "PrepTracker"
        (due.map (calendar.dueEvent userID settings
          (resolveLocation env.loadLocation settings.Timezone))) := by
  unfold calendar.ICS at h ⊢
  simp only [] at h ⊢
  by_cases hm : env.methodIsGet = false
  · rw [if_pos hm] at h
    simp at h
  rw [if_neg hm] at h ⊢
  by_cases ht : trimSpace env.token = ""
  · rw [if_pos ht] at h
    simp at h
  rw [if_neg ht] at h ⊢
  cases hu : env.userIDByRawToken (trimSpace env.token) with
  | none =>
    simp only [hu] at h
    simp at h
  | some userID =>
    cases hs : env.settings with
    | none =>
      simp only [hu, hs] at h
      simp at h
    | some settings =>
      simp only [hu, hs] at h ⊢
      split at h
      · simp at h
      · rename_i due hd
        exact ⟨userID, settings, due, rfl, rfl⟩

/-- Claim C21. For every calendar name and every non-empty list of events that all
have `AllDay = false`, the string returned by `BuildICS` contains `DTSTART:` and does
not contain `DTSTART;VALUE=DATE:`, whatever the text fields hold: a semicolon of a text
field is written after a backslash.  Every event that calendar `Handler.ICS` builds has
`AllDay = false`, so the body of its answer 200 never contains `DTSTART;VALUE=DATE:`,
and contains `DTSTART:` when a problem is due. -/
theorem BuildICS_timed_events (now : Time) (calName : String) (events : List Event)
    (hne : events ≠ []) (hall : ∀ e ∈ events, e.AllDay = false) :
    ("DTSTART:" : String).data <:+: (BuildICS now calName events).data ∧
    ¬ ("DTSTART;VALUE=DATE:" : String).data <:+: (BuildICS now calName events).data ∧
    (∀ (userID : String) (settings : Settings) (loc : Location) (d : DueProblem),
      (calendar.dueEvent userID settings loc d).AllDay = false) ∧
    (∀ env : ICSEnv, (calendar.ICS env).status = 200 →
      ¬ ("DTSTART;VALUE=DATE:" : String).data <:+: (calendar.ICS env).body.data ∧
      ∃ (userID : String) (settings : Settings) (due : List DueProblem),
        (calendar.ICS env).body = BuildICS env.nowAtBuild "PrepTracker"
          (due.map (calendar.dueEvent userID settings
            (resolveLocation env.loadLocation settings.Timezone))) ∧
        (due ≠ [] → ("DTSTART:" : String).data <:+: (calendar.ICS env).body.data)) := by
  refine ⟨BuildICS_timed_start now calName events hne hall,
    BuildICS_no_date_start now calName events hall, fun _ _ _ _ => rfl, ?_⟩
  intro env hok
  obtain ⟨userID, settings, due, -, hbody⟩ := ICS_ok env hok
  have hall' : ∀ e ∈ due.map (calendar.dueEvent userID settings
      (resolveLocation env.loadLocation settings.Timezone)), e.AllDay = false := by
    intro e he
    obtain ⟨d, -, rfl⟩ := List.mem_map.1 he
    rfl
  refine ⟨?_, userID, settings, due, hbody, ?_⟩
  · rw [hbody]
    exact BuildICS_no_date_start _ _ _ hall'
  · intro hd
    rw [hbody]
    exact BuildICS_timed_start _ _ _ (by simpa using hd) hall'

theorem BuildICS_timed_events_witness :
    ("DTSTART:" : String).data <:+:
        (BuildICS (99 * Day) "PrepTracker"
          [calendar.dueEvent "u1" sampleSettings Location.UTC sampleDue]).data ∧
    ¬ ("DTSTART;VALUE=DATE:" : String).data <:+:
        (BuildICS (99 * Day) "PrepTracker"
          [calendar.dueEvent "u1" sampleSettings Location.UTC sampleDue]).data ∧
    (calendar.ICS sampleICSEnv).status = 200 ∧
    ¬ ("DTSTART;VALUE=DATE:" : String).data <:+: (calendar.ICS sampleICSEnv).body.data :=
  have h := BuildICS_timed_events (99 * Day) "PrepTracker"
    [calendar.dueEvent "u1" sampleSettings Location.UTC sampleDue] (List.cons_ne_nil _ _)
    (fun e he => by rw [List.mem_singleton.1 he]; rfl)
  ⟨h.1, h.2.1, by decide!, (h.2.2.2 sampleICSEnv (by decide!)).1⟩

/-! ## Refresh tokens: single use and revocation -/

theorem getByHash_revoke (store : RefreshStore) (id : String) (dbNow : Time) (h : String) :
    RefreshRepo.GetByHash (RefreshRepo.Revoke store id dbNow) h =
      (RefreshRepo.GetByHash store h).map (fun r =>
        if r.ID = id ∧ r.RevokedAt = none then { r with RevokedAt := some dbNow } else r) := by
  unfold RefreshRepo.GetByHash RefreshRepo.Revoke
  induction store with
  | nil => rfl
  | cons r rs ih =>
    rw [List.map_cons, List.find?_cons, List.find?_cons]
    have hhash : (if r.ID = id ∧ r.RevokedAt = none then { r with RevokedAt := some dbNow }
        else r).TokenHash = r.TokenHash := by
      split_ifs <;> rfl
    rw [hhash]
    by_cases hr : r.TokenHash = h
    · simp only [hr, decide_True, Option.map_some']
    · simp only [hr, decide_False]
      exact ih

theorem getByHash_create (store : RefreshStore) (id userID hash : String) (e : Time)
    (h : String) (hne : hash ≠ h) :
    RefreshRepo.GetByHash (RefreshRepo.Create store id userID hash e) h =
      RefreshRepo.GetByHash store h := by
  unfold RefreshRepo.GetByHash RefreshRepo.Create
  rw [List.find?_cons]
  simp only [hne, decide_False]

theorem retired_revoke (cfg : AuthConfig) (t : String) (store : RefreshStore) (id : String)
    (dbNow : Time) (h : auth.retired cfg t store) :
    auth.retired cfg t (RefreshRepo.Revoke store id dbNow) := by
  intro row hrow
  rw [getByHash_revoke] at hrow
  cases hg : RefreshRepo.GetByHash store (cfg.hashToken t) with
  | none => rw [hg] at hrow; cases hrow
  | some r =>
    rw [hg] at hrow
    simp only [Option.map_some', Option.some.injEq] at hrow
    have hr := h r hg
    rw [← hrow]
    split_ifs with hc
    · simp
    · exact hr

theorem retired_after_revoke (cfg : AuthConfig) (t : String) (store : RefreshStore)
    (r : RefreshRow) (dbNow : Time)
    (hg : RefreshRepo.GetByHash store (cfg.hashToken t) = some r) :
    auth.retired cfg t (RefreshRepo.Revoke store r.ID dbNow) := by
  intro row hrow
  rw [getByHash_revoke, hg] at hrow
  simp only [Option.map_some', Option.some.injEq] at hrow
  rw [← hrow]
  split_ifs with hc
  · simp
  · exact fun hn => hc ⟨trivial, hn⟩

theorem retired_ite (cfg : AuthConfig) (t : String) (c : Prop) [Decidable c]
    (a b : RefreshStore × AuthResponse) (ha : auth.retired cfg t a.1)
    (hb : auth.retired cfg t b.1) : auth.retired cfg t (if c then a else b).1 := by
  split_ifs
  · exact ha
  · exact hb

theorem issue_match_fst (cfg : AuthConfig) (env : AuthEnv) (store : RefreshStore)
    (userID : String) (x : AuthResponse) (y : tokenResponse → AuthResponse) :
    (match auth.issueTokens cfg env store userID with
      | (store', none) => (store', x)
      | (store', some resp) => (store', y resp)).1 =
      (auth.issueTokens cfg env store userID).1 := by
  rcases auth.issueTokens cfg env store userID with ⟨a, _ | b⟩ <;> rfl

theorem retired_issueTokens (cfg : AuthConfig) (t : String) (env : AuthEnv)
    (store : RefreshStore) (userID : String)
    (hfresh : ∀ raw, env.newRawToken = some raw → cfg.hashToken raw ≠ cfg.hashToken t)
    (h : auth.retired cfg t store) :
    auth.retired cfg t (auth.issueTokens cfg env store userID).1 := by
  unfold auth.issueTokens
  split
  · exact h
  split
  · exact h
  rename_i raw hraw
  split
  · exact h
  intro row hrow
  simp only [] at hrow
  rw [getByHash_create _ _ _ _ _ _ (hfresh raw hraw)] at hrow
  exact h row hrow

theorem retired_Register (cfg : AuthConfig) (t : String) (env : AuthEnv)
    (store : RefreshStore) (body : Option registerRequest)
    (hfresh : ∀ raw, env.newRawToken = some raw → cfg.hashToken raw ≠ cfg.hashToken t)
    (h : auth.retired cfg t store) :
    auth.retired cfg t (auth.Register cfg env store body).1 := by
  unfold auth.Register
  apply retired_ite _ _ _ _ _ h
  split
  · exact h
  apply retired_ite _ _ _ _ _ h
  split
  · exact h
  split
  · exact retired_ite _ _ _ _ _ h h
  · exact h
  rename_i userID _
  simp only []
  apply retired_ite _ _ _ _ _ h
  rw [issue_match_fst]
  exact retired_issueTokens cfg t env store userID hfresh h

theorem retired_Login (cfg : AuthConfig) (t : String) (env : AuthEnv)
    (store : RefreshStore) (body : Option loginRequest)
    (hfresh : ∀ raw, env.newRawToken = some raw → cfg.hashToken raw ≠ cfg.hashToken t)
    (h : auth.retired cfg t store) :
    auth.retired cfg t (auth.Login cfg env store body).1 := by
  unfold auth.Login
  apply retired_ite _ _ _ _ _ h
  split
  · exact h
  apply retired_ite _ _ _ _ _ h
  split
  · exact h
  rename_i userID _
  apply retired_ite _ _ _ _ _ h
  rw [issue_match_fst]
  exact retired_issueTokens cfg t env store userID hfresh h

theorem retired_Refresh (cfg : AuthConfig) (t : String) (env : AuthEnv)
    (store : RefreshStore) (body : Option refreshRequest)
    (hfresh : ∀ raw, env.newRawToken = some raw → cfg.hashToken raw ≠ cfg.hashToken t)
    (h : auth.retired cfg t store) :
    auth.retired cfg t (auth.Refresh cfg env store body).1 := by
  unfold auth.Refresh
  apply retired_ite _ _ _ _ _ h
  split
  · exact h
  simp only []
  apply retired_ite _ _ _ _ _ h
  split
  · exact h
  rename_i record _
  apply retired_ite _ _ _ _ _ h
  rw [issue_match_fst]
  apply retired_issueTokens cfg t env _ _ hfresh
  split_ifs
  · exact h
  · exact retired_revoke cfg t store _ _ h

theorem retired_Logout (cfg : AuthConfig) (t : String) (env : AuthEnv)
    (store : RefreshStore) (body : Option logoutRequest)
    (h : auth.retired cfg t store) :
    auth.retired cfg t (auth.Logout cfg env store body).1 := by
  unfold auth.Logout
  apply retired_ite _ _ _ _ _ h
  split
  · exact h
  simp only []
  apply retired_ite _ _ _ _ _ h
  split
  · apply retired_ite _ _ _ _ _ _ h
    simp only []
    split_ifs
    · exact h
    · exact retired_revoke cfg t store _ _ h
  · exact h

theorem retired_step (cfg : AuthConfig) (t : String) (store : RefreshStore) (i : AuthInput)
    (hfresh : auth.fresh cfg t i) (h : auth.retired cfg t store) :
    auth.retired cfg t (auth.step cfg store i).1 := by
  unfold auth.step
  split
  · exact retired_Register cfg t i.env store _ hfresh h
  · exact retired_Login cfg t i.env store _ hfresh h
  · exact retired_Refresh cfg t i.env store _ hfresh h
  · exact retired_Logout cfg t i.env store _ h

theorem retired_run (cfg : AuthConfig) (t : String) (inputs : List AuthInput) :
    ∀ store, (∀ i ∈ inputs, auth.fresh cfg t i) → auth.retired cfg t store →
      auth.retired cfg t (auth.run cfg store inputs) := by
  induction inputs with
  | nil => intro store _ h; exact h
  | cons i rest ih =>
    intro store hfresh h
    unfold auth.run
    rw [List.foldl_cons]
    exact ih _ (fun j hj => hfresh j (List.mem_cons_of_mem i hj))
      (retired_step cfg t store i (hfresh i (List.mem_cons_self i rest)) h)

theorem retired_of_Logout (cfg : AuthConfig) (t : String) (env : AuthEnv)
    (store : RefreshStore) (req : logoutRequest) (ht : t ≠ "")
    (htok : trimSpace req.RefreshToken = t) (hm : env.methodIsPost = true)
    (hget : env.getByHashFails = false) (hrev : env.revokeFails = false) :
    auth.retired cfg t (auth.Logout cfg env store (some req)).1 := by
  unfold auth.Logout
  simp only [hm, htok, ht, hget, hrev, Bool.true_eq_false, Bool.false_eq_true, if_false]
  cases hg : RefreshRepo.GetByHash store (cfg.hashToken t) with
  | none =>
    simp only []
    intro row hrow
    rw [hg] at hrow
    cases hrow
  | some record =>
    simp only []
    split_ifs with hn
    · exact retired_after_revoke cfg t store record env.dbNow hg
    · intro row hrow
      rw [hg] at hrow
      cases hrow
      exact hn

theorem retired_of_Refresh (cfg : AuthConfig) (t : String) (env : AuthEnv)
    (store : RefreshStore) (req : refreshRequest)
    (htok : trimSpace req.RefreshToken = t)
    (hfresh : ∀ raw, env.newRawToken = some raw → cfg.hashToken raw ≠ cfg.hashToken t)
    (hok : (auth.Refresh cfg env store (some req)).2.status = 200)
    (hrev : env.revokeFails = false) :
    auth.retired cfg t (auth.Refresh cfg env store (some req)).1 := by
  unfold auth.Refresh at hok ⊢
  simp only [htok, hrev, Bool.false_eq_true, if_false] at hok ⊢
  by_cases hm : env.methodIsPost = false
  · rw [if_pos hm] at hok
    simp at hok
  rw [if_neg hm] at hok ⊢
  by_cases ht : t = ""
  · rw [if_pos ht] at hok
    simp at hok
  rw [if_neg ht] at hok ⊢
  by_cases hget : env.getByHashFails = true
  · simp only [hget, if_true] at hok
    simp at hok
  simp only [hget, if_false] at hok ⊢
  cases hg : RefreshRepo.GetByHash store (cfg.hashToken t) with
  | none =>
    rw [hg] at hok
    simp at hok
  | some record =>
    rw [hg] at hok
    by_cases hc : record.RevokedAt ≠ none ∨ Time.Before record.ExpiresAt env.now = true
    · simp only [Bool.false_eq_true, if_false, hc, if_true] at hok
      exact absurd hok (by decide)
    · simp only [Bool.false_eq_true, if_false, hc]
      rw [issue_match_fst]
      exact retired_issueTokens cfg t env _ _ hfresh
        (retired_after_revoke cfg t store record env.dbNow hg)

theorem Refresh_rejected (cfg : AuthConfig) (t : String) (env : AuthEnv)
    (store : RefreshStore) (req : refreshRequest) (ht : t ≠ "")
    (htok : trimSpace req.RefreshToken = t) (hm : env.methodIsPost = true)
    (h : auth.retired cfg t store) :
    auth.Refresh cfg env store (some req) = (store, { status := 401, tokens := none }) := by
  unfold auth.Refresh
  simp only [hm, htok, ht, Bool.true_eq_false, if_false]
  by_cases hget : env.getByHashFails = true
  · simp only [hget, if_true]
  · simp only [hget, Bool.false_eq_true, if_false]
    cases hg : RefreshRepo.GetByHash store (cfg.hashToken t) with
    | none => rfl
    | some record =>
      simp only []
      rw [if_pos (Or.inl (h record hg))]

theorem run_append (cfg : AuthConfig) (store : RefreshStore) (a b : List AuthInput) :
    auth.run cfg store (a ++ b) = auth.run cfg (auth.run cfg store a) b := by
  unfold auth.run
  rw [List.foldl_append]

/-- Claim C22. In a sequence of auth requests, let a non-empty refresh token be handed
to `Logout` in a request whose lookup and update succeed, or be accepted by a `Refresh`
that is answered with 200 and whose update succeeds.  If from that request on no
refresh token is issued whose hash is the hash of this token, every later `Refresh`
(a POST whose body is decoded) with the same token is answered with 401, hands out no
tokens and leaves the table of refresh tokens as it is. -/
theorem refresh_token_single_use (cfg : AuthConfig) (store : RefreshStore)
    (pre mid : List AuthInput) (retire later : AuthInput) (t : String)
    (req : refreshRequest) (ht : t ≠ "")
    (hretire : auth.retires cfg (auth.run cfg store pre) retire t)
    (hfresh : ∀ i ∈ retire :: mid, auth.fresh cfg t i)
    (hcall : later.call = .refresh (some req)) (htok : trimSpace req.RefreshToken = t)
    (hpost : later.env.methodIsPost = true) :
    auth.step cfg (auth.run cfg store (pre ++ retire :: mid)) later =
      (auth.run cfg store (pre ++ retire :: mid), { status := 401, tokens := none }) := by
  have hfr := hfresh retire (List.mem_cons_self retire mid)
  have h1 : auth.retired cfg t (auth.step cfg (auth.run cfg store pre) retire).1 := by
    rcases hretire with ⟨r, hc, htk, hm, hget, hrev⟩ | ⟨r, hc, htk, hok, hrev⟩
    · unfold auth.step
      rw [hc]
      exact retired_of_Logout cfg t retire.env _ r ht htk hm hget hrev
    · unfold auth.step at hok ⊢
      rw [hc] at hok ⊢
      exact retired_of_Refresh cfg t retire.env _ r htk hfr hok hrev
  have h2 : auth.retired cfg t (auth.run cfg store (pre ++ retire :: mid)) := by
    rw [run_append]
    show auth.retired cfg t
      (auth.run cfg (auth.step cfg (auth.run cfg store pre) retire).1 mid)
    exact retired_run cfg t mid _ (fun i hi => hfresh i (List.mem_cons_of_mem retire hi)) h1
  unfold auth.step
  rw [hcall]
  exact Refresh_rejected cfg t later.env _ req ht htok hpost h2

theorem refresh_token_single_use_witness :
    auth.step sampleAuthConfig
        (auth.run sampleAuthConfig [] ([sampleRegister] ++
          sampleRefresh "r1" "r2" "row2" :: [sampleLogin "r3" "row3"]))
        (sampleRefresh " r1 " "r4" "row4") =
      (auth.run sampleAuthConfig [] ([sampleRegister] ++
          sampleRefresh "r1" "r2" "row2" :: [sampleLogin "r3" "row3"]),
        { status := 401, tokens := none }) ∧
    auth.step sampleAuthConfig
        (auth.run sampleAuthConfig [] ([sampleRegister] ++
          sampleLogout "r1" :: [sampleLogin "r3" "row3"]))
        (sampleRefresh "r1" "r4" "row4") =
      (auth.run sampleAuthConfig [] ([sampleRegister] ++
          sampleLogout "r1" :: [sampleLogin "r3" "row3"]),
        { status := 401, tokens := none }) ∧
    (auth.step sampleAuthConfig (auth.run sampleAuthConfig [] [sampleRegister])
        (sampleRefresh "r1" "r2" "row2")).2.status = 200 := by
  have hfresh : ∀ (first : AuthInput), auth.fresh sampleAuthConfig "r1" first →
      ∀ i ∈ first :: [sampleLogin "r3" "row3"], auth.fresh sampleAuthConfig "r1" i := by
    intro first hf i hi
    rcases List.mem_cons.1 hi with h | h
    · rw [h]; exact hf
    · rw [List.mem_singleton.1 h]
      intro raw hraw
      cases hraw
      decide
  refine ⟨refresh_token_single_use sampleAuthConfig [] [sampleRegister]
      [sampleLogin "r3" "row3"] (sampleRefresh "r1" "r2" "row2")
      (sampleRefresh " r1 " "r4" "row4") "r1" { RefreshToken := " r1 " } (by decide)
      (Or.inr ⟨{ RefreshToken := "r1" }, rfl, by decide, by decide!, rfl⟩)
      (hfresh _ (fun raw hraw => by cases hraw; decide)) rfl (by decide) rfl,
    refresh_token_single_use sampleAuthConfig [] [sampleRegister]
      [sampleLogin "r3" "row3"] (sampleLogout "r1") (sampleRefresh "r1" "r4" "row4") "r1"
      { RefreshToken := "r1" } (by decide)
      (Or.inl ⟨{ RefreshToken := "r1" }, rfl, by decide, rfl, rfl, rfl⟩)
      (hfresh _ (fun raw hraw => by cases hraw; decide)) rfl (by decide) rfl,
    by decide!⟩

/-! ## Handlers: the fallback to UTC -/

theorem resolvedAs_resolveLocation (load : String → Option Location) (tz : String) :
    ResolvedAs load tz (resolveLocation load tz) := by
  constructor
  · intro h
    simp only [resolveLocation, h]
  · intro loc h
    simp only [resolveLocation, h]

theorem resolvedAs_of_eq (load : String → Option Location) (tz : String) (used : Location)
    (h : used = resolveLocation load tz) : ResolvedAs load tz used := by
  rw [h]
  exact resolvedAs_resolveLocation load tz

theorem fallsBack_of_resolve {R : Type} (run : (String → Option Location) → R) (tz : String)
    (h : ∀ f g, resolveLocation f tz = resolveLocation g tz → run f = run g) :
    FallsBackToUTC run tz := by
  intro load
  constructor
  · intro hl
    apply h
    simp only [resolveLocation, hl]
  · intro loc hl
    apply h
    simp only [resolveLocation, hl]

theorem Post_congr {F : Type} (env : PostEnv F) (s : Settings) (hs : env.settings = some s)
    (f g : String → Option Location)
    (h : resolveLocation f s.Timezone = resolveLocation g s.Timezone) :
    reviews.Post { env with loadLocation := f } = reviews.Post { env with loadLocation := g } := by
  unfold reviews.Post
  simp only [hs, h]

theorem submitLoop_loadLocation {F : Type} (env : SubmitEnv F) (f : String → Option Location)
    (s : Settings) (loc : Location) (rs : List submitResult) :
    ∀ (i : Nat) (calls : List (UpdateCall F)),
      submitLoop { env with loadLocation := f } s loc rs i calls =
        submitLoop env s loc rs i calls := by
  induction rs with
  | nil =>
    intro i calls
    unfold submitLoop
    rfl
  | cons a rest ih =>
    intro i calls
    unfold submitLoop
    simp only [ih]

theorem SubmitResults_congr {F : Type} (env : SubmitEnv F) (s : Settings)
    (hs : env.settings = some s) (f g : String → Option Location)
    (h : resolveLocation f s.Timezone = resolveLocation g s.Timezone) :
    contests.SubmitResults { env with loadLocation := f } =
      contests.SubmitResults { env with loadLocation := g } := by
  unfold contests.SubmitResults
  simp only [submitLoop_loadLocation]
  simp only [hs, h]

theorem Create_congr {F : Type} (env : CreateEnv F) (s : Settings) (hs : env.settings = some s)
    (f g : String → Option Location)
    (h : resolveLocation f s.Timezone = resolveLocation g s.Timezone) :
    problems.Create { env with loadLocation := f } =
      problems.Create { env with loadLocation := g } := by
  unfold problems.Create
  simp only [hs, h]

theorem AddItem_congr (env : AddItemEnv) (s : Settings) (hs : env.settings = some s)
    (f g : String → Option Location)
    (h : resolveLocation f s.Timezone = resolveLocation g s.Timezone) :
    lists.AddItem { env with loadLocation := f } = lists.AddItem { env with loadLocation := g } := by
  unfold lists.AddItem
  simp only [hs, h]

theorem importLoop_loadLocation (env : ImportEnv) (f : String → Option Location)
    (items : List Problem) :
    ∀ i : Nat, importLoop { env with loadLocation := f } items i = importLoop env items i := by
  induction items with
  | nil =>
    intro i
    unfold importLoop
    rfl
  | cons a rest ih =>
    intro i
    unfold importLoop
    simp only [ih]

theorem Import_congr (env : ImportEnv) (s : Settings) (hs : env.settings = some s)
    (f g : String → Option Location)
    (h : resolveLocation f s.Timezone = resolveLocation g s.Timezone) :
    lists.Import { env with loadLocation := f } = lists.Import { env with loadLocation := g } := by
  unfold lists.Import
  simp only [importLoop_loadLocation]
  simp only [hs, h]

theorem Overview_congr (env : OverviewEnv) (s : Settings) (hs : env.settings = some s)
    (f g : String → Option Location)
    (h : resolveLocation f s.Timezone = resolveLocation g s.Timezone) :
    stats.Overview { env with loadLocation := f } = stats.Overview { env with loadLocation := g } := by
  unfold stats.Overview
  simp only [hs, h]

theorem Streaks_congr (env : StreaksEnv) (s : Settings) (hs : env.settings = some s)
    (f g : String → Option Location)
    (h : resolveLocation f s.Timezone = resolveLocation g s.Timezone) :
    stats.Streaks { env with loadLocation := f } = stats.Streaks { env with loadLocation := g } := by
  unfold stats.Streaks
  simp only [hs, h]

theorem Contests_congr {F : Type} (env : ContestsEnv F) (s : Settings)
    (hs : env.settings = some s) (f g : String → Option Location)
    (h : resolveLocation f s.Timezone = resolveLocation g s.Timezone) :
    stats.Contests { env with loadLocation := f } = stats.Contests { env with loadLocation := g } := by
  unfold stats.Contests
  simp only [hs, h]

theorem ICS_congr (env : ICSEnv) (s : Settings) (hs : env.settings = some s)
    (f g : String → Option Location)
    (h : resolveLocation f s.Timezone = resolveLocation g s.Timezone) :
    calendar.ICS { env with loadLocation := f } = calendar.ICS { env with loadLocation := g } := by
  unfold calendar.ICS
  simp only [hs, h]
theorem AddItem_status_loadLocation (env : AddItemEnv) (f : String → Option Location) :
    (lists.AddItem { env with loadLocation := f }).status = (lists.AddItem env).status := by
  unfold lists.AddItem
  simp only []
  repeat (first | rfl | split)

theorem Import_status_loadLocation (env : ImportEnv) (f : String → Option Location) :
    (lists.Import { env with loadLocation := f }).status = (lists.Import env).status := by
  unfold lists.Import
  simp only [importLoop_loadLocation]
  repeat (first | rfl | split)

theorem Streaks_status_loadLocation (env : StreaksEnv) (f : String → Option Location) :
    (stats.Streaks { env with loadLocation := f }).status = (stats.Streaks env).status := by
  unfold stats.Streaks
  simp only []
  repeat (first | rfl | split)

theorem ICS_status_loadLocation (env : ICSEnv) (f : String → Option Location) :
    (calendar.ICS { env with loadLocation := f }).status = (calendar.ICS env).status := by
  unfold calendar.ICS
  simp only []
  repeat (first | rfl | split)

theorem Create_dueAtToday_eq {F : Type} (env : CreateEnv F) :
    (problems.Create env).dueAtToday = [] ∨
      ∃ s, env.settings = some s ∧
        (problems.Create env).dueAtToday =
          [{ now := env.now, loc := resolveLocation env.loadLocation s.Timezone,
             dueHourLocal := s.DueHourLocal, dueMinuteLocal := s.DueMinuteLocal }] := by
  unfold problems.Create
  simp only []
  repeat (first | exact Or.inl rfl | exact Or.inr ⟨_, by assumption, rfl⟩ | split)

theorem AddItem_dueAtToday_eq (env : AddItemEnv) :
    (lists.AddItem env).dueAtToday = [] ∨
      ∃ s, env.settings = some s ∧
        (lists.AddItem env).dueAtToday =
          [{ now := env.now, loc := resolveLocation env.loadLocation s.Timezone,
             dueHourLocal := s.DueHourLocal, dueMinuteLocal := s.DueMinuteLocal }] := by
  unfold lists.AddItem
  simp only []
  repeat (first | exact Or.inl rfl | exact Or.inr ⟨_, by assumption, rfl⟩ | split)

theorem Import_dueAtToday_eq (env : ImportEnv) :
    (lists.Import env).dueAtToday = [] ∨
      ∃ s, env.settings = some s ∧
        (lists.Import env).dueAtToday =
          [{ now := env.now, loc := resolveLocation env.loadLocation s.Timezone,
             dueHourLocal := s.DueHourLocal, dueMinuteLocal := s.DueMinuteLocal }] := by
  unfold lists.Import
  simp only []
  repeat (first | exact Or.inl rfl | exact Or.inr ⟨_, by assumption, rfl⟩ | split)
/-- Claim C13. At each of the nine places where a handler resolves the timezone of the
user (reviews `Post`, contests `SubmitResults`, problems `Create`, lists `AddItem` and
`Import`, stats `Overview`, `Streaks` and `Contests`, calendar `ICS`), for the settings
`s` that the handler has loaded: when `time.LoadLocation` fails for `s.Timezone` the
handler does exactly what it does when the lookup gives UTC, and when the lookup gives a
location it does what it does with that location; every `scheduler.Update` and
`scheduler.DueAtToday` call on record gets the location so resolved.  In the seven
handlers whose later steps are not made with the location, the status of the answer is
the same whatever `time.LoadLocation` returns. -/
theorem handlers_timezone_fallback {F : Type} (pe : PostEnv F) (se : SubmitEnv F)
    (ce : CreateEnv F) (ae : AddItemEnv) (ie : ImportEnv) (oe : OverviewEnv) (ke : StreaksEnv)
    (te : ContestsEnv F) (ics : ICSEnv) :
    (∀ s, pe.settings = some s →
        FallsBackToUTC (fun load => reviews.Post { pe with loadLocation := load }) s.Timezone ∧
          ∀ c ∈ (reviews.Post pe).updates, ResolvedAs pe.loadLocation s.Timezone c.loc) ∧
      (∀ s, se.settings = some s →
        FallsBackToUTC (fun load => contests.SubmitResults { se with loadLocation := load })
            s.Timezone ∧
          ∀ c ∈ (contests.SubmitResults se).updates,
            ResolvedAs se.loadLocation s.Timezone c.loc) ∧
      (∀ s, ce.settings = some s →
        FallsBackToUTC (fun load => problems.Create { ce with loadLocation := load })
            s.Timezone ∧
          (∀ c ∈ (problems.Create ce).updates, ResolvedAs ce.loadLocation s.Timezone c.loc) ∧
          ∀ c ∈ (problems.Create ce).dueAtToday,
            ResolvedAs ce.loadLocation s.Timezone c.loc) ∧
      (∀ s, ae.settings = some s →
        FallsBackToUTC (fun load => lists.AddItem { ae with loadLocation := load }) s.Timezone ∧
          ∀ c ∈ (lists.AddItem ae).dueAtToday, ResolvedAs ae.loadLocation s.Timezone c.loc) ∧
      (∀ s, ie.settings = some s →
        FallsBackToUTC (fun load => lists.Import { ie with loadLocation := load }) s.Timezone ∧
          ∀ c ∈ (lists.Import ie).dueAtToday, ResolvedAs ie.loadLocation s.Timezone c.loc) ∧
      (∀ s, oe.settings = some s →
        FallsBackToUTC (fun load => stats.Overview { oe with loadLocation := load })
          s.Timezone) ∧
      (∀ s, ke.settings = some s →
        FallsBackToUTC (fun load => stats.Streaks { ke with loadLocation := load })
          s.Timezone) ∧
      (∀ s, te.settings = some s →
        FallsBackToUTC (fun load => stats.Contests { te with loadLocation := load })
          s.Timezone) ∧
      (∀ s, ics.settings = some s →
        FallsBackToUTC (fun load => calendar.ICS { ics with loadLocation := load })
          s.Timezone) ∧
      ∀ load : String → Option Location,
        (reviews.Post { pe with loadLocation := load }).status = (reviews.Post pe).status ∧
          (contests.SubmitResults { se with loadLocation := load }).status =
            (contests.SubmitResults se).status ∧
          (problems.Create { ce with loadLocation := load }).status =
            (problems.Create ce).status ∧
          (lists.AddItem { ae with loadLocation := load }).status = (lists.AddItem ae).status ∧
          (lists.Import { ie with loadLocation := load }).status = (lists.Import ie).status ∧
          (stats.Streaks { ke with loadLocation := load }).status = (stats.Streaks ke).status ∧
          (calendar.ICS { ics with loadLocation := load }).status = (calendar.ICS ics).status := by
  refine ⟨?_, ?_, ?_, ?_, ?_, ?_, ?_, ?_, ?_, ?_⟩
  · intro s hs
    refine ⟨fallsBack_of_resolve _ _ (Post_congr pe s hs), fun c hc => ?_⟩
    obtain ⟨-, req, s', -, hs', -, hloc, -⟩ := Post_updates pe c hc
    rw [hs] at hs'
    cases hs'
    exact resolvedAs_of_eq _ _ _ hloc
  · intro s hs
    refine ⟨fallsBack_of_resolve _ _ (SubmitResults_congr se s hs), fun c hc => ?_⟩
    obtain ⟨-, rs, s', -, hs', -, hloc, -⟩ := SubmitResults_updates se c hc
    rw [hs] at hs'
    cases hs'
    exact resolvedAs_of_eq _ _ _ hloc
  · intro s hs
    refine ⟨fallsBack_of_resolve _ _ (Create_congr ce s hs), fun c hc => ?_, fun c hc => ?_⟩
    · obtain ⟨-, req, initial, s', -, -, hs', -, hloc, -⟩ := Create_updates ce c hc
      rw [hs] at hs'
      cases hs'
      exact resolvedAs_of_eq _ _ _ hloc
    · rcases Create_dueAtToday_eq ce with h | ⟨s', hs', h⟩
      · rw [h] at hc
        simp at hc
      · rw [hs] at hs'
        cases hs'
        rw [h, List.mem_singleton] at hc
        exact resolvedAs_of_eq _ _ _ (by rw [hc])
  · intro s hs
    refine ⟨fallsBack_of_resolve _ _ (AddItem_congr ae s hs), fun c hc => ?_⟩
    rcases AddItem_dueAtToday_eq ae with h | ⟨s', hs', h⟩
    · rw [h] at hc
      simp at hc
    · rw [hs] at hs'
      cases hs'
      rw [h, List.mem_singleton] at hc
      exact resolvedAs_of_eq _ _ _ (by rw [hc])
  · intro s hs
    refine ⟨fallsBack_of_resolve _ _ (Import_congr ie s hs), fun c hc => ?_⟩
    rcases Import_dueAtToday_eq ie with h | ⟨s', hs', h⟩
    · rw [h] at hc
      simp at hc
    · rw [hs] at hs'
      cases hs'
      rw [h, List.mem_singleton] at hc
      exact resolvedAs_of_eq _ _ _ (by rw [hc])
  · exact fun s hs => fallsBack_of_resolve _ _ (Overview_congr oe s hs)
  · exact fun s hs => fallsBack_of_resolve _ _ (Streaks_congr ke s hs)
  · exact fun s hs => fallsBack_of_resolve _ _ (Contests_congr te s hs)
  · exact fun s hs => fallsBack_of_resolve _ _ (ICS_congr ics s hs)
  · exact fun load => ⟨Post_status_loadLocation pe load, SubmitResults_status_loadLocation se load,
      Create_status_loadLocation ce load, AddItem_status_loadLocation ae load,
      Import_status_loadLocation ie load, Streaks_status_loadLocation ke load,
      ICS_status_loadLocation ics load⟩

/-- Claim C13 on sample requests of a user whose timezone does not resolve: no request
fails, every scheduler call on record gets UTC, and the overview, the streak, the
contest statistics and the calendar feed are the ones of a user in UTC; three hours
east of UTC the streak and the overview would be other ones. -/
theorem handlers_timezone_fallback_witness :
    ((reviews.Post (samplePostEnv 3)).status = 200 ∧
        ∀ c ∈ (reviews.Post (samplePostEnv 3)).updates, c.loc = Location.UTC) ∧
      ((contests.SubmitResults (sampleSubmitEnv 3 4)).status = 200 ∧
        ∀ c ∈ (contests.SubmitResults (sampleSubmitEnv 3 4)).updates, c.loc = Location.UTC) ∧
      ((problems.Create (sampleCreateEnv 3 (some sampleSettings))).status = 201 ∧
        (∀ c ∈ (problems.Create (sampleCreateEnv 3 (some sampleSettings))).updates,
          c.loc = Location.UTC) ∧
        ∀ c ∈ (problems.Create (sampleCreateEnv 3 (some sampleSettings))).dueAtToday,
          c.loc = Location.UTC) ∧
      ((lists.AddItem sampleAddItemEnv).status = 204 ∧
        (lists.AddItem sampleAddItemEnv).dueAtToday.length = 1 ∧
        ∀ c ∈ (lists.AddItem sampleAddItemEnv).dueAtToday, c.loc = Location.UTC) ∧
      ((lists.Import sampleImportEnv).status = 201 ∧
        (lists.Import sampleImportEnv).dueAtToday.length = 1 ∧
        ∀ c ∈ (lists.Import sampleImportEnv).dueAtToday, c.loc = Location.UTC) ∧
      (stats.Overview sampleOverviewEnv =
          stats.Overview { sampleOverviewEnv with loadLocation := fun _ => some Location.UTC } ∧
        (stats.Overview sampleOverviewEnv).status = 200 ∧
        (stats.Overview sampleOverviewEnv).body =
          some { ActiveProblems := 5, OverdueCount := 1, DueTodayCount := 2, DueSoonCount := 1,
                 ReviewsLast7Days := 4, CurrentStreakDays := 2 } ∧
        (stats.Overview { sampleOverviewEnv with loadLocation := fun _ => some eastZone }).body =
          some { ActiveProblems := 5, OverdueCount := 2, DueTodayCount := 2, DueSoonCount := 1,
                 ReviewsLast7Days := 4, CurrentStreakDays := 1 }) ∧
      (stats.Streaks sampleStreaksEnv =
          stats.Streaks { sampleStreaksEnv with loadLocation := fun _ => some Location.UTC } ∧
        (stats.Streaks sampleStreaksEnv).status = 200 ∧
        (stats.Streaks sampleStreaksEnv).body = some { CurrentStreakDays := 2 } ∧
        (stats.Streaks { sampleStreaksEnv with loadLocation := fun _ => some eastZone }).body =
          some { CurrentStreakDays := 1 }) ∧
      (stats.Contests sampleContestsEnv =
          stats.Contests { sampleContestsEnv with loadLocation := fun _ => some Location.UTC } ∧
        (stats.Contests sampleContestsEnv).status = 200 ∧
        ((stats.Contests sampleContestsEnv).body.map
            (fun b => b.Days.map (fun d => (d.Date, d.ProblemsRecorded)))) =
          some [("1970-04-10", 0), ("1970-04-11", 3)]) ∧
      (calendar.ICS sampleICSEnv =
          calendar.ICS { sampleICSEnv with loadLocation := fun _ => some Location.UTC } ∧
        (calendar.ICS sampleICSEnv).status = 200) := by
  have h := handlers_timezone_fallback (samplePostEnv 3) (sampleSubmitEnv 3 4)
    (sampleCreateEnv 3 (some sampleSettings)) sampleAddItemEnv sampleImportEnv sampleOverviewEnv
    sampleStreaksEnv sampleContestsEnv sampleICSEnv
  obtain ⟨h1, h2, h3, h4, h5, h6, h7, h8, h9, -⟩ := h
  refine ⟨⟨rfl, fun c hc => ((h1 sampleSettings rfl).2 c hc).1 rfl⟩,
    ⟨rfl, fun c hc => ((h2 sampleSettings rfl).2 c hc).1 rfl⟩,
    ⟨rfl, fun c hc => ((h3 sampleSettings rfl).2.1 c hc).1 rfl,
      fun c hc => ((h3 sampleSettings rfl).2.2 c hc).1 rfl⟩,
    ⟨rfl, rfl, fun c hc => ((h4 sampleSettings rfl).2 c hc).1 rfl⟩,
    ⟨by decide!, by decide!, fun c hc => ((h5 sampleSettings rfl).2 c hc).1 rfl⟩,
    ⟨((h6 sampleSettings rfl) (fun _ => none)).1 rfl, by decide!, by decide!, by decide!⟩,
    ⟨((h7 sampleSettings rfl) (fun _ => none)).1 rfl, by decide!, by decide!, by decide!⟩,
    ⟨((h8 sampleSettings rfl) (fun _ => none)).1 rfl, by decide!, by decide!⟩,
    ⟨((h9 sampleSettings rfl) (fun _ => none)).1 rfl, by decide!⟩⟩

end PrepTracker
